import Mathlib

/-!
# DarkRadiant: materials, particles, maps, selection groups and commands

A shallow embedding of parts of

* `radiantcore/shaders/Doom3ShaderSystem.cpp` (material naming, creation, copy, rename, save,
  lighting mode),
* `plugins/particles/ParticlesManager.cpp` (`stripParticleDefFromStream`, `saveParticleDef`,
  `parseParticleDef`),
* `radiant/map/Map.cpp` (worldspawn lookup and insertion, map loading, the import filter, prefab
  insertion, saving on request),
* `radiant/selection/group/SelectionGroupManager.cpp` (selection groups),
* `radiantcore/map/format/Doom3MapReader.cpp` (the map reader),
* `radiantcore/layers/LayerModule.cpp` (layer commands),
* `plugins/eclassmgr/Doom3EntityClass.cpp` (`resolveInheritance`),
* `plugins/script/interfaces/PatchInterface.cpp` (`ScriptPatchNode::ctrlAt`),
* `libs/gtkutil/TreeModel.h` (`Column::getWxType`),
* the command registry exercised by `test/CommandSystem.cpp`,

together with theorems about them.  Strings are lists of characters.
-/

namespace DarkRadiant

/-- A `std::string`, as the list of its characters. -/
abbrev Str := List Char

/-! ## Number formatting (`fmt::format("{0:02d}", i)`) -/

/-- Wrap-around of a 32-bit signed `int` (the counter `i` of `ensureNonConflictingName`). -/
def wrapInt32 (x : Int) : Int := (x + 2147483648) % 4294967296 - 2147483648

/-- The decimal digit character of `d % 10`. -/
def digitChar (d : Nat) : Char := Char.ofNat (48 + d % 10)

/-- Decimal digits of `n`, most significant first; the first argument bounds the recursion. -/
def decimalAux : Nat → Nat → Str
  | 0, n => [digitChar n]
  | fuel + 1, n => if n < 10 then [digitChar n] else decimalAux fuel (n / 10) ++ [digitChar n]

/-- Decimal representation of a natural number. -/
def decimal (n : Nat) : Str := decimalAux n n

/-- The text `fmt::format("{0:02d}", v)` produces: sign-aware zero padding to width 2. -/
def format02d (v : Int) : Str :=
  if v < 0 then '-' :: decimal v.natAbs
  else if v < 10 then '0' :: decimal v.toNat
  else decimal v.toNat

/-! ## The material library state -/

/-- The `vfs::FileInfo` of a declaration's block syntax: the file's logical name and whether
it is a physical (writable) file. -/
structure FileInfo where
  name : Str
  isPhysicalFile : Bool
  deriving DecidableEq, Repr

/-- A material declaration held by the declaration manager: its name, the origin of its block
syntax and the block contents. -/
structure Declaration where
  name : Str
  fileInfo : FileInfo
  contents : Str
  deriving DecidableEq, Repr

/-- A material (`CShader`) held by the shader library: its name, the working copy of the
definition and the modified flag. -/
structure CShader where
  name : Str
  working : Str
  modified : Bool
  deriving DecidableEq, Repr

/-- What the shader system emits or asks of its collaborators, in order of occurrence. -/
inductive Event where
  | materialCreated (name : Str)
  | materialRenamed (oldName newName : Str)
  | materialRemoved (name : Str)
  | findOrCreateDeclaration (name : Str)
  | copyDefinition (nameOfOriginal nameOfCopy : Str)
  | commitModifications (name : Str)
  | saveDeclaration (name : Str)
  deriving DecidableEq, Repr

/-- The state reachable from `Doom3ShaderSystem`: the material declarations of the declaration
manager, the materials of the shader library and the log of signals and outgoing calls. -/
structure ShaderSystem where
  decls : List Declaration
  shaders : List CShader
  log : List Event
  deriving DecidableEq, Repr

/-- Modelled from the spec: `ShaderLibrary::definitionExists` (ShaderLibrary.cpp is not part of
the sources); a definition exists when the declaration manager has a material declaration of
that name ("`findDeclaration(type, name)` returns the declaration or absent"). -/
def ShaderSystem.definitionExists (s : ShaderSystem) (name : Str) : Bool :=
  s.decls.any (fun d => d.name == name)

/-- Length of the longest declaration name (0 for an empty library). -/
def ShaderSystem.maxNameLength (s : ShaderSystem) : Nat :=
  (s.decls.map (fun d => d.name.length)).foldr max 0

theorem decimalAux_length_pos (fuel n : Nat) : 0 < (decimalAux fuel n).length := by
  induction fuel generalizing n with
  | zero => simp [decimalAux]
  | succ k ih =>
    unfold decimalAux
    split <;> simp

theorem format02d_length_pos (v : Int) : 0 < (format02d v).length := by
  unfold format02d
  split
  · simp
  · split
    · simp
    · exact decimalAux_length_pos _ _

theorem length_le_foldr_max (ds : List Declaration) (name : Str)
    (h : ds.any (fun d => d.name == name) = true) :
    name.length ≤ (ds.map (fun d => d.name.length)).foldr max 0 := by
  induction ds with
  | nil => simp at h
  | cons d ds ih =>
    simp only [List.any_cons, Bool.or_eq_true, beq_iff_eq] at h
    simp only [List.map_cons, List.foldr_cons]
    rcases h with h | h
    · subst h; exact le_max_left _ _
    · exact le_trans (ih h) (le_max_right _ _)

theorem ShaderSystem.length_le_of_exists (s : ShaderSystem) (name : Str)
    (h : s.definitionExists name = true) : name.length ≤ s.maxNameLength :=
  length_le_foldr_max s.decls name h

/-- The loop of `Doom3ShaderSystem::ensureNonConflictingName`: while a definition named
`candidate` exists, increment `i` and append its two-digit rendering to `candidate`. -/
def ensureLoop (s : ShaderSystem) (candidate : Str) (i : Int) : Str :=
  if h : s.definitionExists candidate = true then
    ensureLoop s (candidate ++ format02d (wrapInt32 (i + 1))) (wrapInt32 (i + 1))
  else candidate
termination_by s.maxNameLength + 1 - candidate.length
decreasing_by
  have h1 := s.length_le_of_exists candidate h
  have h2 := format02d_length_pos (wrapInt32 (i + 1))
  simp only [List.length_append]
  omega

/-- `Doom3ShaderSystem::ensureNonConflictingName(name)`: the returned candidate, paired with
the state after the call (the function only queries the library). -/
def ensureNonConflictingName (s : ShaderSystem) (name : Str) : Str × ShaderSystem :=
  (ensureLoop s name 0, s)

/-- A library state holding exactly the named declarations, none of them sourced from a file. -/
def libraryOf (names : List Str) : ShaderSystem :=
  { decls := names.map (fun n => { name := n, fileInfo := { name := [], isPhysicalFile := false },
                                   contents := [] }),
    shaders := [], log := [] }

/-! ## Material operations of `Doom3ShaderSystem` -/

/-- Record a signal emission or an outgoing call. -/
def ShaderSystem.emit (s : ShaderSystem) (e : Event) : ShaderSystem :=
  { s with log := s.log ++ [e] }

/-- Modelled from the spec: `IDeclarationManager::findDeclaration(Material, name)`
(DeclarationManager.cpp is not part of the sources), "returns the declaration or absent". -/
def ShaderSystem.findDeclaration (s : ShaderSystem) (name : Str) : Option Declaration :=
  s.decls.find? (fun d => d.name == name)

/-- Modelled from the spec: `IDeclarationManager::findOrCreateDeclaration(Material, name)`
(DeclarationManager.cpp is not part of the sources), which "creates an empty declaration if
missing" that is "sourced-from no file"; an existing declaration is returned as it is.  The
request is recorded in the log. -/
def ShaderSystem.findOrCreateDeclaration (s : ShaderSystem) (name : Str) :
    Declaration × ShaderSystem :=
  match s.findDeclaration name with
  | some d => (d, s.emit (Event.findOrCreateDeclaration name))
  | none =>
    ({ name := name, fileInfo := { name := [], isPhysicalFile := false }, contents := [] },
     { s with decls := s.decls ++ [{ name := name,
                                     fileInfo := { name := [], isPhysicalFile := false },
                                     contents := [] }],
              log := s.log ++ [Event.findOrCreateDeclaration name] })

/-- Modelled from the spec: `ShaderLibrary::findShader(name)` (ShaderLibrary.cpp is not part of
the sources).  "A `Material` exists for every material declaration": the material of that name
held by the library, or a new unmodified one wrapping the definition of that name, which the
library then holds. -/
def ShaderSystem.findShader (s : ShaderSystem) (name : Str) : CShader × ShaderSystem :=
  match s.shaders.find? (fun m => m.name == name) with
  | some m => (m, s)
  | none =>
    ({ name := name, working := ((s.findDeclaration name).map (fun d => d.contents)).getD [],
       modified := false },
     { s with shaders := s.shaders ++
         [{ name := name,
            working := ((s.findDeclaration name).map (fun d => d.contents)).getD [],
            modified := false }] })

/-- Modelled from the spec: `CShader::setIsModified()` on the material of the given name
("sets its modified flag"). -/
def ShaderSystem.setIsModified (s : ShaderSystem) (name : Str) : ShaderSystem :=
  { s with shaders := s.shaders.map (fun m => if m.name == name then { m with modified := true }
                                              else m) }

/-- Modelled from the spec: `ShaderLibrary::copyDefinition(nameOfOriginal, nameOfCopy)`
(ShaderLibrary.cpp is not part of the sources): a new definition named `nameOfCopy` with a copy
of the original's contents ("deep-copies stages"), sourced from no file. -/
def ShaderSystem.copyDefinition (s : ShaderSystem) (nameOfOriginal nameOfCopy : Str) :
    ShaderSystem :=
  { s with decls := s.decls ++ [{ name := nameOfCopy,
                                  fileInfo := { name := [], isPhysicalFile := false },
                                  contents := ((s.findDeclaration nameOfOriginal).map
                                    (fun d => d.contents)).getD [] }],
           log := s.log ++ [Event.copyDefinition nameOfOriginal nameOfCopy] }

/-- Modelled from the spec: `ShaderLibrary::renameDefinition(oldName, newName)`
(ShaderLibrary.cpp is not part of the sources): it "changes the identity under DeclMgr; fails if
`new` exists".  On failure nothing changes; renaming a name that has no definition fails too.
On success the definition and the material held under the old name carry the new name. -/
def ShaderSystem.renameDefinition (s : ShaderSystem) (oldName newName : Str) :
    Bool × ShaderSystem :=
  if s.definitionExists newName || !s.definitionExists oldName then (false, s)
  else
    (true,
     { s with decls := s.decls.map (fun d => if d.name == oldName then { d with name := newName }
                                             else d),
              shaders := s.shaders.map (fun m => if m.name == oldName
                                                 then { m with name := newName } else m) })

/-- Modelled from the spec: `CShader::commitModifications()` on the material of the given name:
it "replaces the backing declaration's block syntax with generated canonical text and clears the
modified flag".  The call is recorded in the log. -/
def ShaderSystem.commitModifications (s : ShaderSystem) (name : Str) : ShaderSystem :=
  match s.shaders.find? (fun m => m.name == name) with
  | some m =>
    { decls := s.decls.map (fun d => if d.name == name then { d with contents := m.working }
                                     else d),
      shaders := s.shaders.map (fun x => if x.name == name then { x with modified := false }
                                         else x),
      log := s.log ++ [Event.commitModifications name] }
  | none => s.emit (Event.commitModifications name)

/-- `Doom3ShaderSystem::materialCanBeModified(name)`. -/
def materialCanBeModified (s : ShaderSystem) (name : Str) : Bool :=
  if !s.definitionExists name then false
  else
    match s.findDeclaration name with
    | some decl => decl.fileInfo.name.isEmpty || decl.fileInfo.isPhysicalFile
    | none => false

/-- `Doom3ShaderSystem::createEmptyMaterial(name)`: the returned material and the state
afterwards. -/
def createEmptyMaterial (s : ShaderSystem) (name : Str) : CShader × ShaderSystem :=
  let candidate := (ensureNonConflictingName s name).1
  let s1 := (s.findOrCreateDeclaration name).2
  let s2 := (s1.findShader candidate).2
  let s3 := s2.setIsModified candidate
  let s4 := s3.emit (Event.materialCreated candidate)
  ({ (s1.findShader candidate).1 with modified := true }, s4)

/-- `Doom3ShaderSystem::renameMaterial(oldName, newName)`. -/
def renameMaterial (s : ShaderSystem) (oldName newName : Str) : Bool × ShaderSystem :=
  let r := s.renameDefinition oldName newName
  if r.1 then (r.1, r.2.emit (Event.materialRenamed oldName newName))
  else (r.1, r.2)

/-- `Doom3ShaderSystem::copyMaterial(nameOfOriginal, nameOfCopy)`: the returned material
(`none` for the null pointer) and the state afterwards. -/
def copyMaterial (s : ShaderSystem) (nameOfOriginal nameOfCopy : Str) :
    Option CShader × ShaderSystem :=
  if nameOfCopy.isEmpty then (none, s)
  else
    let candidate := (ensureNonConflictingName s nameOfCopy).1
    if !s.definitionExists nameOfOriginal then (none, s)
    else
      let s1 := s.copyDefinition nameOfOriginal candidate
      let s2 := s1.emit (Event.materialCreated candidate)
      let s3 := (s2.findShader candidate).2
      let s4 := s3.setIsModified candidate
      (some { (s2.findShader candidate).1 with modified := true }, s4)

/-- The message of the exception `saveMaterial` throws for a read-only material. -/
def readOnlyMessage : Str := "Cannot save this material, it's read-only.".toList

/-- `Doom3ShaderSystem::saveMaterial(name)`: the message of the exception thrown, if any, and the
state afterwards. -/
def saveMaterial (s : ShaderSystem) (name : Str) : Option Str × ShaderSystem :=
  let material := (s.findShader name).1
  let s1 := (s.findShader name).2
  if !material.modified then (none, s1)
  else if !materialCanBeModified s1 material.name then (some readOnlyMessage, s1)
  else
    let s2 := s1.commitModifications material.name
    (none, s2.emit (Event.saveDeclaration material.name))

/-! ## Scene root and worldspawn (`Map.cpp`) -/

/-- A child node of the scene root: its identity and whether it is a worldspawn entity
(`node_is_worldspawn`). -/
structure Node where
  id : Nat
  isWorldspawn : Bool
  deriving DecidableEq, Repr

/-- The state `Map::findOrInsertWorldspawn` works on: the ordered child list of the scene graph
root, the map's `m_world_node`, and the identity the entity creator gives to the next node. -/
structure MapState where
  children : List Node
  worldNode : Option Node
  nextId : Nat
  deriving DecidableEq, Repr

/-- Modelled from the spec: `scene::Node::addChildNode` (scenelib is not part of the sources);
"insertion preserves child order", the new child comes last. -/
def addChildNode (children : List Node) (child : Node) : List Node := children ++ [child]

/-- Modelled from the spec: `scene::Node::removeChildNode` (scenelib is not part of the
sources); the node leaves the child list, the others keep their order. -/
def removeChildNode (children : List Node) (child : Node) : List Node := children.erase child

/-- Modelled from the spec: `scene::Node::traverseChildren(visitor)` (scenelib is not part of the
sources) for a visitor whose `pre` returns `false`, so that the children are visited in order
and none of them is descended into; `pre` acts on the visitor's state. -/
def traverseChildren {σ : Type} (children : List Node) (pre : σ → Node → σ) (init : σ) : σ :=
  children.foldl pre init

/-- `MapWorldspawnFinder::pre`: store the first worldspawn into the map. -/
def MapWorldspawnFinder.pre (worldNode : Option Node) (node : Node) : Option Node :=
  if node.isWorldspawn then
    if worldNode.isNone then some node else worldNode
  else worldNode

/-- `CollectAllWalker::pre`: add the node to the list. -/
def CollectAllWalker.pre (nodes : List Node) (node : Node) : List Node := nodes ++ [node]

/-- `Node_insertChildFirst(parent, child)`, on the child list of `parent`: collect all children,
remove them from the parent (the walker's destructor), add `child`, add the collected nodes
again. -/
def Node_insertChildFirst (children : List Node) (child : Node) : List Node :=
  let nodes := traverseChildren children CollectAllWalker.pre []
  let emptied := nodes.foldl removeChildNode children
  nodes.foldl addChildNode (addChildNode emptied child)

/-- Modelled from the spec: the node `GlobalEntityCreator().createEntity` returns for the
`worldspawn` entity class (the entity creator is not part of the sources): a new worldspawn
entity with an identity not used before. -/
def createWorldspawnEntity (m : MapState) : Node × MapState :=
  ({ id := m.nextId, isWorldspawn := true }, { m with nextId := m.nextId + 1 })

/-- `createWorldspawn()`: create the entity and insert it as first child of the root. -/
def createWorldspawn (m : MapState) : Node × MapState :=
  let r := createWorldspawnEntity m
  (r.1, { r.2 with children := Node_insertChildFirst r.2.children r.1 })

/-- `Map::findWorldspawn()`: clear the current worldspawn, traverse the root's children with the
finder, return `getWorldspawn()`. -/
def findWorldspawn (m : MapState) : Option Node × MapState :=
  let m1 := { m with worldNode := none }
  let found := traverseChildren m1.children MapWorldspawnFinder.pre m1.worldNode
  (found, { m1 with worldNode := found })

/-- `Map::updateWorldspawn()`. -/
def updateWorldspawn (m : MapState) : MapState :=
  match findWorldspawn m with
  | (none, m1) =>
    let r := createWorldspawn m1
    { r.2 with worldNode := some r.1 }
  | (some _, m1) => m1

/-- `Map::findOrInsertWorldspawn()`: the returned node and the state afterwards. -/
def findOrInsertWorldspawn (m : MapState) : Option Node × MapState :=
  let m1 := updateWorldspawn m
  (m1.worldNode, m1)

/-! ## Streams (`std::istream`, `std::getline`) -/

/-- An input stream: the characters not yet read and the `eofbit` and `failbit` state flags. -/
structure IStream where
  buf : Str
  eof : Bool
  fail : Bool
  deriving DecidableEq, Repr

/-- A freshly opened stream over the given file contents. -/
def IStream.opened (bytes : Str) : IStream := { buf := bytes, eof := false, fail := false }

/-- `std::getline(input, line)`: fails (setting `failbit`) when the stream is not good or no
character could be extracted; otherwise extracts up to the next newline, which is consumed and
not stored; reaching the end of the buffer sets `eofbit`.  The first component is the line, or
`none` when the stream converts to `false` afterwards. -/
def getline (inp : IStream) : Option Str × IStream :=
  if inp.eof || inp.fail then (none, { inp with fail := true })
  else
    match inp.buf with
    | [] => (none, { buf := [], eof := true, fail := true })
    | c :: cs =>
      match (c :: cs).dropWhile (fun x => x != '\n') with
      | [] => (some ((c :: cs).takeWhile (fun x => x != '\n')), { buf := [], eof := true, fail := false })
      | _ :: rest =>
        (some ((c :: cs).takeWhile (fun x => x != '\n')), { buf := rest, eof := false, fail := false })

theorem getline_some_lt (inp inp2 : IStream) (line : Str)
    (h : getline inp = (some line, inp2)) : inp2.buf.length < inp.buf.length := by
  unfold getline at h
  split at h
  · simp at h
  · split at h
    · simp at h
    · rename_i c cs hb
      split at h
      · simp only [Prod.mk.injEq] at h
        rw [← h.2, hb]; simp
      · rename_i x rest hd
        simp only [Prod.mk.injEq] at h
        rw [← h.2, hb]
        have hl := congrArg List.length hd
        have := (List.dropWhile_suffix (l := c :: cs) (fun x => x != '\n')).length_le
        simp only [List.length_cons] at hl this ⊢
        omega

/-! ## `ParticlesManager::stripParticleDefFromStream` and `saveParticleDef` -/

/-- The machine word size of `std::size_t` (64-bit). -/
def sizeMod : Nat := 18446744073709551616

/-- One iteration of the `for` loop over the characters of a line: `{` increments `openBraces`
and sets `blockStarted`, `}` decrements `openBraces` (a `std::size_t`, so it wraps around). -/
def braceStep (st : Nat × Bool) (ch : Char) : Nat × Bool :=
  if ch = '{' then ((st.1 + 1) % sizeMod, true)
  else if ch = '}' then ((st.1 + sizeMod - 1) % sizeMod, st.2)
  else st

/-- The `for` loop over the characters of one line, from the given `openBraces` and
`blockStarted`. -/
def countBraces (line : Str) (openBraces : Nat) (blockStarted : Bool) : Nat × Bool :=
  line.foldl braceStep (openBraces, blockStarted)

/-- The inner `while (std::getline(input, line))` loop: read lines until the block has started
and the brace count is back at zero, or the input ends. -/
def skipBlock (input : IStream) (openBraces : Nat) (blockStarted : Bool) : IStream :=
  match h : getline input with
  | (none, inp2) => inp2
  | (some line, inp2) =>
    if (countBraces line openBraces blockStarted).2
        && (countBraces line openBraces blockStarted).1 == 0 then inp2
    else skipBlock inp2 (countBraces line openBraces blockStarted).1
      (countBraces line openBraces blockStarted).2
termination_by input.buf.length
decreasing_by exact getline_some_lt _ _ _ h

/-- The result of `boost::regex_match(line, matches, pattern)`: `none` when the line does not
match, otherwise the sub-matches by index. -/
abbrev MatchResult := Option (Nat → Str)

/-- The regular expression library as seen by the code: constructing a `boost::regex` from a
pattern string either throws (`none`) or yields a matcher for whole lines. -/
abbrev RegexEngine := Str → Option (Str → MatchResult)

/-- The pattern string built in `stripParticleDefFromStream`:
`"^[\\s]*particle[\\s]+" + particleName + "\\s*(\\{)*\\s*$"`. -/
def headerPattern (particleName : Str) : Str :=
  "^[\\s]*particle[\\s]+".toList ++ particleName ++ "\\s*(\\\x7b)*\\s*$".toList

/-- The outer `while (std::getline(input, line))` loop of `stripParticleDefFromStream`: lines
that do not match are written to the output followed by a newline; at the first matching line
the block is skipped and the function returns. -/
def stripLoop (matcher : Str → MatchResult) (input : IStream) (output : Str) : IStream × Str :=
  match h : getline input with
  | (none, inp2) => (inp2, output)
  | (some line, inp2) =>
    match matcher line with
    | some subs =>
      if (subs 1).isEmpty then (skipBlock inp2 0 false, output)
      else (skipBlock inp2 1 true, output)
    | none => stripLoop matcher inp2 (output ++ line ++ ['\n'])
termination_by input.buf.length
decreasing_by exact getline_some_lt _ _ _ h

/-- `ParticlesManager::stripParticleDefFromStream(input, output, particleName)`: `none` when
constructing the regular expression throws, otherwise the input and output streams afterwards. -/
def stripParticleDefFromStream (engine : RegexEngine) (input : IStream) (output : Str)
    (particleName : Str) : Option (IStream × Str) :=
  match engine (headerPattern particleName) with
  | none => none
  | some matcher => some (stripLoop matcher input output)

/-- The text written by `writeParticleCommentHeader`. -/
def particleCommentHeader : Str :=
  "/*\n\tGenerated by DarkRadiant's Particle Editor.\n*/\n".toList

/-- The branch of `ParticlesManager::saveParticleDef` taken when the target file exists: the
contents written to the temporary file, given the contents of the existing file and the text
`particleText` that streaming `*particle` produces. -/
def saveParticleDef (engine : RegexEngine) (fileBytes : Str) (particleName particleText : Str) :
    Option Str :=
  match stripParticleDefFromStream engine (IStream.opened fileBytes) [] particleName with
  | none => none
  | some (inheritStream, tempStream) =>
    let tempStream1 :=
      if inheritStream.eof then tempStream ++ ['\n', '\n'] ++ particleCommentHeader
      else tempStream
    some (tempStream1 ++ particleText ++ ['\n'] ++ inheritStream.buf)

/-! ## The line view of a file -/

/-- The sequence of lines `std::getline` reads from a buffer: the buffer split at newlines, a
final segment without terminating newline counting as a line when it is not empty. -/
def linesOf : Str → List Str
  | [] => []
  | c :: cs =>
    if c = '\n' then [] :: linesOf cs
    else
      match linesOf cs with
      | [] => [[c]]
      | l :: ls => (c :: l) :: ls

/-- The text of a sequence of lines, each followed by a newline (`output << line << std::endl`). -/
def joinLines : List Str → Str
  | [] => []
  | l :: ls => l ++ '\n' :: joinLines ls

/-- Number of `{` minus number of `}` on a line, as an integer. -/
def braceDelta (line : Str) : Int := (line.count '{' : Int) - (line.count '}' : Int)

/-- Specification of the end of a block, following the wording "the first line at which the
running count of `{` minus `}` returns to zero after the block has opened": given whether the
block has opened and the running count so far, the index of the first line after which the
block has opened and the count, taken at the end of the line, is zero. -/
def closesAt (started : Bool) (count : Int) : List Str → Option Nat
  | [] => none
  | l :: ls =>
    if (started || l.contains '{') && count + braceDelta l == 0 then some 0
    else (closesAt (started || l.contains '{') (count + braceDelta l) ls).map (fun k => k + 1)

/-- Line-level counterpart of `skipBlock`: the lines left after the block has been skipped. -/
def skipLines : List Str → Nat → Bool → List Str
  | [], _, _ => []
  | l :: ls, openBraces, blockStarted =>
    if (countBraces l openBraces blockStarted).2
        && (countBraces l openBraces blockStarted).1 == 0 then ls
    else skipLines ls (countBraces l openBraces blockStarted).1
      (countBraces l openBraces blockStarted).2

/-- Line-level counterpart of `stripLoop`: the lines copied to the output and the lines left in
the input. -/
def stripLines (matcher : Str → MatchResult) : List Str → List Str × List Str
  | [] => ([], [])
  | l :: ls =>
    match matcher l with
    | some subs =>
      if (subs 1).isEmpty then ([], skipLines ls 0 false) else ([], skipLines ls 1 true)
    | none => (l :: (stripLines matcher ls).1, (stripLines matcher ls).2)

/-- Total number of characters of a list of lines. -/
def totalLength (ls : List Str) : Nat := (ls.map List.length).sum

/-- A stream in a consistent state: `failbit` clear, and `eofbit` only with an empty buffer. -/
def IStream.wf (inp : IStream) : Prop := inp.fail = false ∧ (inp.eof = true → inp.buf = [])

/-! ## Regular expressions (`boost::regex`, Perl syntax)

A model of the part of the library the header pattern needs: literals, `.`, `\\s`, escaped
punctuation, bracket expressions listing characters and `\\s`, the anchors `^` and `$`, the
greedy quantifiers `*`, `+`, `?`, alternation and capturing groups.  Patterns using anything
else are not compiled (`none`), as are patterns the library rejects. -/

/-- Abstract syntax of the modelled regular expressions. -/
inductive Regex where
  | empty
  | lit (c : Char)
  | cls (chars : List Char) (space : Bool)
  | anyChar
  | bol
  | eol
  | seq (a b : Regex)
  | alt (a b : Regex)
  | star (a : Regex)
  | group (index : Nat) (a : Regex)
  deriving DecidableEq, Repr

/-- The characters `\\s` matches (`std::isspace` in the "C" locale). -/
def isSpace (c : Char) : Bool :=
  c = ' ' || c = '\t' || c = '\n' || c = '\x0b' || c = '\x0c' || c = '\r'

/-- The characters with a special meaning in a pattern. -/
def isMeta (c : Char) : Bool :=
  c = '.' || c = '^' || c = '$' || c = '|' || c = '(' || c = ')' || c = '[' || c = ']'
    || c = '{' || c = '}' || c = '*' || c = '+' || c = '?' || c = '\\'

/-- Lexical mode of the pattern reader. -/
inductive Mode where
  | normal
  | escape
  | bracket (chars : List Char) (space : Bool)
  | bracketEscape (chars : List Char) (space : Bool)
  deriving DecidableEq, Repr

/-- An open group (or the top level) while reading a pattern: the finished alternatives and
the atoms of the current alternative, both latest first, and the capture index. -/
structure Frame where
  alts : List Regex
  cur : List Regex
  index : Nat
  deriving DecidableEq, Repr

/-- State of the pattern reader. -/
structure PState where
  mode : Mode
  top : Frame
  stack : List Frame
  groups : Nat
  quantifiable : Bool
  deriving DecidableEq, Repr

/-- The sequence of the given expressions, in order. -/
def seqOf (rs : List Regex) : Regex := rs.foldr Regex.seq Regex.empty

/-- The alternation of the given expressions, in order. -/
def altOf : List Regex → Regex
  | [] => Regex.empty
  | [a] => a
  | a :: b :: rest => Regex.alt a (altOf (b :: rest))

/-- The expression of a finished frame. -/
def Frame.finish (f : Frame) : Regex := altOf ((seqOf f.cur.reverse :: f.alts).reverse)

/-- Append an atom to the current alternative. -/
def PState.push (st : PState) (r : Regex) (quantifiable : Bool) : PState :=
  { st with mode := Mode.normal, top := { st.top with cur := r :: st.top.cur },
            quantifiable := quantifiable }

/-- Apply a quantifier to the latest atom; fails when there is none to quantify. -/
def PState.quantify (st : PState) (f : Regex → Regex) : Option PState :=
  if st.quantifiable then
    match st.top.cur with
    | a :: rest => some { st with top := { st.top with cur := f a :: rest }, quantifiable := false }
    | [] => none
  else none

/-- Read one character of a pattern. -/
def PState.step (st : PState) (c : Char) : Option PState :=
  match st.mode with
  | Mode.normal =>
    if c = '\\' then some { st with mode := Mode.escape }
    else if c = '[' then some { st with mode := Mode.bracket [] false }
    else if c = '(' then
      some { st with top := { alts := [], cur := [], index := st.groups + 1 },
                     stack := st.top :: st.stack, groups := st.groups + 1,
                     quantifiable := false }
    else if c = ')' then
      match st.stack with
      | parent :: rest =>
        some { st with top := { parent with cur := Regex.group st.top.index st.top.finish :: parent.cur },
                       stack := rest, quantifiable := true }
      | [] => none
    else if c = '|' then
      some { st with top := { st.top with alts := seqOf st.top.cur.reverse :: st.top.alts, cur := [] },
                     quantifiable := false }
    else if c = '*' then st.quantify Regex.star
    else if c = '+' then st.quantify (fun a => Regex.seq a (Regex.star a))
    else if c = '?' then st.quantify (fun a => Regex.alt a Regex.empty)
    else if c = '.' then some (st.push Regex.anyChar true)
    else if c = '^' then some (st.push Regex.bol false)
    else if c = '$' then some (st.push Regex.eol false)
    else if isMeta c then none
    else some (st.push (Regex.lit c) true)
  | Mode.escape =>
    if c = 's' then some (st.push (Regex.cls [] true) true)
    else if isMeta c then some (st.push (Regex.lit c) true)
    else none
  | Mode.bracket chars space =>
    if c = '\\' then some { st with mode := Mode.bracketEscape chars space }
    else if c = ']' then
      if chars.isEmpty && !space then none
      else some (st.push (Regex.cls chars.reverse space) true)
    else if c = '^' || c = '-' || c = '[' then none
    else some { st with mode := Mode.bracket (c :: chars) space }
  | Mode.bracketEscape chars space =>
    if c = 's' then some { st with mode := Mode.bracket chars true }
    else if isMeta c then some { st with mode := Mode.bracket (c :: chars) space }
    else none

/-- Read the characters of a pattern in order. -/
def PState.run (st : PState) : Str → Option PState
  | [] => some st
  | c :: cs =>
    match st.step c with
    | some st2 => st2.run cs
    | none => none

/-- The reader's initial state. -/
def PState.init : PState :=
  { mode := Mode.normal, top := { alts := [], cur := [], index := 0 }, stack := [], groups := 0,
    quantifiable := false }

/-- The expression read, when the pattern ended outside of any group, escape or bracket. -/
def PState.result (st : PState) : Option Regex :=
  match st.mode, st.stack with
  | Mode.normal, [] => some st.top.finish
  | _, _ => none

/-- Construct a regular expression from a pattern string (`boost::regex pattern(str)`). -/
def compileRegex (pattern : Str) : Option Regex :=
  match PState.init.run pattern with
  | some st => st.result
  | none => none

/-- Sub-matches recorded during matching, latest first. -/
abbrev Captures := List (Nat × Str)

/-- Greedy repetition: try one more iteration that consumes input, then the continuation. -/
def starLoop (body : Str → Captures → (Str → Captures → Option Captures) → Option Captures) :
    Nat → Str → Captures → (Str → Captures → Option Captures) → Option Captures
  | 0, s, caps, k => k s caps
  | fuel + 1, s, caps, k =>
    match body s caps (fun s2 caps2 =>
        if s2.length < s.length then starLoop body fuel s2 caps2 k else none) with
    | some r => some r
    | none => k s caps

/-- Backtracking matcher in continuation-passing style: `matchK n r s caps k` matches `r` at the
front of `s` (the remaining input of a subject of length `n`) and passes what is left, with the
captures, to `k`; alternatives are tried in order, repetitions longest first. -/
def matchK (n : Nat) : Regex → Str → Captures → (Str → Captures → Option Captures) →
    Option Captures
  | Regex.empty, s, caps, k => k s caps
  | Regex.lit c, s, caps, k =>
    match s with
    | x :: xs => if x = c then k xs caps else none
    | [] => none
  | Regex.cls chars space, s, caps, k =>
    match s with
    | x :: xs => if chars.contains x || (space && isSpace x) then k xs caps else none
    | [] => none
  | Regex.anyChar, s, caps, k =>
    match s with
    | _ :: xs => k xs caps
    | [] => none
  | Regex.bol, s, caps, k => if s.length = n then k s caps else none
  | Regex.eol, s, caps, k => if s.isEmpty then k s caps else none
  | Regex.seq a b, s, caps, k => matchK n a s caps (fun s2 caps2 => matchK n b s2 caps2 k)
  | Regex.alt a b, s, caps, k =>
    match matchK n a s caps k with
    | some r => some r
    | none => matchK n b s caps k
  | Regex.star a, s, caps, k => starLoop (matchK n a) s.length s caps k
  | Regex.group i a, s, caps, k =>
    matchK n a s caps (fun s2 caps2 => k s2 ((i, s.take (s.length - s2.length)) :: caps2))

/-- `boost::regex_match(line, matches, re)`: the whole line must match; sub-match 0 is the line,
sub-match `i` the text last captured by group `i` (empty when the group did not take part). -/
def regexMatch (re : Regex) (line : Str) : MatchResult :=
  match matchK line.length re line [] (fun s caps => if s.isEmpty then some caps else none) with
  | some caps => some (fun i => if i = 0 then line else (caps.lookup i).getD [])
  | none => none

/-- The modelled regular expression library. -/
def boostRegex : RegexEngine := fun pattern =>
  match compileRegex pattern with
  | some re => some (regexMatch re)
  | none => none

/-- Declarative reading of the matcher: `Path n r s caps s2 caps2` says that `r` can consume
the front of `s`, leaving `s2`, and turn the captures `caps` into `caps2`.  Every iteration of a
repetition consumes input. -/
inductive Path (n : Nat) : Regex → Str → Captures → Str → Captures → Prop where
  | empty (s : Str) (caps : Captures) : Path n Regex.empty s caps s caps
  | lit (c : Char) (s : Str) (caps : Captures) : Path n (Regex.lit c) (c :: s) caps s caps
  | cls (chars : List Char) (space : Bool) (x : Char) (s : Str) (caps : Captures)
      (h : (chars.contains x || (space && isSpace x)) = true) :
      Path n (Regex.cls chars space) (x :: s) caps s caps
  | anyChar (x : Char) (s : Str) (caps : Captures) : Path n Regex.anyChar (x :: s) caps s caps
  | bol (s : Str) (caps : Captures) (h : s.length = n) : Path n Regex.bol s caps s caps
  | eol (caps : Captures) : Path n Regex.eol [] caps [] caps
  | seq (a b : Regex) (s s1 s2 : Str) (c c1 c2 : Captures)
      (ha : Path n a s c s1 c1) (hb : Path n b s1 c1 s2 c2) : Path n (Regex.seq a b) s c s2 c2
  | altLeft (a b : Regex) (s s1 : Str) (c c1 : Captures)
      (ha : Path n a s c s1 c1) : Path n (Regex.alt a b) s c s1 c1
  | altRight (a b : Regex) (s s1 : Str) (c c1 : Captures)
      (hb : Path n b s c s1 c1) : Path n (Regex.alt a b) s c s1 c1
  | starDone (a : Regex) (s : Str) (c : Captures) : Path n (Regex.star a) s c s c
  | starMore (a : Regex) (s s1 s2 : Str) (c c1 c2 : Captures)
      (ha : Path n a s c s1 c1) (hlt : s1.length < s.length)
      (hr : Path n (Regex.star a) s1 c1 s2 c2) : Path n (Regex.star a) s c s2 c2
  | group (i : Nat) (a : Regex) (s s1 : Str) (c c1 : Captures)
      (ha : Path n a s c s1 c1) :
      Path n (Regex.group i a) s c s1 ((i, s.take (s.length - s1.length)) :: c1)

/-- The expression `\\s`. -/
def wsRegex : Regex := Regex.cls [] true

/-- The captured group of the header pattern, `(\\{)`. -/
def braceGroup : Regex := Regex.group 1 (seqOf [Regex.lit '{'])

/-- The expression the header pattern stands for when the particle name has no character with a
special meaning: start of line, spaces, `particle`, at least one space, the name, spaces, any
number of captured `{`, spaces, end of line. -/
def headerRegex (particleName : Str) : Regex :=
  seqOf ([Regex.bol, Regex.star wsRegex] ++ "particle".toList.map Regex.lit
    ++ [Regex.seq wsRegex (Regex.star wsRegex)] ++ particleName.map Regex.lit
    ++ [Regex.star wsRegex, Regex.star braceGroup, Regex.star wsRegex, Regex.eol])

/-- A name none of whose characters has a special meaning in a pattern. -/
def isPlainName (particleName : Str) : Bool := particleName.all (fun c => !isMeta c)

/-- The shape of a header line with exactly `k` opening braces: optional whitespace, the keyword
`particle`, at least one whitespace character, the name taken literally, optional whitespace,
`k` times `{`, optional whitespace. -/
def HeaderLineWith (k : Nat) (particleName line : Str) : Prop :=
  ∃ w1 w2 w3 w4 : Str,
    line = w1 ++ "particle".toList ++ w2 ++ particleName ++ w3 ++ List.replicate k '{' ++ w4
      ∧ (∀ x ∈ w1, isSpace x = true) ∧ (∀ x ∈ w2, isSpace x = true) ∧ w2 ≠ []
      ∧ (∀ x ∈ w3, isSpace x = true) ∧ (∀ x ∈ w4, isSpace x = true)

/-- The header shape in the words of the specification: at most one `{`. -/
def SpecHeaderLine (particleName line : Str) : Prop :=
  ∃ k, k ≤ 1 ∧ HeaderLineWith k particleName line

/-- An example particle file: the blocks of `a`, `x` (opening brace on its own line) and `b`. -/
def exampleParticleFile : Str :=
  "particle a \x7b\n\x7d\nparticle x\n\x7b\n\x7b a \x7d\n\x7d\nparticle b \x7b\n\x7d\n".toList

/-- A library with the unmodified material `m` whose declaration comes from the archive file
`materials/x.mtr`, which is not a physical file. -/
def readOnlyUnmodifiedLibrary : ShaderSystem :=
  { decls := [{ name := "m".toList,
                fileInfo := { name := "materials/x.mtr".toList, isPhysicalFile := false },
                contents := [] }],
    shaders := [{ name := "m".toList, working := [], modified := false }],
    log := [] }

/-- The same library with the material `m` marked modified. -/
def readOnlyModifiedLibrary : ShaderSystem :=
  { readOnlyUnmodifiedLibrary with
    shaders := [{ name := "m".toList, working := "edited".toList, modified := true }] }

/-! ## Loading a map resource (`Map::loadMapResourceFromPath`) -/

/-- The untranslated name of an unnamed map. -/
def MAP_UNNAMED_STRING : Str := "unnamed.map".toList

/-- A map root node (`map::RootNode`): its identity, its name, its children and whether the
undo change tracker has recorded the current state as saved. -/
structure RootNode where
  id : Nat
  name : Str
  children : List Node
  changesSaved : Bool
  deriving DecidableEq, Repr

/-- A map resource: its path and its root node. -/
structure MapResource where
  path : Str
  node : RootNode
  deriving DecidableEq, Repr

/-- What `Map` signals while loading. -/
inductive MapEvent where
  | mapLoading
  | mapLoaded
  | mapValidityChanged
  deriving DecidableEq, Repr

/-- The `Map` object together with the globals `loadMapResourceFromPath` touches: the scene
graph root, the main window title, the emitted signals and the identity the next created node
gets. -/
structure MapModel where
  mapName : Str
  resource : Option MapResource
  modified : Bool
  valid : Bool
  title : Str
  sceneRoot : Option RootNode
  events : List MapEvent
  nextId : Nat
  deriving DecidableEq, Repr

/-- The collaborators of `Map` that are not part of the sources, as parameters: the translation
function `_()`, `GlobalMapResourceManager().loadFromPath` (which may return no resource) and
`MapResource::load` (its success flag and the resource afterwards). -/
structure MapEnv where
  translate : Str → Str
  loadFromPath : Str → Option MapResource
  load : MapResource → Bool × MapResource

/-- Modelled from the spec: `MapResource::setNode` (MapResource.cpp is not part of the sources),
the resource's root node is replaced. -/
def MapResource.setNode (r : MapResource) (node : RootNode) : MapResource :=
  { r with node := node }

/-- Modelled from the spec: `MapResource::rename` (MapResource.cpp is not part of the sources);
following the comment in `Map::setMapName`, "update the map resource's root node", path and
root node carry the new name, the root's children are untouched. -/
def MapResource.rename (r : MapResource) (newName : Str) : MapResource :=
  { path := newName, node := { r.node with name := newName } }

/-- `Map::isUnnamed()`. -/
def Map.isUnnamed (env : MapEnv) (m : MapModel) : Bool :=
  m.mapName == env.translate MAP_UNNAMED_STRING

/-- `Map::updateTitle()`. -/
def Map.updateTitle (m : MapModel) : MapModel :=
  { m with title := if m.modified then m.mapName ++ " *".toList else m.mapName }

/-- `Map::setMapName(newName)`. -/
def Map.setMapName (m : MapModel) (newName : Str) : MapModel :=
  Map.updateTitle
    { m with mapName := newName,
             resource := match m.resource with
                         | some r => some (r.rename newName)
                         | none => none }

/-- `Map::setValid(valid)`. -/
def Map.setValid (m : MapModel) (valid : Bool) : MapModel :=
  { m with valid := valid, events := m.events ++ [MapEvent.mapValidityChanged] }

/-- `Map::loadMapResourceFromPath(path)`. -/
def Map.loadMapResourceFromPath (env : MapEnv) (m : MapModel) (_path : Str) : MapModel :=
  match env.loadFromPath m.mapName with
  | none => { m with resource := none }
  | some r =>
    let m1 := { m with resource := some r, events := m.events ++ [MapEvent.mapLoading] }
    let loaded := if Map.isUnnamed env m1 then (false, r) else env.load r
    let m2 :=
      if loaded.1 then { m1 with resource := some loaded.2 }
      else
        Map.setMapName
          { m1 with resource := some (loaded.2.setNode
                      { id := m1.nextId, name := [], children := [], changesSaved := true }),
                    nextId := m1.nextId + 1 }
          (env.translate MAP_UNNAMED_STRING)
    let m3 := { m2 with sceneRoot := m2.resource.map (fun x => x.node),
                        events := m2.events ++ [MapEvent.mapLoaded] }
    Map.setValid m3 true

/-! ## The import filter of `Map::importSelected` -/

/-- An entity node as the import filter sees it: whether the entity is a container
(`Entity::isContainer`) and its child nodes. -/
structure EntityNode where
  isContainer : Bool
  children : List Node
  deriving DecidableEq, Repr

/-- `MapImportFilter::addEntity(entityNode)`, on the child list of the import root (the entities
already attached): the entity is added to the root and `true` is returned. -/
def MapImportFilter.addEntity (root : List EntityNode) (entityNode : EntityNode) :
    Bool × List EntityNode :=
  (true, root ++ [entityNode])

/-- `MapImportFilter::addPrimitiveToEntity(primitive, entity)`: the returned flag and the entity
afterwards. -/
def MapImportFilter.addPrimitiveToEntity (primitive : Node) (entity : EntityNode) :
    Bool × EntityNode :=
  if entity.isContainer then (true, { entity with children := addChildNode entity.children primitive })
  else (false, entity)

/-- An environment in which every path has a resource whose `load()` fails. -/
def failingLoadEnv : MapEnv :=
  { translate := fun s => s,
    loadFromPath := fun p =>
      some { path := p,
             node := { id := 0, name := p,
                       children := [{ id := 1, isWorldspawn := true }], changesSaved := false } },
    load := fun r => (false, r) }

/-- A map named `maps/broken.map` before loading. -/
def brokenMapModel : MapModel :=
  { mapName := "maps/broken.map".toList, resource := none, modified := false, valid := false,
    title := [], sceneRoot := none, events := [], nextId := 7 }

/-! ## Selection groups (`SelectionGroupManager.cpp`) -/

/-- A scene node as the selection-group manager sees it: its identity, whether it is selected,
whether it is an `IGroupSelectable` (the `dynamic_pointer_cast` succeeds) and the ordered list
of group ids it records, the last one being the most recent. -/
structure GroupNode where
  id : Nat
  selected : Bool
  groupSelectable : Bool
  groupIds : List Nat
  deriving DecidableEq, Repr

/-- A selection group: its id and the references to its member nodes. -/
structure SelectionGroup where
  id : Nat
  nodes : List Nat
  deriving DecidableEq, Repr

/-- The selection mode of the selection system. -/
inductive SelectionMode where
  | eEntity
  | ePrimitive
  | eGroupPart
  | eComponent
  deriving DecidableEq, Repr

/-- The state the selection-group manager works on: the map `_groups` (as the list of its
values, keyed by their id), the scene nodes and the mode of the selection system. -/
structure GroupManager where
  groups : List SelectionGroup
  nodes : List GroupNode
  mode : SelectionMode
  deriving DecidableEq, Repr

/-- The largest `std::size_t`, `std::numeric_limits<std::size_t>::max()`. -/
def sizeMax : Nat := 18446744073709551615

/-- `_groups.find(id)`. -/
def GroupManager.findGroup (s : GroupManager) (id : Nat) : Option SelectionGroup :=
  s.groups.find? (fun g => g.id == id)

/-- The loop of `generateGroupId`, with `remaining` iterations left and the counter at `i`:
the first `i` for which `_groups.find(i) == _groups.end()`; `none` stands for the exception
"Out of group IDs." thrown when the loop ends. -/
def generateGroupIdFrom (s : GroupManager) : Nat → Nat → Option Nat
  | 0, _ => none
  | remaining + 1, i =>
    if (s.findGroup i).isNone then some i else generateGroupIdFrom s remaining (i + 1)

/-- `SelectionGroupManager::generateGroupId()`: `i` runs from 0 while it is below the largest
`std::size_t`. -/
def generateGroupId (s : GroupManager) : Option Nat := generateGroupIdFrom s sizeMax 0

/-- `SelectionGroupManager::createSelectionGroup()`: the new group and the state afterwards, or
`none` when `generateGroupId` throws. -/
def createSelectionGroup (s : GroupManager) : Option (SelectionGroup × GroupManager) :=
  match generateGroupId s with
  | none => none
  | some id =>
    some ({ id := id, nodes := [] },
          { s with groups := s.groups.filter (fun g => g.id != id) ++ [{ id := id, nodes := [] }] })

/-- Modelled from the spec: `SelectionGroup::removeAllNodes()` (SelectionGroup.h is not part of
the sources), which "removes members' reference to id": every member node drops the group's id
from the ids it records, and the group has no members left. -/
def SelectionGroup.removeAllNodes (g : SelectionGroup) (nodes : List GroupNode) :
    List GroupNode :=
  nodes.map (fun n =>
    if g.nodes.contains n.id then { n with groupIds := n.groupIds.filter (fun x => x != g.id) }
    else n)

/-- `SelectionGroupManager::deleteSelectionGroup(id)`. -/
def deleteSelectionGroup (s : GroupManager) (id : Nat) : GroupManager :=
  match s.findGroup id with
  | none => s
  | some g =>
    { s with nodes := g.removeAllNodes s.nodes,
             groups := s.groups.filter (fun x => x.id != id) }

/-- Modelled from the spec: `SelectionGroup::addNode(node)` (SelectionGroup.h is not part of the
sources): the node becomes the group's last member, and a group-selectable node records the
group's id as its most recent one. -/
def SelectionGroup.addNode (gid : Nat) (s : GroupManager) (node : GroupNode) : GroupManager :=
  { s with groups := s.groups.map (fun g => if g.id == gid then { g with nodes := g.nodes ++ [node.id] }
                                            else g),
           nodes := s.nodes.map (fun n => if n.id == node.id && n.groupSelectable
                                          then { n with groupIds := n.groupIds ++ [gid] } else n) }

/-- Modelled from the spec: the nodes `GlobalSelectionSystem().foreachSelected` visits (the
selection system is not part of the sources), the selected nodes in order. -/
def GroupManager.selectedNodes (s : GroupManager) : List GroupNode :=
  s.nodes.filter (fun n => n.selected)

/-- Modelled from the spec: `getSelectionInfo().totalCount` (the selection system is not part of
the sources), the number of selected items. -/
def GroupManager.totalCount (s : GroupManager) : Nat := s.selectedNodes.length

/-- `std::set<std::size_t>::insert`, on a list without repetitions. -/
def setInsert (set : List Nat) (x : Nat) : List Nat :=
  if set.contains x then set else set ++ [x]

/-- The first `foreachSelected` functor of `groupSelectedCmd`, acting on `(groupIds,
hasUngroupedNode)`. -/
def collectGroupIds (acc : List Nat × Bool) (node : GroupNode) : List Nat × Bool :=
  if !node.groupSelectable then acc
  else
    match node.groupIds.getLast? with
    | some mostRecent => (setInsert acc.1 mostRecent, acc.2)
    | none => (acc.1, true)

/-- `SelectionGroupManager::groupSelectedCmd(args)`: the error shown, if any, and the state
afterwards; `none` when `createSelectionGroup` throws. -/
def groupSelectedCmd (s : GroupManager) : Option (Option Str × GroupManager) :=
  if s.mode != SelectionMode.ePrimitive then
    some (some "Groups can be formed in Primitive selection mode only".toList, s)
  else if s.totalCount == 0 then
    some (some "Nothing selected, cannot group anything".toList, s)
  else if s.totalCount == 1 then
    some (some "Select more than one element to form a group".toList, s)
  else if !(s.selectedNodes.foldl collectGroupIds ([], false)).2
      && (s.selectedNodes.foldl collectGroupIds ([], false)).1.length == 1 then
    some (some "The selected elements already form a group".toList, s)
  else
    match createSelectionGroup s with
    | none => none
    | some (group, s1) =>
      some (none, s.selectedNodes.foldl (SelectionGroup.addNode group.id) s1)

/-- The selected nodes, as far as they are group-selectable, are already grouped with one and
the same most recent group id (the wording of the claim on `groupSelectedCmd`). -/
def SharesOneGroup (s : GroupManager) : Prop :=
  ∃ g, ∀ n ∈ s.selectedNodes, n.groupSelectable = true → n.groupIds.getLast? = some g

/-- Two groups, the node 5 in group 0 and the node 6 in groups 0 and 1. -/
def twoGroupsExample : GroupManager :=
  { groups := [{ id := 0, nodes := [5, 6] }, { id := 1, nodes := [6] }],
    nodes := [{ id := 5, selected := false, groupSelectable := true, groupIds := [0] },
              { id := 6, selected := false, groupSelectable := true, groupIds := [0, 1] }],
    mode := SelectionMode.ePrimitive }

/-- Two selected nodes that are not group-selectable, in primitive mode, group 0 registered. -/
def notGroupSelectableExample : GroupManager :=
  { groups := [{ id := 0, nodes := [] }],
    nodes := [{ id := 5, selected := true, groupSelectable := false, groupIds := [] },
              { id := 6, selected := true, groupSelectable := false, groupIds := [] }],
    mode := SelectionMode.ePrimitive }

/-- Two selected ungrouped nodes in primitive mode. -/
def ungroupedSelectionExample : GroupManager :=
  { groups := [{ id := 0, nodes := [] }],
    nodes := [{ id := 5, selected := true, groupSelectable := true, groupIds := [] },
              { id := 6, selected := true, groupSelectable := true, groupIds := [] }],
    mode := SelectionMode.ePrimitive }

/-! ## The Doom 3 map reader (`Doom3MapReader.cpp`) -/

/-- The exceptions that leave the reader: `IMapReader::FailureException`,
`parser::ParseException` and the `std::out_of_range` of `std::stof`, each with its message. -/
inductive ReaderError where
  | failure (msg : Str)
  | parseException (msg : Str)
  | outOfRange (msg : Str)
  deriving DecidableEq, Repr

/-- The token `{`. -/
def openBrace : Str := ['{']

/-- The token `}`. -/
def closeBrace : Str := ['}']

/-- Modelled from the spec: `parser::DefTokeniser::hasMoreTokens` (libs/parser is not part of
the sources), on the tokens not yet consumed; the reader "consumes a text stream
token-by-token". -/
def hasMoreTokens (tok : List Str) : Bool := !tok.isEmpty

/-- Modelled from the spec: `parser::DefTokeniser::nextToken` (libs/parser is not part of the
sources): the next token and the tokens left, or a `ParseException` when there is none. -/
def nextToken (tok : List Str) : Except ReaderError (Str × List Str) :=
  match tok with
  | t :: rest => Except.ok (t, rest)
  | [] => Except.error (ReaderError.parseException "DefTokeniser: no more tokens".toList)

/-- Modelled from the spec: `parser::DefTokeniser::assertNextToken` (libs/parser is not part of
the sources): consume the next token and throw a `ParseException` unless it is the expected
one. -/
def assertNextToken (expected : Str) (tok : List Str) : Except ReaderError (List Str) :=
  match nextToken tok with
  | Except.ok (t, rest) =>
    if t = expected then Except.ok rest
    else Except.error (ReaderError.parseException
      ("DefTokeniser: Assertion failed: Required \"".toList ++ expected ++ "\", found \"".toList
        ++ t ++ "\"".toList))
  | Except.error e => Except.error e

/-- The outcome of `std::stof`. -/
inductive StofResult (F : Type) where
  | value (v : F)
  | invalidArgument
  | outOfRange

/-- The floating-point facilities the reader uses, as parameters: the type of `float` values
with its equality (for the constant `MAP_VERSION_D3`, which is not NaN, `!=` is inequality of
values), `std::stof`, the rendering of `fmt::format` for `{:f}`, and the constant
`MAP_VERSION_D3` of Doom3MapFormat.h, which is not part of the sources. -/
structure FloatLib where
  F : Type
  decEq : DecidableEq F
  stof : Str → StofResult F
  formatF : F → Str
  MAP_VERSION_D3 : F

/-- The message of the exception for a wrong map version:
`fmt::format("Incorrect map version: required {0:f}, found {1:f}", requiredVersion, version)`. -/
def incorrectVersionMessage (lib : FloatLib) (version : lib.F) : Str :=
  "Incorrect map version: required ".toList ++ lib.formatF lib.MAP_VERSION_D3
    ++ ", found ".toList ++ lib.formatF version

/-- `Doom3MapReader::parseMapVersion(tok)`: the tokens left on success, otherwise the exception
together with the tokens left when it is thrown.  A failing `assertNextToken` has consumed the
token it rejects; the version number is consumed before it is converted and compared. -/
def parseMapVersion (lib : FloatLib) (tok : List Str) :
    Except (ReaderError × List Str) (List Str) :=
  match assertNextToken "Version".toList tok with
  | Except.error (ReaderError.parseException _) =>
    Except.error (ReaderError.failure "Unable to parse map version (parse exception).".toList,
      tok.drop 1)
  | Except.error e => Except.error (e, tok.drop 1)
  | Except.ok tok1 =>
    match nextToken tok1 with
    | Except.error (ReaderError.parseException _) =>
      Except.error (ReaderError.failure "Unable to parse map version (parse exception).".toList,
        tok1)
    | Except.error e => Except.error (e, tok1)
    | Except.ok (t, tok2) =>
      match lib.stof t with
      | StofResult.invalidArgument =>
        Except.error
          (ReaderError.failure "Could not recognise map version number format.".toList, tok2)
      | StofResult.outOfRange => Except.error (ReaderError.outOfRange "stof".toList, tok2)
      | StofResult.value version =>
        if @decide (version = lib.MAP_VERSION_D3) (lib.decEq _ _) then Except.ok tok2
        else Except.error (ReaderError.failure (incorrectVersionMessage lib version), tok2)

/-- A primitive node produced by a primitive parser: its keyword and the tokens of its
definition. -/
structure Primitive where
  keyword : Str
  tokens : List Str
  deriving DecidableEq, Repr

/-- An entity node created by the reader: its key values, in the order they were set. -/
structure MapEntity where
  keyValues : List (Str × Str)
  deriving DecidableEq, Repr

/-- The calls the reader makes on its `IMapImportFilter`, in order. -/
inductive FilterCall where
  | addEntity (entity : MapEntity)
  | addPrimitiveToEntity (primitive : Primitive) (entity : MapEntity)
  deriving DecidableEq, Repr

/-- What a primitive parser (`PrimitiveParser::parse`, not part of the sources) does with the
tokens in front of it: it throws a `ParseException`, or it consumes some tokens and returns a
primitive or a null pointer. -/
inductive PrimitiveParse where
  | parseException (msg : Str)
  | parsed (primitive : Option Primitive) (consumed : Nat)

/-- The registered primitive parsers by keyword, as a parameter (`brushDef`, `brushDef3`,
`patchDef2` and `patchDef3` in `initPrimitiveParsers`; their classes are not part of the
sources). -/
abbrev PrimitiveParsers := Str → Option (List Str → PrimitiveParse)

/-- The reader's state: the tokens not yet consumed, `_entityCount`, `_primitiveCount` and the
calls made on the import filter so far. -/
structure ReaderState where
  tokens : List Str
  entityCount : Nat
  primitiveCount : Nat
  filterCalls : List FilterCall
  deriving DecidableEq, Repr

/-- `EntityKeyValues::insert`: a `std::map` keeps the first value of a key. -/
def keyValuesInsert (keyValues : List (Str × Str)) (key value : Str) : List (Str × Str) :=
  if keyValues.any (fun kv => kv.1 == key) then keyValues else keyValues ++ [(key, value)]

/-- `Doom3MapReader::createEntity(keyValues)`: fails without a `classname`; otherwise the entity
carries the key values (entity class manager and entity module are not part of the sources). -/
def createEntity (keyValues : List (Str × Str)) : Except ReaderError MapEntity :=
  if keyValues.any (fun kv => kv.1 == "classname".toList) then Except.ok { keyValues := keyValues }
  else Except.error
    (ReaderError.failure "Doom3MapReader::createEntity(): could not find classname.".toList)

/-- `Doom3MapReader::parsePrimitive(tok, parentEntity)`: the state afterwards, or the exception
together with the state at the time it is thrown. -/
def parsePrimitive (parsers : PrimitiveParsers) (st : ReaderState) (parentEntity : MapEntity) :
    Except (ReaderError × ReaderState) ReaderState :=
  let st1 := { st with primitiveCount := st.primitiveCount + 1 }
  match nextToken st1.tokens with
  | Except.error e => Except.error (e, st1)
  | Except.ok (primitiveKeyword, rest) =>
    let st2 := { st1 with tokens := rest }
    match parsers primitiveKeyword with
    | none =>
      Except.error (ReaderError.failure ("Unknown primitive type: ".toList ++ primitiveKeyword),
        st2)
    | some parser =>
      match parser rest with
      | PrimitiveParse.parseException msg =>
        Except.error (ReaderError.failure ("Primitive #".toList ++ decimal st2.primitiveCount
          ++ ": parse exception ".toList ++ msg), st2)
      | PrimitiveParse.parsed none consumed =>
        Except.error (ReaderError.failure ("Primitive #".toList ++ decimal st2.primitiveCount
          ++ ": parse error".toList), { st2 with tokens := rest.drop consumed })
      | PrimitiveParse.parsed (some primitive) consumed =>
        Except.ok { st2 with tokens := rest.drop consumed,
                             filterCalls := st2.filterCalls
                               ++ [FilterCall.addPrimitiveToEntity primitive parentEntity] }

/-- The `while (true)` loop of `parseEntity`, entered with the current `token`, the key values
read and the entity created so far; on leaving the loop the entity is passed to
`_importFilter.addEntity`.  Every pass that does not leave the loop consumes a token, so the
first argument, one more than the number of tokens at entry, is never used up. -/
def parseEntityLoop (parsers : PrimitiveParsers) :
    Nat → ReaderState → Str → List (Str × Str) → Option MapEntity →
      Except (ReaderError × ReaderState) ReaderState
  | 0, st, _, _, _ =>
    Except.error (ReaderError.parseException "DefTokeniser: no more tokens".toList, st)
  | fuel + 1, st, token, keyValues, entity =>
    if token = openBrace then
      match (match entity with
             | some e => Except.ok e
             | none => createEntity keyValues) with
      | Except.error e => Except.error (e, st)
      | Except.ok ent =>
        match parsePrimitive parsers st ent with
        | Except.error e => Except.error e
        | Except.ok st1 =>
          match nextToken st1.tokens with
          | Except.error e => Except.error (e, st1)
          | Except.ok (token2, rest) =>
            parseEntityLoop parsers fuel { st1 with tokens := rest } token2 keyValues (some ent)
    else if token = closeBrace then
      match (match entity with
             | some e => Except.ok e
             | none => createEntity keyValues) with
      | Except.error e => Except.error (e, st)
      | Except.ok ent =>
        Except.ok { st with filterCalls := st.filterCalls ++ [FilterCall.addEntity ent] }
    else
      match nextToken st.tokens with
      | Except.error e => Except.error (e, st)
      | Except.ok (value, rest) =>
        if value = openBrace ∨ value = closeBrace then
          Except.error (ReaderError.failure ("Parsed invalid value '".toList ++ value
            ++ "' for key '".toList ++ token ++ "'".toList), { st with tokens := rest })
        else
          match nextToken rest with
          | Except.error e => Except.error (e, { st with tokens := rest })
          | Except.ok (token2, rest2) =>
            parseEntityLoop parsers fuel { st with tokens := rest2 } token2
              (keyValuesInsert keyValues token value) entity

/-- `Doom3MapReader::parseEntity(tok)`; a failing `assertNextToken` has consumed the token it
rejects. -/
def parseEntity (parsers : PrimitiveParsers) (st : ReaderState) :
    Except (ReaderError × ReaderState) ReaderState :=
  match assertNextToken openBrace st.tokens with
  | Except.error e => Except.error (e, { st with tokens := st.tokens.drop 1 })
  | Except.ok tok1 =>
    match nextToken tok1 with
    | Except.error e => Except.error (e, { st with tokens := tok1 })
    | Except.ok (token, tok2) =>
      parseEntityLoop parsers (tok2.length + 1) { st with tokens := tok2, primitiveCount := 0 }
        token [] none

/-- The `while (tok.hasMoreTokens())` loop of `readFromStream`: a `FailureException` of
`parseEntity` is re-thrown with the entity number in front, any other exception passes
unchanged.  Every entity read consumes tokens, so the first argument, one more than the number
of tokens at entry, is never used up. -/
def readEntities (parsers : PrimitiveParsers) :
    Nat → ReaderState → Except (ReaderError × ReaderState) ReaderState
  | 0, st => Except.ok st
  | fuel + 1, st =>
    if hasMoreTokens st.tokens then
      match parseEntity parsers st with
      | Except.error (ReaderError.failure what, st1) =>
        Except.error (ReaderError.failure ("Failed parsing entity ".toList
          ++ decimal st.entityCount ++ ":\n".toList ++ what), st1)
      | Except.error e => Except.error e
      | Except.ok st1 => readEntities parsers fuel { st1 with entityCount := st1.entityCount + 1 }
    else Except.ok st

/-- `Doom3MapReader::readFromStream(stream)`, on the tokens of the stream, for a newly
constructed reader. -/
def readFromStream (lib : FloatLib) (parsers : PrimitiveParsers) (tokens : List Str) :
    Except (ReaderError × ReaderState) ReaderState :=
  match parseMapVersion lib tokens with
  | Except.error (e, left) =>
    Except.error (e, { tokens := left, entityCount := 0, primitiveCount := 0,
                       filterCalls := [] })
  | Except.ok rest =>
    readEntities parsers (rest.length + 1)
      { tokens := rest, entityCount := 0, primitiveCount := 0, filterCalls := [] }

/-- The number written by the leading decimal digits of a token, if it starts with a digit. -/
def leadingNumber (t : Str) : Option Nat :=
  match t.takeWhile (fun c => c.isDigit) with
  | [] => none
  | ds => some (ds.foldl (fun n c => 10 * n + (c.toNat - 48)) 0)

/-- A stand-in for the floating-point facilities in examples: whole numbers as values, tokens
converted by their leading digits, values rendered with six decimals, required version 2. -/
def exampleFloatLib : FloatLib :=
  { F := Nat,
    decEq := fun a b => Nat.decEq a b,
    stof := fun t => match leadingNumber t with
                     | some n => StofResult.value n
                     | none => StofResult.invalidArgument,
    formatF := fun n => decimal n ++ ".000000".toList,
    MAP_VERSION_D3 := 2 }

/-- Primitive parsers for examples: the four registered keywords, each reading the tokens up to
and including the next closing brace. -/
def examplePrimitiveParsers : PrimitiveParsers := fun keyword =>
  if keyword = "brushDef".toList ∨ keyword = "brushDef3".toList ∨ keyword = "patchDef2".toList
      ∨ keyword = "patchDef3".toList then
    some (fun tok =>
      PrimitiveParse.parsed
        (some { keyword := keyword, tokens := tok.takeWhile (fun t => t != closeBrace) })
        ((tok.takeWhile (fun t => t != closeBrace)).length + 1))
  else none

/-- The tokens of a map whose second entity block is cut off by the end of the file. -/
def truncatedMapTokens : List Str :=
  ["Version".toList, "2".toList,
   openBrace, "classname".toList, "worldspawn".toList, closeBrace,
   openBrace, "classname".toList, "light".toList]

/-- The tokens of a map whose second entity block holds a primitive of unknown type. -/
def unknownPrimitiveMapTokens : List Str :=
  ["Version".toList, "2".toList,
   openBrace, "classname".toList, "worldspawn".toList, closeBrace,
   openBrace, "classname".toList, "light".toList, openBrace, "foo".toList, closeBrace,
   closeBrace]

/-! ## The command registry

The command system itself is not part of the sources (only its test, `test/CommandSystem.cpp`,
is); it is modelled from the specification. -/

/-- The argument types of a command signature. -/
inductive ArgType where
  | int
  | real
  | string
  | vector3
  deriving DecidableEq, Repr

/-- A command argument, "a tagged variant of {int, real, string, vector3}"; reals and vector
components are kept in their written form. -/
inductive Argument where
  | int (v : Int)
  | real (v : Str)
  | string (v : Str)
  | vector3 (x y z : Str)
  deriving DecidableEq, Repr

/-- The tag of an argument. -/
def Argument.type : Argument → ArgType
  | Argument.int _ => ArgType.int
  | Argument.real _ => ArgType.real
  | Argument.string _ => ArgType.string
  | Argument.vector3 _ _ _ => ArgType.vector3

/-- A registered command: its name and its optional argument-type signature.  The callable is
represented by the record of its invocations in the registry. -/
structure Command where
  name : Str
  signature : Option (List ArgType)
  deriving DecidableEq, Repr

/-- The command registry: the registered commands, the invocations of callables so far (command
name and argument list handed over, in order) and the diagnostics reported. -/
structure CommandRegistry where
  commands : List Command
  runs : List (Str × List Argument)
  diagnostics : List Str
  deriving DecidableEq, Repr

/-- Modelled from the spec: whether an argument list is correctly typed for a signature, the
arguments carrying the signature's types one by one; a command without signature takes any
argument list. -/
def argsMatch (signature : Option (List ArgType)) (args : List Argument) : Bool :=
  match signature with
  | none => true
  | some types => args.map Argument.type == types

/-- Modelled from the spec: `addCommand(name, callable [, argTypes])`. -/
def addCommand (reg : CommandRegistry) (name : Str) (signature : Option (List ArgType)) :
    CommandRegistry :=
  { reg with commands := reg.commands ++ [{ name := name, signature := signature }] }

/-- Modelled from the spec: `executeCommand(name, args...)`.  "Unknown command or arity
mismatch: diagnostic, no effect"; "calling with a mis-typed argument list is a no-op reported
via diagnostic; it must not run the callable"; otherwise the callable runs once with the
arguments. -/
def executeCommand (reg : CommandRegistry) (name : Str) (args : List Argument) :
    CommandRegistry :=
  match reg.commands.find? (fun c => c.name == name) with
  | none => { reg with diagnostics := reg.diagnostics ++ ["Unknown command: ".toList ++ name] }
  | some c =>
    if argsMatch c.signature args then { reg with runs := reg.runs ++ [(name, args)] }
    else { reg with diagnostics := reg.diagnostics
                      ++ ["Cannot execute command, wrong arguments: ".toList ++ name] }

/-- The parts of a string between the characters that satisfy `sep`. -/
def splitBy (sep : Char → Bool) : Str → List Str
  | [] => [[]]
  | c :: cs =>
    if sep c then [] :: splitBy sep cs
    else
      match splitBy sep cs with
      | [] => [[c]]
      | w :: ws => (c :: w) :: ws

/-- The words of a statement: its parts between whitespace, empty parts dropped. -/
def wordsOf (s : Str) : List Str := (splitBy isSpace s).filter (fun w => !w.isEmpty)

/-- Modelled from the spec: one statement `name arg arg ...` of a command line; the words after
the name are handed over as string arguments, an empty statement does nothing. -/
def executeStatement (reg : CommandRegistry) (statement : Str) : CommandRegistry :=
  match wordsOf statement with
  | [] => reg
  | name :: args => executeCommand reg name (args.map Argument.string)

/-- Modelled from the spec: `execute(line)`, "where `line` is a semicolon-separated sequence of
`name arg arg ...` with whitespace around separators irrelevant": the statements are executed in
order. -/
def execute (reg : CommandRegistry) (line : Str) : CommandRegistry :=
  (splitBy (fun c => c == ';') line).foldl executeStatement reg

/-- The statements joined by `;`. -/
def joinStatements : List Str → Str
  | [] => []
  | [s] => s
  | s :: t :: rest => s ++ ';' :: joinStatements (t :: rest)

/-- A command name written with whitespace before and after it. -/
structure PaddedName where
  before : Str
  name : Str
  after : Str
  deriving DecidableEq, Repr

/-- The text of a padded name. -/
def PaddedName.text (p : PaddedName) : Str := p.before ++ p.name ++ p.after

/-- The registry of the test `AddAndRunCommandWithArgs`: `testCmdWithArgs` with the signature
`[int, string]`. -/
def argsTestRegistry : CommandRegistry :=
  addCommand { commands := [], runs := [], diagnostics := [] } "testCmdWithArgs".toList
    (some [ArgType.int, ArgType.string])

/-- The registry of the test `RunCommandSequence`: two commands without signature. -/
def sequenceTestRegistry : CommandRegistry :=
  addCommand
    (addCommand { commands := [], runs := [], diagnostics := [] } "firstRunCountCommand".toList
      none)
    "secondRunCountCommand".toList none

/-! ## Layer commands (`LayerModule.cpp`) -/

/-- The calls a layer command handler makes on its collaborators: the operations of the layer
manager of the map root, and `GlobalMapModule().setModified`. -/
inductive LayerCall where
  | createLayer (name : Str)
  | addSelectionToLayer (layerID : Int)
  | moveSelectionToLayer (layerID : Int)
  | removeSelectionFromLayer (layerID : Int)
  | setLayerVisibility (layerID : Int) (visible : Bool)
  | setModified (modifiedFlag : Bool)
  deriving DecidableEq, Repr

/-- What the layer command handlers work on: whether `GlobalMapModule().getRoot()` is set, the
map's modified flag, the calls made so far and the lines written to the error stream. -/
structure LayerContext where
  hasRoot : Bool
  modified : Bool
  calls : List LayerCall
  errors : List Str
  deriving DecidableEq, Repr

/-- The accessors of `cmd::Argument` (`icommandsystem.h` is not part of the sources), as
parameters. -/
structure ArgumentAccess where
  getString : Argument → Str
  getInt : Argument → Int

/-- A call on the layer manager of the map root. -/
def LayerContext.call (ctx : LayerContext) (c : LayerCall) : LayerContext :=
  { ctx with calls := ctx.calls ++ [c] }

/-- `GlobalMapModule().setModified(flag)`, as far as the handlers are concerned: the call and the
flag. -/
def LayerContext.setModified (ctx : LayerContext) (modifiedFlag : Bool) : LayerContext :=
  { ctx with modified := modifiedFlag, calls := ctx.calls ++ [LayerCall.setModified modifiedFlag] }

/-- `rError() << ... << std::endl`. -/
def LayerContext.rError (ctx : LayerContext) (line : Str) : LayerContext :=
  { ctx with errors := ctx.errors ++ [line] }

/-- `DoWithMapLayerManager(func)`. -/
def DoWithMapLayerManager (ctx : LayerContext) (func : LayerContext → LayerContext) :
    LayerContext :=
  if !ctx.hasRoot then ctx.rError "No map loaded, cannot do this.".toList
  else func ctx

/-- `LayerModule::createLayer(args)`; `args.size() != 1` is every list but a singleton. -/
def LayerModule.createLayer (acc : ArgumentAccess) (ctx : LayerContext) (args : List Argument) :
    LayerContext :=
  match args with
  | [arg0] =>
    DoWithMapLayerManager ctx (fun c =>
      (c.call (LayerCall.createLayer (acc.getString arg0))).setModified true)
  | _ => ctx.rError "Usage: CreateLayer <LayerName> ".toList

/-- `LayerModule::addSelectionToLayer(args)`. -/
def LayerModule.addSelectionToLayer (acc : ArgumentAccess) (ctx : LayerContext)
    (args : List Argument) : LayerContext :=
  match args with
  | [arg0] =>
    DoWithMapLayerManager ctx (fun c =>
      (c.call (LayerCall.addSelectionToLayer (acc.getInt arg0))).setModified true)
  | _ => ctx.rError "Usage: AddSelectionToLayer <LayerID> ".toList

/-- `LayerModule::moveSelectionToLayer(args)`. -/
def LayerModule.moveSelectionToLayer (acc : ArgumentAccess) (ctx : LayerContext)
    (args : List Argument) : LayerContext :=
  match args with
  | [arg0] =>
    DoWithMapLayerManager ctx (fun c =>
      (c.call (LayerCall.moveSelectionToLayer (acc.getInt arg0))).setModified true)
  | _ => ctx.rError "Usage: MoveSelectionToLayer <LayerID> ".toList

/-- `LayerModule::removeSelectionFromLayer(args)`. -/
def LayerModule.removeSelectionFromLayer (acc : ArgumentAccess) (ctx : LayerContext)
    (args : List Argument) : LayerContext :=
  match args with
  | [arg0] =>
    DoWithMapLayerManager ctx (fun c =>
      (c.call (LayerCall.removeSelectionFromLayer (acc.getInt arg0))).setModified true)
  | _ => ctx.rError "Usage: RemoveSelectionFromLayer <LayerID> ".toList

/-- `LayerModule::showLayer(args)`. -/
def LayerModule.showLayer (acc : ArgumentAccess) (ctx : LayerContext) (args : List Argument) :
    LayerContext :=
  match args with
  | [arg0] =>
    DoWithMapLayerManager ctx (fun c =>
      c.call (LayerCall.setLayerVisibility (acc.getInt arg0) true))
  | _ => ctx.rError "Usage: ShowLayer <LayerID> ".toList

/-- `LayerModule::hideLayer(args)`. -/
def LayerModule.hideLayer (acc : ArgumentAccess) (ctx : LayerContext) (args : List Argument) :
    LayerContext :=
  match args with
  | [arg0] =>
    DoWithMapLayerManager ctx (fun c =>
      c.call (LayerCall.setLayerVisibility (acc.getInt arg0) false))
  | _ => ctx.rError "Usage: HideLayer <LayerID> ".toList

/-- The six layer commands registered by `LayerModule::initialiseModule`. -/
inductive LayerCommand where
  | createLayer
  | addSelectionToLayer
  | moveSelectionToLayer
  | removeSelectionFromLayer
  | showLayer
  | hideLayer
  deriving DecidableEq, Repr

/-- The handler bound to a layer command. -/
def LayerCommand.handler (cmd : LayerCommand) :
    ArgumentAccess → LayerContext → List Argument → LayerContext :=
  match cmd with
  | LayerCommand.createLayer => LayerModule.createLayer
  | LayerCommand.addSelectionToLayer => LayerModule.addSelectionToLayer
  | LayerCommand.moveSelectionToLayer => LayerModule.moveSelectionToLayer
  | LayerCommand.removeSelectionFromLayer => LayerModule.removeSelectionFromLayer
  | LayerCommand.showLayer => LayerModule.showLayer
  | LayerCommand.hideLayer => LayerModule.hideLayer

/-- Argument accessors for examples: the written string, the integer value (0 for the rest). -/
def exampleArgumentAccess : ArgumentAccess :=
  { getString := fun a => match a with
      | Argument.string v => v
      | Argument.real v => v
      | Argument.int v => decimal v.toNat
      | Argument.vector3 x y z => x ++ [' '] ++ y ++ [' '] ++ z,
    getInt := fun a => match a with
      | Argument.int v => v
      | _ => 0 }

/-! ## Lighting mode (`Doom3ShaderSystem::setLightingEnabled`) -/

/-- The calls `setLightingEnabled` makes on the materials, each with the value the global flag
`CShader::m_lightingEnabled` has at the time of the call. -/
inductive LightingCall where
  | unrealiseLighting (shader : Str) (lightingEnabled : Bool)
  | realiseLighting (shader : Str) (lightingEnabled : Bool)
  deriving DecidableEq, Repr

/-- What `setLightingEnabled` works on: the global flag `CShader::m_lightingEnabled`, the
materials of the shader library in the order `foreachShader` visits them, and the calls received
by the materials so far. -/
structure LightingState where
  lightingEnabled : Bool
  shaders : List CShader
  calls : List LightingCall
  deriving DecidableEq, Repr

/-- Modelled from the spec: `ShaderLibrary::foreachShader` (ShaderLibrary.cpp is not part of the
sources), which hands every material of the library to the functor, once each. -/
def LightingState.foreachShader (s : LightingState)
    (func : LightingState → CShader → LightingState) : LightingState :=
  s.shaders.foldl func s

/-- `shader->unrealiseLighting()`, recorded with the global flag at that moment. -/
def LightingState.unrealiseLighting (s : LightingState) (shader : CShader) : LightingState :=
  { s with calls := s.calls ++ [LightingCall.unrealiseLighting shader.name s.lightingEnabled] }

/-- `shader->realiseLighting()`, recorded with the global flag at that moment. -/
def LightingState.realiseLighting (s : LightingState) (shader : CShader) : LightingState :=
  { s with calls := s.calls ++ [LightingCall.realiseLighting shader.name s.lightingEnabled] }

/-- `Doom3ShaderSystem::setLightingEnabled(enabled)`. -/
def setLightingEnabled (s : LightingState) (enabled : Bool) : LightingState :=
  if s.lightingEnabled != enabled then
    let s1 := s.foreachShader LightingState.unrealiseLighting
    let s2 := { s1 with lightingEnabled := enabled }
    s2.foreachShader LightingState.realiseLighting
  else s

/-- Two materials, lighting enabled, no call made yet. -/
def litLibrary : LightingState :=
  { lightingEnabled := true,
    shaders := [{ name := "textures/a".toList, working := [], modified := false },
                { name := "textures/b".toList, working := [], modified := false }],
    calls := [] }

/-- A library whose material `m` is modified and sourced from no file. -/
def modifiableModifiedLibrary : ShaderSystem :=
  { decls := [{ name := "m".toList, fileInfo := { name := [], isPhysicalFile := false },
                contents := "old".toList }],
    shaders := [{ name := "m".toList, working := "new".toList, modified := true }],
    log := [] }

/-! ## Particle declarations (`ParticlesManager::parseParticleDef`) -/

/-- The class `ParticleDef` (ParticleDef.h and ParticleDef.cpp are not part of the sources), as
parameters: the type of what a definition holds besides its name and file name, the value a
newly constructed `ParticleDef(name)` holds, and `parseFromTokens`, which leaves the definition
in some state and either returns with the tokens left or throws. -/
structure ParticleDefLib where
  Content : Type
  create : Str → Content
  parseFromTokens : Content → List Str → Content × Except ReaderError (List Str)

/-- A particle definition held by the manager: its name, the file name it records and what it
holds otherwise. -/
structure ParticleDef (lib : ParticleDefLib) where
  name : Str
  filename : Str
  content : lib.Content

/-- `ParticlesManager::findOrInsertParticleDefInternal(name)` on the map `_particleDefs`: the
definition found or inserted, and the map afterwards.  The map is kept as a list with one entry
per name; its iteration order plays no part here. -/
def findOrInsertParticleDefInternal (lib : ParticleDefLib) (defs : List (ParticleDef lib))
    (name : Str) : ParticleDef lib × List (ParticleDef lib) :=
  match defs.find? (fun d => d.name == name) with
  | some d => (d, defs)
  | none =>
    ({ name := name, filename := [], content := lib.create name },
     defs ++ [{ name := name, filename := [], content := lib.create name }])

/-- The loop `for (std::size_t level = 1; level > 0;)` of `parseParticleDef`, skipping a block:
each round takes the next token (a `ParseException` if there is none), `}` decrements the
level and `{` increments it, as a `std::size_t`. -/
def skipBlockTokens (level : Nat) (tok : List Str) : Except ReaderError (List Str) :=
  if level > 0 then
    match tok with
    | [] => Except.error (ReaderError.parseException "DefTokeniser: no more tokens".toList)
    | token :: rest =>
      if token = closeBrace then skipBlockTokens (level - 1) rest
      else if token = openBrace then skipBlockTokens ((level + 1) % sizeMod) rest
      else skipBlockTokens level rest
  else Except.ok tok

/-- An update of the definition registered under `name` through the pointer held by
`parseParticleDef`. -/
def updateParticleDef (lib : ParticleDefLib) (defs : List (ParticleDef lib)) (name : Str)
    (f : ParticleDef lib → ParticleDef lib) : List (ParticleDef lib) :=
  defs.map (fun d => if d.name = name then f d else d)

/-- `ParticlesManager::parseParticleDef(tok, filename)`: the definitions and the tokens left on
return, or the exception together with the definitions at that point. -/
def parseParticleDef (lib : ParticleDefLib) (defs : List (ParticleDef lib)) (tok : List Str)
    (filename : Str) :
    Except (ReaderError × List (ParticleDef lib)) (List (ParticleDef lib) × List Str) :=
  match nextToken tok with
  | Except.error e => Except.error (e, defs)
  | Except.ok (declName, tok1) =>
    if declName ≠ "particle".toList then
      -- tok.skipTokens(1)
      match nextToken tok1 with
      | Except.error e => Except.error (e, defs)
      | Except.ok (_, tok2) =>
        match assertNextToken openBrace tok2 with
        | Except.error e => Except.error (e, defs)
        | Except.ok tok3 =>
          match skipBlockTokens 1 tok3 with
          | Except.error e => Except.error (e, defs)
          | Except.ok tok4 => Except.ok (defs, tok4)
    else
      match nextToken tok1 with
      | Except.error e => Except.error (e, defs)
      | Except.ok (name, tok2) =>
        match assertNextToken openBrace tok2 with
        | Except.error e => Except.error (e, defs)
        | Except.ok tok3 =>
          let pdef := (findOrInsertParticleDefInternal lib defs name).1
          let defs1 := (findOrInsertParticleDefInternal lib defs name).2
          let defs2 := updateParticleDef lib defs1 name (fun d => { d with filename := filename })
          let parsed := lib.parseFromTokens pdef.content tok3
          let defs3 := updateParticleDef lib defs2 name (fun d => { d with content := parsed.1 })
          match parsed.2 with
          | Except.error e => Except.error (e, defs3)
          | Except.ok tok4 => Except.ok (defs3, tok4)

/-- A stand-in for `ParticleDef` in examples: a definition holds the tokens of its block, and
`parseFromTokens` replaces them by the tokens up to the next closing brace. -/
def exampleParticleDefLib : ParticleDefLib :=
  { Content := List Str,
    create := fun _ => [],
    parseFromTokens := fun _ tok =>
      (tok.takeWhile (fun t => t != closeBrace),
       match tok.dropWhile (fun t => t != closeBrace) with
       | [] => Except.error (ReaderError.parseException "DefTokeniser: no more tokens".toList)
       | _ :: rest => Except.ok rest) }

/-- The tokens of a block `particle fire` saying `count 1`. -/
def fireBlockOne : List Str :=
  ["particle".toList, "fire".toList, openBrace, "count".toList, "1".toList, closeBrace]

/-- The tokens of a block `particle fire` saying `count 2`. -/
def fireBlockTwo : List Str :=
  ["particle".toList, "fire".toList, openBrace, "count".toList, "2".toList, closeBrace]

/-! ## Prefab insertion (`Map::loadPrefabAt`) -/

/-- The calls `loadPrefabAt` makes on its collaborators, in order of occurrence: the scope of
the `UndoableCommand`, the selection system, `Map::import` and the brush module.  The
translation is recorded with the value the texture-lock flag has at that moment. -/
inductive PrefabCall (V : Type) where
  | undoStart (command : Str)
  | undoFinish (command : Str)
  | setSelectedAll (selected : Bool)
  | importMap (path : Str)
  | setTextureLock (enabled : Bool)
  | translateSelected (translation : V) (textureLockEnabled : Bool)
  deriving DecidableEq, Repr

/-- What `loadPrefabAt` works on: the texture-lock flag of the brush module
(`GlobalBrush().textureLockEnabled()`) and the calls made so far. -/
structure PrefabContext (V : Type) where
  textureLock : Bool
  calls : List (PrefabCall V)
  deriving DecidableEq, Repr

/-- A call on a collaborator. -/
def PrefabContext.call {V : Type} (ctx : PrefabContext V) (c : PrefabCall V) : PrefabContext V :=
  { ctx with calls := ctx.calls ++ [c] }

/-- `GlobalBrush().setTextureLock(enabled)`. -/
def PrefabContext.setTextureLock {V : Type} (ctx : PrefabContext V) (enabled : Bool) :
    PrefabContext V :=
  { textureLock := enabled, calls := ctx.calls ++ [PrefabCall.setTextureLock enabled] }

/-- `Map::loadPrefabAt(targetCoords)`; `chosen` is what `ui::PrefabSelector::ChoosePrefab()`
returns. -/
def Map.loadPrefabAt {V : Type} (chosen : Str) (ctx : PrefabContext V) (targetCoords : V) :
    PrefabContext V :=
  let path := chosen
  if !path.isEmpty then
    let c1 := ctx.call (PrefabCall.undoStart "loadPrefabAt".toList)
    let c2 := c1.call (PrefabCall.setSelectedAll false)
    let c3 := c2.call (PrefabCall.importMap path)
    let prevTexLockState := c3.textureLock
    let c4 := c3.setTextureLock true
    let c5 := c4.call (PrefabCall.translateSelected targetCoords c4.textureLock)
    let c6 := c5.setTextureLock prevTexLockState
    c6.call (PrefabCall.undoFinish "loadPrefabAt".toList)
  else ctx

/-! ## Saving on request (`Map::askForSave`) -/

/-- The results of a dialog, `ui::IDialog::Result` (idialog.h is not part of the sources). -/
inductive DialogResult where
  | cancelled
  | ok
  | no
  | yes
  deriving DecidableEq, Repr

/-- The collaborators of the save routines, as parameters: the translation function `_()`, the
answer to the save confirmation (`msgBox->run()`), the full path chosen in the file dialog of
`saveAs` (empty when none is chosen), and whether `_resource->save` succeeds for the map of a
given name. -/
structure SaveEnv where
  translate : Str → Str
  dialogResult : DialogResult
  fileSelection : Str
  resourceSave : Str → Bool

/-- The part of `Map` the save routines work on: name, modified flag, the guard
`_saveInProgress`, the calls of `_resource->save` so far (map name and outcome) and the entries
inserted into the list of recently used files. -/
structure SaveModel where
  mapName : Str
  modified : Bool
  saveInProgress : Bool
  saves : List (Str × Bool)
  mru : List Str
  deriving DecidableEq, Repr

/-- `Map::isUnnamed()` on the save model. -/
def SaveModel.isUnnamed (env : SaveEnv) (m : SaveModel) : Bool :=
  m.mapName == env.translate MAP_UNNAMED_STRING

/-- `Map::save(mapFormat)`: the value returned and the map afterwards. -/
def Map.save (env : SaveEnv) (m : SaveModel) : Bool × SaveModel :=
  if m.saveInProgress then (false, m)
  else
    let m1 := { m with saveInProgress := true }
    let success := env.resourceSave m1.mapName
    let m2 := { m1 with saves := m1.saves ++ [(m1.mapName, success)] }
    let m3 := if success then { m2 with modified := false } else m2
    (success, { m3 with saveInProgress := false })

/-- `Map::rename(filename)`. -/
def Map.rename (env : SaveEnv) (m : SaveModel) (filename : Str) : SaveModel :=
  if m.mapName ≠ filename then { m with mapName := filename }
  else
    { m with saves := m.saves ++ [(m.mapName, env.resourceSave m.mapName)], modified := false }

/-- `Map::saveAs()`: the value returned and the map afterwards. -/
def Map.saveAs (env : SaveEnv) (m : SaveModel) : Bool × SaveModel :=
  if m.saveInProgress then (false, m)
  else if !env.fileSelection.isEmpty then
    let oldFilename := m.mapName
    let m1 := Map.rename env m env.fileSelection
    let success := (Map.save env m1).1
    let m2 := (Map.save env m1).2
    if success then (success, { m2 with mru := m2.mru ++ [env.fileSelection] })
    else (success, Map.rename env m2 oldFilename)
  else (false, m)

/-- `Map::askForSave(title)`: the value returned and the map afterwards. -/
def Map.askForSave (env : SaveEnv) (m : SaveModel) : Bool × SaveModel :=
  if !m.modified then (true, m)
  else
    let result := env.dialogResult
    if result = DialogResult.cancelled then (false, m)
    else if result = DialogResult.yes then
      if m.isUnnamed env then Map.saveAs env m
      else (true, (Map.save env m).2)
    else (true, m)

/-- The user answers the confirmation with yes, picks `maps/b.map` when asked for a file, and
no file can be written. -/
def failingSaveEnv : SaveEnv :=
  { translate := fun s => s,
    dialogResult := DialogResult.yes,
    fileSelection := "maps/b.map".toList,
    resourceSave := fun _ => false }

/-- The modified map `maps/a.map`. -/
def modifiedNamedMap : SaveModel :=
  { mapName := "maps/a.map".toList, modified := true, saveInProgress := false, saves := [],
    mru := [] }

/-- The modified map without a name. -/
def modifiedUnnamedMap : SaveModel :=
  { mapName := MAP_UNNAMED_STRING, modified := true, saveInProgress := false, saves := [],
    mru := [] }

/-! ## Entity class inheritance (`Doom3EntityClass::resolveInheritance`) -/

/-- An entity class object: its name, its attributes (name and value, `EntityAttributeMap`) and
the flag `_inheritanceResolved`. -/
structure EClass where
  name : Str
  attributes : List (Str × Str)
  inheritanceResolved : Bool
  deriving DecidableEq, Repr

/-- `Doom3EntityClass::getAttribute(name).value`: the value of the attribute, or the value of
`_emptyAttribute`, the empty string. -/
def EClass.getAttribute (c : EClass) (name : Str) : Str :=
  match c.attributes.find? (fun a => a.1 == name) with
  | some a => a.2
  | none => []

/-- The entity class objects, addressed by their position, and the class map `EntityClasses`
from names to objects. -/
structure EClassHeap where
  objects : List EClass
  classmap : List (Str × Nat)
  warnings : List Str
  deriving DecidableEq, Repr

/-- `classmap.find(parName)`. -/
def EClassHeap.find (h : EClassHeap) (parName : Str) : Option Nat :=
  (h.classmap.find? (fun e => e.1 == parName)).map (fun e => e.2)

/-- An update of the object at an address. -/
def EClassHeap.modify (h : EClassHeap) (addr : Nat) (f : EClass → EClass) : EClassHeap :=
  { h with objects := h.objects.modify f addr }

/-- `Doom3EntityClass::resolveInheritance(classmap)` on the object at address `self`.  The
first argument bounds the depth of the recursion: the result is `none` when the recursion goes
deeper, and the heap after the call otherwise.  `copyAttributes` stands for the visit of the
parent's attributes by an `AttributeCopyingVisitor` (AttributeCopyingVisitor.h is not part of
the sources): from the attributes of the parent and of the child to those of the child
afterwards. -/
def resolveInheritance (copyAttributes : List (Str × Str) → List (Str × Str) → List (Str × Str))
    (depth : Nat) (h : EClassHeap) (self : Nat) : Option EClassHeap :=
  match depth with
  | 0 => none
  | n + 1 =>
    match h.objects.get? self with
    | none => some h
    | some this =>
      if this.inheritanceResolved then some h
      else
        let parName := this.getAttribute "inherit".toList
        if parName.isEmpty || parName == this.name then some h
        else
          match h.find parName with
          | some par =>
            match resolveInheritance copyAttributes n h par with
            | none => none
            | some h1 =>
              let parAttributes := ((h1.objects.get? par).map (fun c => c.attributes)).getD []
              some (h1.modify self (fun c =>
                { c with attributes := copyAttributes parAttributes c.attributes,
                         inheritanceResolved := true }))
          | none =>
            some ({ h with warnings := h.warnings ++
                      ["[eclassmgr] Warning: Entity class ".toList ++ this.name
                        ++ " specifies parent ".toList ++ parName
                        ++ " which is not found.".toList] }.modify self
                    (fun c => { c with inheritanceResolved := true }))

/-- A stand-in for the attribute copy in examples: the child keeps its attributes and gains
those of the parent it does not have. -/
def exampleCopyAttributes (parent child : List (Str × Str)) : List (Str × Str) :=
  child ++ parent.filter (fun a => !child.any (fun b => b.1 == a.1))

/-- Two entity classes inheriting from each other: `a` from `b` and `b` from `a`. -/
def cyclicClasses : EClassHeap :=
  { objects := [{ name := "a".toList, attributes := [("inherit".toList, "b".toList)],
                  inheritanceResolved := false },
                { name := "b".toList, attributes := [("inherit".toList, "a".toList)],
                  inheritanceResolved := false }],
    classmap := [("a".toList, 0), ("b".toList, 1)],
    warnings := [] }

/-- An entity class inheriting from itself. -/
def selfParentClasses : EClassHeap :=
  { objects := [{ name := "a".toList, attributes := [("inherit".toList, "a".toList)],
                  inheritanceResolved := false }],
    classmap := [("a".toList, 0)],
    warnings := [] }

/-! ## Patch control access from scripts (`ScriptPatchNode::ctrlAt`) -/

/-- The dimensions of the patch behind a `ScriptPatchNode`. -/
structure PatchDims where
  height : Nat
  width : Nat
  deriving DecidableEq, Repr

/-- The reference `ctrlAt` returns: the shared `_emptyPatchControl`, or what the patch's own
`ctrlAt(row, col)` returns. -/
inductive PatchControlRef where
  | emptyPatchControl
  | patchCtrlAt (row col : Nat)
  deriving DecidableEq, Repr

/-- `ScriptPatchNode::ctrlAt(row, col)`: the reference returned and the lines written to the
error stream.  `patchNode` is `none` when the cast to `IPatchNode` yields a null pointer. -/
def ScriptPatchNode.ctrlAt (patchNode : Option PatchDims) (row col : Nat) :
    PatchControlRef × List Str :=
  match patchNode with
  | none => (PatchControlRef.emptyPatchControl, [])
  | some patch =>
    if row > patch.height || col > patch.width then
      (PatchControlRef.emptyPatchControl,
       ["One or more patch control indices out of bounds: ".toList ++ decimal row ++ [',']
          ++ decimal col])
    else (PatchControlRef.patchCtrlAt row col, [])

/-! ## Column types of the tree model (`wxutil::TreeModel::Column::getWxType`) -/

/-- The enumeration `TreeModel::Column::Type` without its last member `NumTypes`. -/
inductive ColumnType where
  | String
  | Integer
  | Double
  | Bool
  | Icon
  deriving DecidableEq, Repr

/-- The value of an enumerator. -/
def ColumnType.toNat : ColumnType → Nat
  | ColumnType.String => 0
  | ColumnType.Integer => 1
  | ColumnType.Double => 2
  | ColumnType.Bool => 3
  | ColumnType.Icon => 4

/-- The enumerator `NumTypes`. -/
def NumTypes : Nat := 5

/-- `TreeModel::Column::getWxType()` for a column of the given type.  The function-local static
`types` is `none` before the first call, which constructs it as a vector of `NumTypes` empty
strings; the string returned and the static afterwards. -/
def getWxType (types : Option (List Str)) (type : ColumnType) : Str × Option (List Str) :=
  let types0 := match types with
    | some v => v
    | none => List.replicate NumTypes []
  let types1 :=
    if types0.isEmpty then
      ((((types0.set ColumnType.String.toNat "string".toList).set
          ColumnType.Integer.toNat "long".toList).set
          ColumnType.Double.toNat "double".toList).set
          ColumnType.Bool.toNat "bool".toList).set
          ColumnType.Icon.toNat "icon".toList
    else types0
  (types1.getD type.toNat [], some types1)

/-! ## Bounded loops for evaluation -/

/-- The loop of `skipBlock` with a bound on the number of rounds, for evaluation; the bound is
not reached when it exceeds the number of characters left in the stream. -/
def skipBlockFuel : Nat → IStream → Nat → Bool → IStream
  | 0, input, _, _ => input
  | fuel + 1, input, openBraces, blockStarted =>
    match getline input with
    | (none, inp2) => inp2
    | (some line, inp2) =>
      if (countBraces line openBraces blockStarted).2
          && (countBraces line openBraces blockStarted).1 == 0 then inp2
      else skipBlockFuel fuel inp2 (countBraces line openBraces blockStarted).1
        (countBraces line openBraces blockStarted).2

/-- The loop of `stripLoop` with a bound on the number of rounds, for evaluation. -/
def stripLoopFuel (matcher : Str → MatchResult) : Nat → IStream → Str → IStream × Str
  | 0, input, output => (input, output)
  | fuel + 1, input, output =>
    match getline input with
    | (none, inp2) => (inp2, output)
    | (some line, inp2) =>
      match matcher line with
      | some subs =>
        if (subs 1).isEmpty then (skipBlockFuel (fuel + 1) inp2 0 false, output)
        else (skipBlockFuel (fuel + 1) inp2 1 true, output)
      | none => stripLoopFuel matcher fuel inp2 (output ++ line ++ ['\n'])

/-- A particle file holding the blocks of `axb` and of `a.b`. -/
def dottedNameParticleFile : Str :=
  "particle axb \x7b\n\x7d\nparticle a.b \x7b\n old\n\x7d\n".toList

/-- A particle file holding the blocks of `a`, of `x` with two opening braces on the header line
and two closing braces on lines of their own, and of `b`. -/
def doubleBraceParticleFile : Str :=
  "particle a \x7b\n\x7d\nparticle x\x7b\x7b\n\x7d\n\x7d\nparticle b \x7b\n\x7d\n".toList

/-! ## Theorems: `ensureNonConflictingName` -/

theorem ensureLoop_of_exists (s : ShaderSystem) (c : Str) (i : Int)
    (h : s.definitionExists c = true) :
    ensureLoop s c i = ensureLoop s (c ++ format02d (wrapInt32 (i + 1))) (wrapInt32 (i + 1)) := by
  rw [ensureLoop]
  simp [h]

theorem ensureLoop_of_free (s : ShaderSystem) (c : Str) (i : Int)
    (h : s.definitionExists c = false) : ensureLoop s c i = c := by
  rw [ensureLoop]
  simp [h]

theorem ensureLoop_free_aux (s : ShaderSystem) (m : Nat) : ∀ (c : Str) (i : Int),
    s.maxNameLength + 1 - c.length ≤ m → s.definitionExists (ensureLoop s c i) = false := by
  induction m with
  | zero =>
    intro c i hm
    cases hc : s.definitionExists c with
    | false => rw [ensureLoop_of_free s c i hc]; exact hc
    | true =>
      have h1 := s.length_le_of_exists c hc
      omega
  | succ k ih =>
    intro c i hm
    cases hc : s.definitionExists c with
    | false => rw [ensureLoop_of_free s c i hc]; exact hc
    | true =>
      rw [ensureLoop_of_exists s c i hc]
      have h1 := s.length_le_of_exists c hc
      have h2 := format02d_length_pos (wrapInt32 (i + 1))
      apply ih
      simp only [List.length_append]
      omega

theorem ensureLoop_free (s : ShaderSystem) (c : Str) (i : Int) :
    s.definitionExists (ensureLoop s c i) = false :=
  ensureLoop_free_aux s _ c i (le_refl _)

theorem ensure_result_free (s : ShaderSystem) (n : Str) :
    s.definitionExists (ensureNonConflictingName s n).1 = false :=
  ensureLoop_free s n 0

/-- C1 (evaluation at the failing input): with definitions `a` and `a01` both present,
`ensureNonConflictingName("a")` returns `a0102`, the suffixes `01` and `02` accumulated, although
`a02` is free; the result is not the name followed by one two-digit suffix. -/
theorem ensureNonConflictingName_accumulates_suffixes :
    (ensureNonConflictingName (libraryOf ["a".toList, "a01".toList]) "a".toList).1 = "a0102".toList
      ∧ (libraryOf ["a".toList, "a01".toList]).definitionExists "a02".toList = false
      ∧ (ensureNonConflictingName (libraryOf ["a".toList, "a01".toList]) "a".toList).1
          ≠ "a02".toList := by
  have h : (ensureNonConflictingName (libraryOf ["a".toList, "a01".toList]) "a".toList).1
      = "a0102".toList := by
    unfold ensureNonConflictingName
    show ensureLoop _ _ 0 = _
    rw [ensureLoop_of_exists _ _ _ (by decide)]
    rw [ensureLoop_of_exists _ _ _ (by decide)]
    rw [ensureLoop_of_free _ _ _ (by decide)]
    decide
  refine ⟨h, by decide, ?_⟩
  rw [h]
  decide

/-- C2: for every library state (a finite list of declarations) and every name `n`, the name
returned by `ensureNonConflictingName(n)` is not the name of an existing definition, and the
library state after the call is the state before it. -/
theorem ensureNonConflictingName_not_existing (s : ShaderSystem) (n : Str) :
    s.definitionExists (ensureNonConflictingName s n).1 = false
      ∧ (ensureNonConflictingName s n).2 = s :=
  ⟨ensureLoop_free s n 0, rfl⟩

/-! ## Theorems: streams and lines -/

theorem linesOf_eq_nil (b : Str) : linesOf b = [] ↔ b = [] := by
  cases b with
  | nil => simp [linesOf]
  | cons c cs =>
    simp only [linesOf]
    split
    · simp
    · split <;> simp

theorem linesOf_cons_takeWhile (c : Char) (cs : Str) :
    linesOf (c :: cs) = (c :: cs).takeWhile (fun x => x != '\n')
      :: linesOf ((c :: cs).dropWhile (fun x => x != '\n')).tail := by
  induction cs generalizing c with
  | nil =>
    by_cases hc : c = '\n'
    · subst hc; simp [linesOf]
    · have hb : (c != '\n') = true := by simp [hc]
      simp [linesOf, hc, List.takeWhile, List.dropWhile, hb]
  | cons d ds ih =>
    by_cases hc : c = '\n'
    · subst hc; simp [linesOf]
    · have ihd := ih d
      rw [linesOf]
      simp only [hc, if_false]
      rw [ihd]
      simp [List.takeWhile_cons, List.dropWhile_cons, hc]

theorem getline_nil (inp : IStream) (hw : inp.wf) (hb : linesOf inp.buf = []) :
    (getline inp).1 = none ∧ (getline inp).2.buf = [] ∧ (getline inp).2.eof = true := by
  rw [linesOf_eq_nil] at hb
  unfold getline
  by_cases he : inp.eof = true
  · simp [he, hb]
  · simp only [Bool.not_eq_true] at he
    simp [he, hw.1, hb]

theorem getline_cons (inp : IStream) (hw : inp.wf) (l : Str) (ls : List Str)
    (hb : linesOf inp.buf = l :: ls) :
    ∃ inp2, getline inp = (some l, inp2) ∧ inp2.wf ∧ linesOf inp2.buf = ls := by
  have hne : inp.buf ≠ [] := by
    intro h; rw [h] at hb; simp [linesOf] at hb
  have he : inp.eof = false := by
    cases h : inp.eof with
    | false => rfl
    | true => exact absurd (hw.2 h) hne
  obtain ⟨c, cs, hcs⟩ := List.exists_cons_of_ne_nil hne
  rw [hcs, linesOf_cons_takeWhile] at hb
  simp only [List.cons.injEq] at hb
  unfold getline
  simp only [he, hw.1, Bool.or_self, Bool.false_eq_true, if_false, hcs]
  cases hd : (c :: cs).dropWhile (fun x => x != '\n') with
  | nil =>
    rw [hd] at hb
    refine ⟨_, by rw [hb.1], ⟨rfl, fun _ => rfl⟩, ?_⟩
    simpa [linesOf] using hb.2
  | cons x rest =>
    rw [hd] at hb
    refine ⟨_, by rw [hb.1], ⟨rfl, fun h => by simp at h⟩, ?_⟩
    simpa using hb.2

theorem skipBlock_lines_aux (n : Nat) : ∀ (inp : IStream) (ob : Nat) (bs : Bool),
    inp.buf.length ≤ n → inp.wf →
    linesOf (skipBlock inp ob bs).buf = skipLines (linesOf inp.buf) ob bs := by
  induction n with
  | zero =>
    intro inp ob bs hn hw
    have hb : inp.buf = [] := List.length_eq_zero.mp (Nat.le_zero.mp hn)
    have hl : linesOf inp.buf = [] := by rw [hb]; rfl
    obtain ⟨h1, h2, _⟩ := getline_nil inp hw hl
    rw [skipBlock]
    split
    · rename_i inp2 heq
      rw [heq] at h2
      simp only at h2
      rw [h2, hl]; rfl
    · rename_i line inp2 heq
      rw [heq] at h1
      simp at h1
  | succ k ih =>
    intro inp ob bs hn hw
    cases hl : linesOf inp.buf with
    | nil =>
      obtain ⟨h1, h2, _⟩ := getline_nil inp hw hl
      rw [skipBlock]
      split
      · rename_i inp2 heq
        rw [heq] at h2
        simp only at h2
        rw [h2]; rfl
      · rename_i line inp2 heq
        rw [heq] at h1
        simp at h1
    | cons l ls =>
      obtain ⟨inp3, hg, hw3, hl3⟩ := getline_cons inp hw l ls hl
      have hlt := getline_some_lt inp inp3 l hg
      rw [skipBlock]
      split
      · rename_i inp2 heq
        rw [hg] at heq
        simp at heq
      · rename_i line inp2 heq
        rw [hg] at heq
        simp only [Prod.mk.injEq, Option.some.injEq] at heq
        obtain ⟨rfl, rfl⟩ := heq
        simp only [skipLines]
        split
        · exact hl3
        · rw [ih inp3 _ _ (by omega) hw3, hl3]

theorem skipBlock_lines (inp : IStream) (ob : Nat) (bs : Bool) (hw : inp.wf) :
    linesOf (skipBlock inp ob bs).buf = skipLines (linesOf inp.buf) ob bs :=
  skipBlock_lines_aux _ inp ob bs (le_refl _) hw

theorem stripLoop_lines_aux (matcher : Str → MatchResult) (n : Nat) :
    ∀ (inp : IStream) (out : Str), inp.buf.length ≤ n → inp.wf →
    (stripLoop matcher inp out).2 = out ++ joinLines (stripLines matcher (linesOf inp.buf)).1
      ∧ linesOf (stripLoop matcher inp out).1.buf = (stripLines matcher (linesOf inp.buf)).2
      ∧ ((∀ l ∈ linesOf inp.buf, matcher l = none) →
          (stripLoop matcher inp out).1.eof = true ∧ (stripLoop matcher inp out).1.buf = []) := by
  induction n with
  | zero =>
    intro inp out hn hw
    have hb : inp.buf = [] := List.length_eq_zero.mp (Nat.le_zero.mp hn)
    have hl : linesOf inp.buf = [] := by rw [hb]; rfl
    obtain ⟨h1, h2, h3⟩ := getline_nil inp hw hl
    rw [stripLoop]
    split
    · rename_i inp2 heq
      rw [heq] at h2 h3
      simp only at h2 h3
      simp [h2, h3, hl, stripLines, joinLines, linesOf]
    · rename_i line inp2 heq
      rw [heq] at h1
      simp at h1
  | succ k ih =>
    intro inp out hn hw
    cases hl : linesOf inp.buf with
    | nil =>
      obtain ⟨h1, h2, h3⟩ := getline_nil inp hw hl
      rw [stripLoop]
      split
      · rename_i inp2 heq
        rw [heq] at h2 h3
        simp only at h2 h3
        simp [h2, h3, stripLines, joinLines, linesOf]
      · rename_i line inp2 heq
        rw [heq] at h1
        simp at h1
    | cons l ls =>
      obtain ⟨inp3, hg, hw3, hl3⟩ := getline_cons inp hw l ls hl
      have hlt := getline_some_lt inp inp3 l hg
      rw [stripLoop]
      split
      · rename_i inp2 heq
        rw [hg] at heq
        simp at heq
      · rename_i line inp2 heq
        rw [hg] at heq
        simp only [Prod.mk.injEq, Option.some.injEq] at heq
        obtain ⟨rfl, rfl⟩ := heq
        simp only [stripLines]
        cases hm : matcher l with
        | some subs =>
          simp only
          split
          · refine ⟨by simp [joinLines], ?_, ?_⟩
            · rw [skipBlock_lines _ _ _ hw3, hl3]
            · intro hall
              have := hall l (List.mem_cons_self _ _)
              rw [hm] at this; simp at this
          · refine ⟨by simp [joinLines], ?_, ?_⟩
            · rw [skipBlock_lines _ _ _ hw3, hl3]
            · intro hall
              have := hall l (List.mem_cons_self _ _)
              rw [hm] at this; simp at this
        | none =>
          simp only
          obtain ⟨i1, i2, i3⟩ := ih inp3 (out ++ l ++ ['\n']) (by omega) hw3
          rw [hl3] at i1 i2 i3
          refine ⟨?_, i2, ?_⟩
          · rw [i1]; simp [joinLines]
          · intro hall
            exact i3 (fun x hx => hall x (List.mem_cons_of_mem _ hx))

theorem stripLoop_lines (matcher : Str → MatchResult) (inp : IStream) (out : Str) (hw : inp.wf) :
    (stripLoop matcher inp out).2 = out ++ joinLines (stripLines matcher (linesOf inp.buf)).1
      ∧ linesOf (stripLoop matcher inp out).1.buf = (stripLines matcher (linesOf inp.buf)).2
      ∧ ((∀ l ∈ linesOf inp.buf, matcher l = none) →
          (stripLoop matcher inp out).1.eof = true ∧ (stripLoop matcher inp out).1.buf = []) :=
  stripLoop_lines_aux matcher _ inp out (le_refl _) hw

theorem linesOf_no_newline (b : Str) : ∀ l ∈ linesOf b, '\n' ∉ l := by
  induction b with
  | nil => simp [linesOf]
  | cons c cs ih =>
    intro l hl
    rw [linesOf] at hl
    split at hl
    · rcases List.mem_cons.mp hl with h | h
      · subst h; simp
      · exact ih l h
    · rename_i hc
      split at hl
      · simp only [List.mem_singleton] at hl
        subst hl
        simpa using fun h => hc h.symm
      · rename_i l0 ls0 heq
        rw [heq] at ih
        rcases List.mem_cons.mp hl with h | h
        · subst h
          have := ih l0 (List.mem_cons_self _ _)
          simp only [List.mem_cons, not_or]
          exact ⟨fun h => hc h.symm, this⟩
        · exact ih l (List.mem_cons_of_mem _ h)

theorem linesOf_append_newline (l rest : Str) (hl : '\n' ∉ l) :
    linesOf (l ++ '\n' :: rest) = l :: linesOf rest := by
  induction l with
  | nil => simp [linesOf]
  | cons c cs ih =>
    simp only [List.mem_cons, not_or] at hl
    have hc : ¬ c = '\n' := fun h => hl.1 h.symm
    have e : linesOf (c :: (cs ++ '\n' :: rest)) = (c :: cs) :: linesOf rest := by
      rw [linesOf]
      simp only [hc, if_false]
      rw [ih hl.2]
    exact e

theorem linesOf_joinLines (ls : List Str) (h : ∀ l ∈ ls, '\n' ∉ l) :
    linesOf (joinLines ls) = ls := by
  induction ls with
  | nil => rfl
  | cons l ls ih =>
    simp only [joinLines]
    rw [linesOf_append_newline l _ (h l (List.mem_cons_self _ _)),
      ih (fun x hx => h x (List.mem_cons_of_mem _ hx))]

theorem skipLines_suffix (ls : List Str) : ∀ (ob : Nat) (bs : Bool),
    ∃ d, ls = d ++ skipLines ls ob bs := by
  induction ls with
  | nil => intro ob bs; exact ⟨[], rfl⟩
  | cons l ls ih =>
    intro ob bs
    simp only [skipLines]
    split
    · exact ⟨[l], rfl⟩
    · obtain ⟨d, hd⟩ := ih (countBraces l ob bs).1 (countBraces l ob bs).2
      exact ⟨l :: d, by rw [List.cons_append, ← hd]⟩

theorem stripLines_decompose (matcher : Str → MatchResult) (ls : List Str) :
    ∃ dropped, ls = (stripLines matcher ls).1 ++ dropped ++ (stripLines matcher ls).2
      ∧ (∀ l ∈ (stripLines matcher ls).1, matcher l = none)
      ∧ (∀ h : dropped ≠ [], (matcher (dropped.head h)).isSome = true)
      ∧ (dropped = [] → (stripLines matcher ls).2 = []
          ∧ ∀ l ∈ ls, matcher l = none) := by
  induction ls with
  | nil => exact ⟨[], by simp [stripLines]⟩
  | cons l ls ih =>
    simp only [stripLines]
    cases hm : matcher l with
    | some subs =>
      simp only
      split
      · obtain ⟨d, hd⟩ := skipLines_suffix ls 0 false
        exact ⟨l :: d, by simp [← hd], by simp, by simp [hm], by simp⟩
      · obtain ⟨d, hd⟩ := skipLines_suffix ls 1 true
        exact ⟨l :: d, by simp [← hd], by simp, by simp [hm], by simp⟩
    | none =>
      simp only
      obtain ⟨d, h1, h2, h3, h4⟩ := ih
      refine ⟨d, ?_, ?_, h3, ?_⟩
      · simp only [List.cons_append]
        rw [← h1]
      · intro x hx
        rcases List.mem_cons.mp hx with h | h
        · subst h; exact hm
        · exact h2 x h
      · intro hd
        refine ⟨(h4 hd).1, ?_⟩
        intro x hx
        rcases List.mem_cons.mp hx with h | h
        · subst h; exact hm
        · exact (h4 hd).2 x h

theorem countBraces_cons (c : Char) (l : Str) (ob : Nat) (bs : Bool) :
    countBraces (c :: l) ob bs
      = countBraces l (braceStep (ob, bs) c).1 (braceStep (ob, bs) c).2 := rfl

theorem braceDelta_cons (c : Char) (l : Str) :
    braceDelta (c :: l)
      = braceDelta l + (if c = '{' then 1 else 0) - (if c = '}' then 1 else 0) := by
  unfold braceDelta
  simp only [List.count_cons, beq_iff_eq]
  split <;> split <;> push_cast <;> omega

theorem braceDelta_bound (l : Str) : braceDelta l ≤ l.length ∧ -(l.length : Int) ≤ braceDelta l := by
  induction l with
  | nil => simp [braceDelta]
  | cons c cs ih =>
    rw [braceDelta_cons]
    simp only [List.length_cons]
    split <;> split <;> push_cast <;> omega

theorem countBraces_spec (l : Str) : ∀ (ob : Nat) (bs : Bool), ob < sizeMod →
    ((countBraces l ob bs).1 : Int) = ((ob : Int) + braceDelta l) % 18446744073709551616
      ∧ (countBraces l ob bs).2 = (bs || l.contains '{') := by
  induction l with
  | nil =>
    intro ob bs hob
    unfold sizeMod at hob
    simp only [countBraces, List.foldl_nil, braceDelta, List.count_nil, List.contains_nil,
      Bool.or_false, and_true]
    omega
  | cons c cs ih =>
    intro ob bs hob
    rw [countBraces_cons, braceDelta_cons]
    have hlt : (braceStep (ob, bs) c).1 < sizeMod := by
      unfold braceStep
      split
      · exact Nat.mod_lt _ (by unfold sizeMod; omega)
      · split
        · exact Nat.mod_lt _ (by unfold sizeMod; omega)
        · exact hob
    obtain ⟨h1, h2⟩ := ih _ (braceStep (ob, bs) c).2 hlt
    rw [h1, h2]
    unfold sizeMod at hob
    unfold braceStep
    by_cases hc1 : c = '{'
    · subst hc1
      simp only [if_true, sizeMod, List.contains_cons, beq_self_eq_true, Bool.true_or,
        Bool.or_true, and_true]
      have : ¬ ('{' = '}') := by decide
      simp only [this, if_false]
      omega
    · by_cases hc2 : c = '}'
      · subst hc2
        have e1 : ¬ ('}' = '{') := by decide
        have e2 : ('{' == '}') = false := by decide
        simp only [e1, if_false, if_true, sizeMod, List.contains_cons, e2, Bool.false_or,
          and_true]
        omega
      · have e2 : ('{' == c) = false := by
          simp only [beq_eq_false_iff_ne, ne_eq]
          exact fun h => hc1 h.symm
        simp only [hc1, hc2, if_false, List.contains_cons, e2, Bool.false_or, and_true]
        omega

theorem skipLines_closesAt (ls : List Str) : ∀ (ob : Nat) (bs : Bool) (cnt : Int),
    ob < sizeMod → (ob : Int) = cnt % 18446744073709551616 →
    cnt + totalLength ls < 18446744073709551616 →
    -(18446744073709551616 : Int) < cnt - totalLength ls →
    skipLines ls ob bs
      = match closesAt bs cnt ls with
        | some k => ls.drop (k + 1)
        | none => [] := by
  induction ls with
  | nil => intro ob bs cnt _ _ _ _; simp [skipLines, closesAt]
  | cons l ls ih =>
    intro ob bs cnt hob hcnt hup hlo
    obtain ⟨h1, h2⟩ := countBraces_spec l ob bs hob
    obtain ⟨b1, b2⟩ := braceDelta_bound l
    have htl : (totalLength (l :: ls) : Int) = l.length + totalLength ls := by
      simp [totalLength]
    rw [htl] at hup hlo
    have hmod : ((countBraces l ob bs).1 : Int) = (cnt + braceDelta l) % 18446744073709551616 := by
      rw [h1, hcnt]; omega
    have hzero : ((countBraces l ob bs).1 == 0) = (cnt + braceDelta l == 0) := by
      by_cases hz : cnt + braceDelta l = 0
      · have : (countBraces l ob bs).1 = 0 := by
          have : ((countBraces l ob bs).1 : Int) = 0 := by rw [hmod, hz]; rfl
          exact_mod_cast this
        simp [this, hz]
      · have : (countBraces l ob bs).1 ≠ 0 := by
          intro h0
          have : ((countBraces l ob bs).1 : Int) = 0 := by rw [h0]; rfl
          rw [hmod] at this
          omega
        simp [this, hz]
    simp only [skipLines, closesAt]
    rw [h2, hzero]
    split
    · simp
    · have hlt : (countBraces l ob bs).1 < sizeMod := by
        have : ((countBraces l ob bs).1 : Int) < 18446744073709551616 := by rw [hmod]; omega
        unfold sizeMod; exact_mod_cast this
      rw [← h2]
      rw [ih (countBraces l ob bs).1 (countBraces l ob bs).2 (cnt + braceDelta l) hlt hmod
        (by omega) (by omega)]
      rw [h2]
      cases closesAt (bs || l.contains '{') (cnt + braceDelta l) ls with
      | none => simp
      | some k => simp

/-! ## Theorems: the matcher and its declarative reading -/

theorem starLoop_sound (n : Nat) (a : Regex)
    (iha : ∀ (s : Str) (c : Captures) (k : Str → Captures → Option Captures) (r : Captures),
      matchK n a s c k = some r → ∃ s1 c1, Path n a s c s1 c1 ∧ k s1 c1 = some r)
    (fuel : Nat) : ∀ (s : Str) (c : Captures) (k : Str → Captures → Option Captures)
      (r : Captures), starLoop (matchK n a) fuel s c k = some r →
      ∃ s1 c1, Path n (Regex.star a) s c s1 c1 ∧ k s1 c1 = some r := by
  induction fuel with
  | zero =>
    intro s c k r h
    exact ⟨s, c, Path.starDone a s c, h⟩
  | succ f ih =>
    intro s c k r h
    simp only [starLoop] at h
    split at h
    · rename_i r2 heq
      simp only [Option.some.injEq] at h
      subst h
      obtain ⟨s1, c1, hp, hk⟩ := iha _ _ _ _ heq
      by_cases hlt : s1.length < s.length
      · simp only [hlt, if_true] at hk
        obtain ⟨s2, c2, hp2, hk2⟩ := ih _ _ _ _ hk
        exact ⟨s2, c2, Path.starMore a s s1 s2 c c1 c2 hp hlt hp2, hk2⟩
      · simp [hlt] at hk
    · exact ⟨s, c, Path.starDone a s c, h⟩

theorem matchK_sound (n : Nat) (re : Regex) :
    ∀ (s : Str) (c : Captures) (k : Str → Captures → Option Captures) (r : Captures),
      matchK n re s c k = some r → ∃ s1 c1, Path n re s c s1 c1 ∧ k s1 c1 = some r := by
  induction re with
  | empty => intro s c k r h; exact ⟨s, c, Path.empty s c, h⟩
  | lit ch =>
    intro s c k r h
    cases s with
    | nil => simp [matchK] at h
    | cons x xs =>
      simp only [matchK] at h
      split at h
      · rename_i hx; subst hx; exact ⟨xs, c, Path.lit x xs c, h⟩
      · simp at h
  | cls chars space =>
    intro s c k r h
    cases s with
    | nil => simp [matchK] at h
    | cons x xs =>
      simp only [matchK] at h
      split at h
      · rename_i hx; exact ⟨xs, c, Path.cls chars space x xs c hx, h⟩
      · simp at h
  | anyChar =>
    intro s c k r h
    cases s with
    | nil => simp [matchK] at h
    | cons x xs => exact ⟨xs, c, Path.anyChar x xs c, h⟩
  | bol =>
    intro s c k r h
    simp only [matchK] at h
    split at h
    · rename_i hn; exact ⟨s, c, Path.bol s c hn, h⟩
    · simp at h
  | eol =>
    intro s c k r h
    simp only [matchK] at h
    split at h
    · rename_i hn
      have : s = [] := by simpa using hn
      subst this
      exact ⟨[], c, Path.eol c, h⟩
    · simp at h
  | seq a b iha ihb =>
    intro s c k r h
    simp only [matchK] at h
    obtain ⟨s1, c1, hp1, hk1⟩ := iha _ _ _ _ h
    obtain ⟨s2, c2, hp2, hk2⟩ := ihb _ _ _ _ hk1
    exact ⟨s2, c2, Path.seq a b s s1 s2 c c1 c2 hp1 hp2, hk2⟩
  | alt a b iha ihb =>
    intro s c k r h
    simp only [matchK] at h
    split at h
    · rename_i r2 heq
      simp only [Option.some.injEq] at h
      subst h
      obtain ⟨s1, c1, hp1, hk1⟩ := iha _ _ _ _ heq
      exact ⟨s1, c1, Path.altLeft a b s s1 c c1 hp1, hk1⟩
    · obtain ⟨s1, c1, hp1, hk1⟩ := ihb _ _ _ _ h
      exact ⟨s1, c1, Path.altRight a b s s1 c c1 hp1, hk1⟩
  | star a iha =>
    intro s c k r h
    simp only [matchK] at h
    exact starLoop_sound n a iha _ s c k r h
  | group i a iha =>
    intro s c k r h
    simp only [matchK] at h
    obtain ⟨s1, c1, hp1, hk1⟩ := iha _ _ _ _ h
    exact ⟨s1, _, Path.group i a s s1 c c1 hp1, hk1⟩

theorem starLoop_complete (n : Nat) (a : Regex)
    (iha : ∀ (s : Str) (c : Captures) (s1 : Str) (c1 : Captures)
      (k : Str → Captures → Option Captures),
      Path n a s c s1 c1 → (k s1 c1).isSome = true → (matchK n a s c k).isSome = true)
    (fuel : Nat) : ∀ (s : Str) (c : Captures) (s1 : Str) (c1 : Captures)
      (k : Str → Captures → Option Captures),
      Path n (Regex.star a) s c s1 c1 → s.length ≤ fuel → (k s1 c1).isSome = true →
      (starLoop (matchK n a) fuel s c k).isSome = true := by
  induction fuel with
  | zero =>
    intro s c s1 c1 k hp hf hk
    cases hp with
    | starDone => exact hk
    | starMore _ _ s2 _ _ c2 _ ha hlt hr => omega
  | succ f ih =>
    intro s c s1 c1 k hp hf hk
    simp only [starLoop]
    cases hp with
    | starDone =>
      split
      · rfl
      · exact hk
    | starMore _ _ s2 _ _ c2 _ ha hlt hr =>
      have hinner : ((fun (s3 : Str) (caps3 : Captures) =>
          if s3.length < s.length then starLoop (matchK n a) f s3 caps3 k else none) s2 c2).isSome
          = true := by
        simp only [hlt, if_true]
        exact ih s2 c2 s1 c1 k hr (by omega) hk
      have := iha s c s2 c2 (fun (s3 : Str) (caps3 : Captures) =>
          if s3.length < s.length then starLoop (matchK n a) f s3 caps3 k else none) ha hinner
      split
      · rfl
      · rename_i heq
        rw [heq] at this
        simp at this

theorem matchK_complete (n : Nat) (re : Regex) :
    ∀ (s : Str) (c : Captures) (s1 : Str) (c1 : Captures)
      (k : Str → Captures → Option Captures),
      Path n re s c s1 c1 → (k s1 c1).isSome = true → (matchK n re s c k).isSome = true := by
  induction re with
  | empty => intro s c s1 c1 k hp hk; cases hp; exact hk
  | lit ch => intro s c s1 c1 k hp hk; cases hp; simpa [matchK] using hk
  | cls chars space =>
    intro s c s1 c1 k hp hk
    cases hp with
    | cls _ _ x _ _ h =>
      simp only [matchK, h, if_true]
      exact hk
  | anyChar => intro s c s1 c1 k hp hk; cases hp; simpa [matchK] using hk
  | bol =>
    intro s c s1 c1 k hp hk
    cases hp with
    | bol _ _ h => simpa [matchK, h] using hk
  | eol => intro s c s1 c1 k hp hk; cases hp; simpa [matchK] using hk
  | seq a b iha ihb =>
    intro s c s1 c1 k hp hk
    cases hp with
    | seq _ _ _ s2 _ _ c2 _ ha hb =>
      simp only [matchK]
      exact iha s c s2 c2 _ ha (ihb s2 c2 s1 c1 k hb hk)
  | alt a b iha ihb =>
    intro s c s1 c1 k hp hk
    simp only [matchK]
    cases hp with
    | altLeft _ _ _ _ _ _ ha =>
      have := iha s c s1 c1 k ha hk
      split
      · rfl
      · rename_i heq; rw [heq] at this; simp at this
    | altRight _ _ _ _ _ _ hb =>
      split
      · rfl
      · exact ihb s c s1 c1 k hb hk
  | star a iha =>
    intro s c s1 c1 k hp hk
    simp only [matchK]
    exact starLoop_complete n a iha _ s c s1 c1 k hp (le_refl _) hk
  | group i a iha =>
    intro s c s1 c1 k hp hk
    cases hp with
    | group _ _ _ _ _ c2 ha =>
      simp only [matchK]
      exact iha s c s1 c2 _ ha hk

/-- The matcher succeeds on a line exactly when the expression can consume the whole line. -/
theorem regexMatch_isSome_iff (re : Regex) (line : Str) :
    (regexMatch re line).isSome = true ↔ ∃ caps, Path line.length re line [] [] caps := by
  unfold regexMatch
  constructor
  · intro h
    split at h
    · rename_i caps heq
      obtain ⟨s1, c1, hp, hk⟩ := matchK_sound _ _ _ _ _ _ heq
      by_cases hs : s1.isEmpty = true
      · have : s1 = [] := by simpa using hs
        subst this
        exact ⟨c1, hp⟩
      · simp [hs] at hk
    · simp at h
  · rintro ⟨caps, hp⟩
    have := matchK_complete _ _ _ _ _ _
      (fun s caps => if s.isEmpty then some caps else none) hp (by simp)
    split
    · rfl
    · rename_i heq; rw [heq] at this; simp at this

/-- Every successful match comes from a way of consuming the whole line, and its sub-matches are
read off the captures of that way. -/
theorem regexMatch_some (re : Regex) (line : Str) (subs : Nat → Str)
    (h : regexMatch re line = some subs) :
    ∃ caps, Path line.length re line [] [] caps
      ∧ subs = fun i => if i = 0 then line else (caps.lookup i).getD [] := by
  unfold regexMatch at h
  split at h
  · rename_i caps heq
    obtain ⟨s1, c1, hp, hk⟩ := matchK_sound _ _ _ _ _ _ heq
    by_cases hs : s1.isEmpty = true
    · have : s1 = [] := by simpa using hs
      subst this
      simp only [List.isEmpty_nil, if_true, Option.some.injEq] at hk
      subst hk
      simp only [Option.some.injEq] at h
      exact ⟨c1, hp, h.symm⟩
    · simp [hs] at hk
  · simp at h

/-! ## Theorems: reading the header pattern -/

theorem step_plain (st : PState) (c : Char) (hm : st.mode = Mode.normal)
    (hc : isMeta c = false) : st.step c = some (st.push (Regex.lit c) true) := by
  have hc2 := hc
  simp only [isMeta, Bool.or_eq_false_iff, decide_eq_false_iff_not] at hc2
  obtain ⟨⟨⟨⟨⟨⟨⟨⟨⟨⟨⟨⟨⟨h1, h2⟩, h3⟩, h4⟩, h5⟩, h6⟩, h7⟩, h8⟩, h9⟩, h10⟩, h11⟩, h12⟩, h13⟩, h14⟩ := hc2
  unfold PState.step
  rw [hm]
  simp only [h1, h2, h3, h4, h5, h6, h7, h11, h12, h13, h14, if_false, hc, Bool.false_eq_true]

theorem run_plain (nm : Str) : ∀ (st : PState) (rest : Str), st.mode = Mode.normal →
    isPlainName nm = true → nm ≠ [] →
    st.run (nm ++ rest)
      = PState.run { st with top := { st.top with cur := (nm.map Regex.lit).reverse ++ st.top.cur },
                             quantifiable := true } rest := by
  induction nm with
  | nil => intro st rest _ _ h; exact absurd rfl h
  | cons c cs ih =>
    intro st rest hm hp _
    simp only [isPlainName, List.all_cons, Bool.and_eq_true, Bool.not_eq_true'] at hp
    simp only [List.cons_append, PState.run]
    rw [step_plain st c hm hp.1]
    simp only
    cases cs with
    | nil =>
      simp only [List.nil_append, List.map_cons, List.map_nil, List.reverse_cons,
        List.reverse_nil, List.singleton_append, PState.push]
      congr 1
      cases st with
      | mk mode top stack groups q => simp only at hm; subst hm; rfl
    | cons d ds =>
      have key := ih (st.push (Regex.lit c) true) rest rfl
        (by simpa [isPlainName] using hp.2) (by simp)
      refine Eq.trans key ?_
      simp [PState.push, hm]

theorem run_append (a : Str) : ∀ (st : PState) (b : Str),
    st.run (a ++ b) = match st.run a with
      | some st2 => st2.run b
      | none => none := by
  induction a with
  | nil => intro st b; rfl
  | cons c cs ih =>
    intro st b
    simp only [List.cons_append, PState.run]
    cases st.step c with
    | none => rfl
    | some st2 => exact ih st2 b

/-- For a name without special characters the header pattern compiles to `headerRegex`. -/
theorem compileRegex_headerPattern (nm : Str) (hp : isPlainName nm = true) :
    compileRegex (headerPattern nm) = some (headerRegex nm) := by
  unfold compileRegex headerPattern
  rw [List.append_assoc, run_append]
  have h0 : PState.init.run "^[\\s]*particle[\\s]+".toList
      = some { mode := Mode.normal,
               top := { alts := [],
                        cur := (([Regex.bol, Regex.star wsRegex] ++ "particle".toList.map Regex.lit
                          ++ [Regex.seq wsRegex (Regex.star wsRegex)]).reverse),
                        index := 0 },
               stack := [], groups := 0, quantifiable := false } := by decide
  rw [h0]
  simp only
  cases nm with
  | nil =>
    decide
  | cons c cs =>
    rw [run_plain (c :: cs) _ _ rfl hp (by simp)]
    simp [PState.run, PState.step, PState.push, PState.quantify, PState.result, Frame.finish,
      altOf, headerRegex, seqOf, wsRegex, isMeta, braceGroup]

/-! ## Theorems: what the header expression matches -/

theorem path_seqOf_nil (n : Nat) (s : Str) (c : Captures) (s2 : Str) (c2 : Captures) :
    Path n (seqOf []) s c s2 c2 ↔ s2 = s ∧ c2 = c := by
  constructor
  · intro h; cases h; exact ⟨rfl, rfl⟩
  · rintro ⟨rfl, rfl⟩; exact Path.empty _ _

theorem path_seqOf_cons (n : Nat) (r : Regex) (rs : List Regex) (s : Str) (c : Captures)
    (s2 : Str) (c2 : Captures) :
    Path n (seqOf (r :: rs)) s c s2 c2
      ↔ ∃ s1 c1, Path n r s c s1 c1 ∧ Path n (seqOf rs) s1 c1 s2 c2 := by
  constructor
  · intro h
    cases h with
    | seq _ _ _ s1 _ _ c1 _ ha hb => exact ⟨s1, c1, ha, hb⟩
  · rintro ⟨s1, c1, ha, hb⟩
    exact Path.seq _ _ _ _ _ _ _ _ ha hb

theorem path_seqOf_append (n : Nat) (xs ys : List Regex) : ∀ (s : Str) (c : Captures)
    (s2 : Str) (c2 : Captures),
    Path n (seqOf (xs ++ ys)) s c s2 c2
      ↔ ∃ s1 c1, Path n (seqOf xs) s c s1 c1 ∧ Path n (seqOf ys) s1 c1 s2 c2 := by
  induction xs with
  | nil =>
    intro s c s2 c2
    simp only [List.nil_append, path_seqOf_nil]
    constructor
    · intro h; exact ⟨s, c, ⟨rfl, rfl⟩, h⟩
    · rintro ⟨s1, c1, ⟨rfl, rfl⟩, h⟩; exact h
  | cons x xs ih =>
    intro s c s2 c2
    simp only [List.cons_append, path_seqOf_cons, ih]
    constructor
    · rintro ⟨s1, c1, h1, s3, c3, h2, h3⟩
      exact ⟨s3, c3, ⟨s1, c1, h1, h2⟩, h3⟩
    · rintro ⟨s3, c3, ⟨s1, c1, h1, h2⟩, h3⟩
      exact ⟨s1, c1, h1, s3, c3, h2, h3⟩

theorem path_lit (n : Nat) (a : Char) (s : Str) (c : Captures) (s2 : Str) (c2 : Captures) :
    Path n (Regex.lit a) s c s2 c2 ↔ s = a :: s2 ∧ c2 = c := by
  constructor
  · intro h; cases h; exact ⟨rfl, rfl⟩
  · rintro ⟨rfl, rfl⟩; exact Path.lit _ _ _

theorem path_lits (n : Nat) (w : Str) : ∀ (s : Str) (c : Captures) (s2 : Str) (c2 : Captures),
    Path n (seqOf (w.map Regex.lit)) s c s2 c2 ↔ s = w ++ s2 ∧ c2 = c := by
  induction w with
  | nil =>
    intro s c s2 c2
    simp only [List.map_nil, path_seqOf_nil, List.nil_append]
    constructor
    · rintro ⟨rfl, rfl⟩; exact ⟨rfl, rfl⟩
    · rintro ⟨rfl, rfl⟩; exact ⟨rfl, rfl⟩
  | cons a w ih =>
    intro s c s2 c2
    simp only [List.map_cons, path_seqOf_cons, path_lit, ih, List.cons_append]
    constructor
    · rintro ⟨s1, c1, ⟨rfl, rfl⟩, rfl, rfl⟩; exact ⟨rfl, rfl⟩
    · rintro ⟨rfl, rfl⟩; exact ⟨w ++ s2, c2, ⟨rfl, rfl⟩, rfl, rfl⟩

theorem path_ws (n : Nat) (s : Str) (c : Captures) (s2 : Str) (c2 : Captures) :
    Path n wsRegex s c s2 c2 ↔ ∃ x, s = x :: s2 ∧ isSpace x = true ∧ c2 = c := by
  constructor
  · intro h
    cases h with
    | cls _ _ x _ _ hx => exact ⟨x, rfl, by simpa using hx, rfl⟩
  · rintro ⟨x, rfl, hx, rfl⟩
    exact Path.cls _ _ _ _ _ (by simpa using hx)

theorem path_star_ws_forward (n : Nat) (r : Regex) (s : Str) (c : Captures) (s2 : Str)
    (c2 : Captures) (h : Path n r s c s2 c2) (hr : r = Regex.star wsRegex) :
    ∃ w, s = w ++ s2 ∧ (∀ x ∈ w, isSpace x = true) ∧ c2 = c := by
  induction h with
  | starDone a s c => exact ⟨[], rfl, by simp, rfl⟩
  | starMore a s s1 s2 c c1 c2 ha hlt hrest _ ih2 =>
    simp only [Regex.star.injEq] at hr
    subst hr
    obtain ⟨x, hx1, hx2, hx3⟩ := (path_ws n s c s1 c1).mp ha
    obtain ⟨w, hw1, hw2, hw3⟩ := ih2 rfl
    refine ⟨x :: w, by rw [hx1, hw1]; rfl, ?_, by rw [hw3, hx3]⟩
    intro y hy
    rcases List.mem_cons.mp hy with h | h
    · rw [h]; exact hx2
    · exact hw2 y h
  | _ => cases hr

theorem path_star_ws (n : Nat) (s : Str) (c : Captures) (s2 : Str) (c2 : Captures) :
    Path n (Regex.star wsRegex) s c s2 c2
      ↔ ∃ w, s = w ++ s2 ∧ (∀ x ∈ w, isSpace x = true) ∧ c2 = c := by
  constructor
  · intro h; exact path_star_ws_forward n _ s c s2 c2 h rfl
  · rintro ⟨w, rfl, hw, rfl⟩
    induction w with
    | nil => exact Path.starDone _ _ _
    | cons x w ih =>
      refine Path.starMore _ _ (w ++ s2) _ _ c2 _ ?_ (by simp) ?_
      · exact (path_ws n _ _ _ _).mpr ⟨x, rfl, hw x (List.mem_cons_self _ _), rfl⟩
      · exact ih (fun y hy => hw y (List.mem_cons_of_mem _ hy))

theorem path_braceGroup (n : Nat) (s : Str) (c : Captures) (s2 : Str) (c2 : Captures) :
    Path n braceGroup s c s2 c2 ↔ s = '{' :: s2 ∧ c2 = (1, ['{']) :: c := by
  constructor
  · intro h
    cases h with
    | group _ _ _ _ _ c1 ha =>
      obtain ⟨s3, c3, h1, h2⟩ := (path_seqOf_cons n _ _ _ _ _ _).mp ha
      obtain ⟨rfl, rfl⟩ := (path_lit n _ _ _ _ _).mp h1
      obtain ⟨rfl, rfl⟩ := (path_seqOf_nil n _ _ _ _).mp h2
      refine ⟨rfl, ?_⟩
      simp
  · rintro ⟨rfl, rfl⟩
    have hp : Path n (seqOf [Regex.lit '{']) ('{' :: s2) c s2 c :=
      (path_seqOf_cons n _ _ _ _ _ _).mpr
        ⟨s2, c, Path.lit _ _ _, (path_seqOf_nil n _ _ _ _).mpr ⟨rfl, rfl⟩⟩
    have := Path.group 1 _ _ _ _ _ hp
    simpa [braceGroup] using this

theorem replicate_append_cons_comm {α : Type} (k : Nat) (a : α) (l : List α) :
    List.replicate k a ++ a :: l = a :: (List.replicate k a ++ l) := by
  induction k with
  | zero => rfl
  | succ k ih => simp only [List.replicate_succ, List.cons_append, ih]

theorem path_star_brace_forward (n : Nat) (r : Regex) (s : Str) (c : Captures) (s2 : Str)
    (c2 : Captures) (h : Path n r s c s2 c2) (hr : r = Regex.star braceGroup) :
    ∃ k, s = List.replicate k '{' ++ s2 ∧ c2 = List.replicate k (1, ['{']) ++ c := by
  induction h with
  | starDone a s c => exact ⟨0, rfl, rfl⟩
  | starMore a s s1 s2 c c1 c2 ha hlt hrest _ ih2 =>
    simp only [Regex.star.injEq] at hr
    subst hr
    obtain ⟨hx1, hx2⟩ := (path_braceGroup n s c s1 c1).mp ha
    obtain ⟨k, hk1, hk2⟩ := ih2 rfl
    refine ⟨k + 1, ?_, ?_⟩
    · rw [hx1, hk1]; simp [List.replicate_succ]
    · rw [hk2, hx2]
      simp only [List.replicate_succ, List.cons_append]
      exact replicate_append_cons_comm k _ c
  | _ => cases hr

theorem path_star_brace (n : Nat) (s : Str) (c : Captures) (s2 : Str) (c2 : Captures) :
    Path n (Regex.star braceGroup) s c s2 c2
      ↔ ∃ k, s = List.replicate k '{' ++ s2 ∧ c2 = List.replicate k (1, ['{']) ++ c := by
  constructor
  · intro h; exact path_star_brace_forward n _ s c s2 c2 h rfl
  · rintro ⟨k, rfl, rfl⟩
    induction k generalizing c with
    | zero => exact Path.starDone _ _ _
    | succ k ih =>
      refine Path.starMore _ _ (List.replicate k '{' ++ s2) _ _ ((1, ['{']) :: c) _ ?_
        (by simp [List.replicate_succ]) ?_
      · exact (path_braceGroup n _ _ _ _).mpr ⟨by simp [List.replicate_succ], rfl⟩
      · have := ih ((1, ['{']) :: c)
        have e : List.replicate k ((1 : Nat), ['{']) ++ (1, ['{']) :: c
            = List.replicate (k + 1) (1, ['{']) ++ c := by
          rw [replicate_append_cons_comm]; rfl
        rw [e] at this
        exact this

theorem path_headerRegex (nm line : Str) (caps : Captures) :
    Path line.length (headerRegex nm) line [] [] caps
      ↔ ∃ k, HeaderLineWith k nm line ∧ caps = List.replicate k (1, ['{']) := by
  unfold headerRegex HeaderLineWith
  simp only [path_seqOf_append, path_seqOf_cons, path_seqOf_nil, path_lits, path_star_ws,
    path_star_brace]
  constructor
  · rintro ⟨s1, c1, ⟨s2, c2, ⟨s3, c3, ⟨s4, c4, ⟨s5, c5, hbol, s6, c6, ⟨w1, h1, hw1, rfl⟩,
      rfl, rfl⟩, rfl, rfl⟩, s7, c7, hplus, rfl, rfl⟩, rfl, rfl⟩,
      s8, c8, ⟨w3, rfl, hw3, rfl⟩, s9, c9, ⟨k, rfl, rfl⟩, s10, c10, ⟨w4, rfl, hw4, rfl⟩,
      s11, c11, heol, rfl, rfl⟩
    cases hbol
    cases heol
    cases hplus with
    | seq _ _ _ s12 _ _ c12 _ ha hb =>
      obtain ⟨x, rfl, hx, rfl⟩ := (path_ws _ _ _ _ _).mp ha
      obtain ⟨w2, rfl, hw2, rfl⟩ := (path_star_ws _ _ _ _ _).mp hb
      refine ⟨k, ⟨w1, x :: w2, w3, w4, ?_, hw1, ?_, by simp, hw3, hw4⟩, by simp⟩
      · rw [h1]; simp
      · intro y hy
        rcases List.mem_cons.mp hy with h | h
        · rw [h]; exact hx
        · exact hw2 y h
  · rintro ⟨k, ⟨w1, w2, w3, w4, hline, hw1, hw2, hne, hw3, hw4⟩, rfl⟩
    obtain ⟨x, w2t, rfl⟩ := List.exists_cons_of_ne_nil hne
    refine ⟨w3 ++ (List.replicate k '{' ++ w4), [],
      ⟨nm ++ (w3 ++ (List.replicate k '{' ++ w4)), [],
        ⟨x :: w2t ++ (nm ++ (w3 ++ (List.replicate k '{' ++ w4))), [],
          ⟨"particle".toList ++ (x :: w2t ++ (nm ++ (w3 ++ (List.replicate k '{' ++ w4)))), [],
            ⟨line, [], Path.bol _ _ rfl, _, [], ⟨w1, ?_, hw1, rfl⟩, rfl, rfl⟩, rfl, rfl⟩,
          _, [], ?_, rfl, rfl⟩, rfl, rfl⟩,
      List.replicate k '{' ++ w4, [], ⟨w3, rfl, hw3, rfl⟩,
      w4, List.replicate k (1, ['{']), ⟨k, rfl, by simp⟩,
      [], _, ⟨w4, by simp, hw4, rfl⟩, [], _, Path.eol _, rfl, rfl⟩
    · rw [hline]; simp
    · refine Path.seq _ _ _ (w2t ++ (nm ++ (w3 ++ (List.replicate k '{' ++ w4)))) _ _ [] _ ?_ ?_
      · exact (path_ws _ _ _ _ _).mpr ⟨x, rfl, hw2 x (List.mem_cons_self _ _), rfl⟩
      · exact (path_star_ws _ _ _ _ _).mpr
          ⟨w2t, rfl, fun y hy => hw2 y (List.mem_cons_of_mem _ hy), rfl⟩

theorem brace_not_mem_of_spaces (w : Str) (hw : ∀ x ∈ w, isSpace x = true) : '{' ∉ w := by
  intro h
  have := hw '{' h
  revert this
  decide

theorem brace_not_mem_of_plain (nm : Str) (hp : isPlainName nm = true) : '{' ∉ nm := by
  intro h
  simp only [isPlainName, List.all_eq_true] at hp
  have := hp '{' h
  revert this
  decide

theorem headerLineWith_count (k : Nat) (nm line : Str) (h : HeaderLineWith k nm line)
    (hn : '{' ∉ nm) : line.count '{' = k := by
  obtain ⟨w1, w2, w3, w4, hline, hw1, hw2, _, hw3, hw4⟩ := h
  have e1 := List.count_eq_zero_of_not_mem (brace_not_mem_of_spaces w1 hw1)
  have e2 := List.count_eq_zero_of_not_mem (brace_not_mem_of_spaces w2 hw2)
  have e3 := List.count_eq_zero_of_not_mem (brace_not_mem_of_spaces w3 hw3)
  have e4 := List.count_eq_zero_of_not_mem (brace_not_mem_of_spaces w4 hw4)
  have e5 := List.count_eq_zero_of_not_mem hn
  have e6 : List.count '{' "particle".toList = 0 := by decide
  rw [hline]
  simp only [List.count_append, e1, e2, e3, e4, e5, e6, List.count_replicate_self]
  omega

theorem headerLineWith_mem (k : Nat) (nm line : Str) (h : HeaderLineWith k nm line) :
    ∀ x ∈ nm, x ∈ line := by
  obtain ⟨w1, w2, w3, w4, hline, _⟩ := h
  intro x hx
  rw [hline]
  simp [hx]

/-- A successful match of the modelled library on a concrete pattern and line. -/
theorem boostRegex_matches_of_eval (pattern line : Str)
    (h : (match boostRegex pattern with
          | some m => (m line).isSome
          | none => false) = true) :
    ∃ m, boostRegex pattern = some m ∧ (m line).isSome = true := by
  cases hm : boostRegex pattern with
  | none => rw [hm] at h; simp at h
  | some m => rw [hm] at h; exact ⟨m, rfl, h⟩

theorem eq_some_getD {α : Type} (o : Option α) (d : α) (h : o.isSome = true) :
    o = some (o.getD d) := by
  cases o with
  | none => simp at h
  | some x => rfl

/-- C5 (evaluation at the failing inputs): the name is put into the pattern without escaping and
the brace group of the pattern is starred.  For the name `a.b` the line `particle axb`, which
names another particle, is treated as the header; for the name `x` the line `particle x{{` with
two opening braces is treated as the header, the first sub-match being a single `{`.  Neither
line has the shape the claim describes. -/
theorem headerPattern_accepts_other_name_and_two_braces :
    (∃ m, boostRegex (headerPattern "a.b".toList) = some m
        ∧ (m "particle axb".toList).isSome = true
        ∧ ¬ SpecHeaderLine "a.b".toList "particle axb".toList)
      ∧ (∃ m, boostRegex (headerPattern "x".toList) = some m
        ∧ (m "particle x\x7b\x7b".toList).map (fun subs => subs 1) = some ['{']
        ∧ ¬ SpecHeaderLine "x".toList "particle x\x7b\x7b".toList) := by
  constructor
  · obtain ⟨m, h1, h2⟩ := boostRegex_matches_of_eval (headerPattern "a.b".toList)
      "particle axb".toList (by decide)
    refine ⟨m, h1, h2, ?_⟩
    rintro ⟨k, _, hk⟩
    have := headerLineWith_mem k _ _ hk '.' (by decide)
    revert this
    decide
  · refine ⟨(boostRegex (headerPattern "x".toList)).getD (fun _ => none),
      eq_some_getD _ _ (by decide), by decide, ?_⟩
    rintro ⟨k, hk1, hk⟩
    have := headerLineWith_count k _ _ hk (by decide)
    have e : List.count '{' "particle x\x7b\x7b".toList = 2 := by decide
    omega

/-- The header pattern for plain names: for a particle name without regular-expression
metacharacters, `stripParticleDefFromStream` (through its pattern and `boost::regex_match`) treats a line as the
header if and only if the line consists of optional whitespace, the keyword `particle`, at least
one whitespace character, the name, optional whitespace, any number of `{` and optional
whitespace; the first sub-match is empty exactly when the line has no `{`. -/
theorem headerPattern_plain_name_matches (nm line : Str) (hp : isPlainName nm = true) :
    ∃ matcher, boostRegex (headerPattern nm) = some matcher
      ∧ ((matcher line).isSome = true ↔ ∃ k, HeaderLineWith k nm line)
      ∧ ∀ subs, matcher line = some subs → ((subs 1).isEmpty = true ↔ '{' ∉ line) := by
  refine ⟨regexMatch (headerRegex nm), ?_, ?_, ?_⟩
  · unfold boostRegex
    rw [compileRegex_headerPattern nm hp]
  · rw [regexMatch_isSome_iff]
    constructor
    · rintro ⟨caps, hc⟩
      obtain ⟨k, hk, _⟩ := (path_headerRegex nm line caps).mp hc
      exact ⟨k, hk⟩
    · rintro ⟨k, hk⟩
      exact ⟨_, (path_headerRegex nm line _).mpr ⟨k, hk, rfl⟩⟩
  · intro subs hs
    obtain ⟨caps, hc, rfl⟩ := regexMatch_some _ _ _ hs
    obtain ⟨k, hk, rfl⟩ := (path_headerRegex nm line caps).mp hc
    have hcount := headerLineWith_count k nm line hk (brace_not_mem_of_plain nm hp)
    rw [← List.count_eq_zero, hcount]
    cases k with
    | zero => simp
    | succ j => simp [List.replicate_succ, List.lookup]

/-- Example: the name `smoke` and the line `particle smoke {`. -/
theorem headerPattern_plain_name_matches_witness :
    isPlainName "smoke".toList = true
      ∧ ∃ matcher, boostRegex (headerPattern "smoke".toList) = some matcher
        ∧ ((matcher "particle smoke \x7b".toList).isSome = true
            ↔ ∃ k, HeaderLineWith k "smoke".toList "particle smoke \x7b".toList)
        ∧ ∀ subs, matcher "particle smoke \x7b".toList = some subs →
            ((subs 1).isEmpty = true ↔ '{' ∉ "particle smoke \x7b".toList) :=
  ⟨by decide,
    headerPattern_plain_name_matches "smoke".toList "particle smoke \x7b".toList (by decide)⟩

/-! ## Theorems: `stripParticleDefFromStream` and `saveParticleDef` -/

theorem totalLength_cons (l : Str) (ls : List Str) :
    totalLength (l :: ls) = l.length + totalLength ls := by
  simp [totalLength]

theorem totalLength_linesOf (b : Str) : totalLength (linesOf b) ≤ b.length := by
  induction b with
  | nil => simp [linesOf, totalLength]
  | cons c cs ih =>
    rw [linesOf]
    split
    · rw [totalLength_cons]; simp only [List.length_nil, List.length_cons]; omega
    · split
      · rename_i heq
        simp [totalLength]
      · rename_i l ls heq
        rw [heq, totalLength_cons] at ih
        rw [totalLength_cons]
        simp only [List.length_cons]
        omega

theorem totalLength_append (xs ys : List Str) :
    totalLength (xs ++ ys) = totalLength xs + totalLength ys := by
  simp [totalLength]

theorem stripLines_before_header (matcher : Str → MatchResult) (pre : List Str) (hdr : Str)
    (tail : List Str) (subs : Nat → Str) (hpre : ∀ l ∈ pre, matcher l = none)
    (hhdr : matcher hdr = some subs) :
    stripLines matcher (pre ++ hdr :: tail)
      = (pre, if (subs 1).isEmpty then skipLines tail 0 false else skipLines tail 1 true) := by
  induction pre with
  | nil =>
    simp only [List.nil_append, stripLines, hhdr]
    split <;> rfl
  | cons l ls ih =>
    have hl := hpre l (List.mem_cons_self _ _)
    have ih2 := ih (fun x hx => hpre x (List.mem_cons_of_mem _ hx))
    show stripLines matcher (l :: (ls ++ hdr :: tail)) = _
    simp only [stripLines, hl]
    rw [ih2]

theorem opened_wf (bytes : Str) : (IStream.opened bytes).wf :=
  ⟨rfl, fun h => by simp [IStream.opened] at h⟩

theorem saveParticleDef_lines_of_matcher (engine : RegexEngine)
    (matcher : Str → MatchResult) (fileBytes particleName particleText : Str)
    (hc : engine (headerPattern particleName) = some matcher) :
    ∃ (inp : IStream) (out : Str) (dropped : List Str),
      stripParticleDefFromStream engine (IStream.opened fileBytes) [] particleName
          = some (inp, out)
        ∧ linesOf fileBytes = linesOf out ++ dropped ++ linesOf inp.buf
        ∧ out = joinLines (linesOf out)
        ∧ (∀ l ∈ linesOf out, matcher l = none)
        ∧ (∀ h : dropped ≠ [], (matcher (dropped.head h)).isSome = true)
        ∧ (dropped = [] → ∀ l ∈ linesOf fileBytes, matcher l = none)
        ∧ saveParticleDef engine fileBytes particleName particleText
            = some (out ++ (if inp.eof then ['\n', '\n'] ++ particleCommentHeader else [])
                ++ particleText ++ ['\n'] ++ inp.buf)
        ∧ ((∀ l ∈ linesOf fileBytes, matcher l = none) →
            linesOf out = linesOf fileBytes ∧ inp.buf = []
              ∧ saveParticleDef engine fileBytes particleName particleText
                = some (joinLines (linesOf fileBytes) ++ ['\n', '\n'] ++ particleCommentHeader
                    ++ particleText ++ ['\n'])) := by
  obtain ⟨h1, h2, h3⟩ := stripLoop_lines matcher (IStream.opened fileBytes) [] (opened_wf _)
  obtain ⟨dropped, d1, d2, d3, d4⟩ := stripLines_decompose matcher (linesOf fileBytes)
  have hbuf : (IStream.opened fileBytes).buf = fileBytes := rfl
  rw [hbuf] at h1 h2 h3
  simp only [List.nil_append] at h1
  have hnl : ∀ l ∈ (stripLines matcher (linesOf fileBytes)).1, '\n' ∉ l := by
    intro l hl
    apply linesOf_no_newline fileBytes
    rw [d1]
    simp [hl]
  have hout : linesOf (stripLoop matcher (IStream.opened fileBytes) []).2
      = (stripLines matcher (linesOf fileBytes)).1 := by
    rw [h1]; exact linesOf_joinLines _ hnl
  have hstrip : stripParticleDefFromStream engine (IStream.opened fileBytes) [] particleName
      = some (stripLoop matcher (IStream.opened fileBytes) []) := by
    unfold stripParticleDefFromStream
    rw [hc]
  have hsave : saveParticleDef engine fileBytes particleName particleText
      = some ((stripLoop matcher (IStream.opened fileBytes) []).2
          ++ (if (stripLoop matcher (IStream.opened fileBytes) []).1.eof
              then ['\n', '\n'] ++ particleCommentHeader else [])
          ++ particleText ++ ['\n'] ++ (stripLoop matcher (IStream.opened fileBytes) []).1.buf) := by
    unfold saveParticleDef
    rw [hstrip]
    simp only
    split <;> simp
  refine ⟨(stripLoop matcher (IStream.opened fileBytes) []).1,
    (stripLoop matcher (IStream.opened fileBytes) []).2, dropped, hstrip, ?_, ?_, ?_, d3,
    fun hd => (d4 hd).2, hsave, ?_⟩
  · rw [hout, h2]; exact d1
  · rw [hout]; exact h1
  · rw [hout]; exact d2
  · intro hall
    obtain ⟨e1, e2⟩ := h3 hall
    have hd : dropped = [] := by
      by_contra hne
      have hm := d3 hne
      have hmem : dropped.head hne ∈ linesOf fileBytes := by
        rw [d1]
        simp [List.head_mem hne]
      rw [hall _ hmem] at hm
      simp at hm
    have hkept : (stripLines matcher (linesOf fileBytes)).1 = linesOf fileBytes := by
      have := d1
      rw [hd, (d4 hd).1] at this
      simpa using this.symm
    refine ⟨by rw [hout, hkept], e2, ?_⟩
    rw [hsave, e1, e2, h1, hkept]
    simp

/-- Decomposition of the lines of a file by `saveParticleDef`, in terms of the lines the
library's matcher accepts, for every file and every particle name.  If constructing the regular expression throws,
nothing is written.  Otherwise the lines of the file are `kept ++ dropped ++ rest`, in this
order, where `kept` are the lines `stripParticleDefFromStream` wrote to the output (none of them
a header of the particle), `rest` are the lines left in the input, which `saveParticleDef`
copies after the new declaration, and `dropped` is empty only when no line is a header and
otherwise begins with the first header line.  When no line matches, all lines are kept and the
declaration follows them. -/
theorem saveParticleDef_preserves_other_lines (engine : RegexEngine)
    (fileBytes particleName particleText : Str) :
    match engine (headerPattern particleName) with
    | none => saveParticleDef engine fileBytes particleName particleText = none
    | some matcher =>
      ∃ (inp : IStream) (out : Str) (dropped : List Str),
        stripParticleDefFromStream engine (IStream.opened fileBytes) [] particleName
            = some (inp, out)
          ∧ linesOf fileBytes = linesOf out ++ dropped ++ linesOf inp.buf
          ∧ out = joinLines (linesOf out)
          ∧ (∀ l ∈ linesOf out, matcher l = none)
          ∧ (∀ h : dropped ≠ [], (matcher (dropped.head h)).isSome = true)
          ∧ (dropped = [] → ∀ l ∈ linesOf fileBytes, matcher l = none)
          ∧ saveParticleDef engine fileBytes particleName particleText
              = some (out ++ (if inp.eof then ['\n', '\n'] ++ particleCommentHeader else [])
                  ++ particleText ++ ['\n'] ++ inp.buf)
          ∧ ((∀ l ∈ linesOf fileBytes, matcher l = none) →
              linesOf out = linesOf fileBytes ∧ inp.buf = []
                ∧ saveParticleDef engine fileBytes particleName particleText
                  = some (joinLines (linesOf fileBytes) ++ ['\n', '\n'] ++ particleCommentHeader
                      ++ particleText ++ ['\n'])) := by
  cases hc : engine (headerPattern particleName) with
  | none =>
    simp only [saveParticleDef, stripParticleDefFromStream, hc]
  | some matcher =>
    exact saveParticleDef_lines_of_matcher engine matcher fileBytes particleName particleText hc

/-- The block skipped after the first matching line: when the first line the matcher accepts is
followed by a block that closes at line `k` after
it (the first line at whose end the block has opened and the running count of `{` minus `}` is
zero, the header counting one when its opening brace was matched), then
`stripParticleDefFromStream` writes exactly the lines before the header to the output, drops the
header and the lines up to and including line `k`, and leaves every later line in the input.
The file is assumed shorter than the range of `std::size_t`. -/
theorem stripParticleDefFromStream_drops_block (engine : RegexEngine)
    (matcher : Str → MatchResult) (fileBytes particleName : Str) (pre : List Str) (hdr : Str)
    (tail : List Str) (subs : Nat → Str) (k : Nat)
    (hc : engine (headerPattern particleName) = some matcher)
    (hsize : fileBytes.length + 1 < sizeMod)
    (hlines : linesOf fileBytes = pre ++ hdr :: tail)
    (hpre : ∀ l ∈ pre, matcher l = none)
    (hhdr : matcher hdr = some subs)
    (hclose : closesAt (!(subs 1).isEmpty) (if (subs 1).isEmpty then 0 else 1) tail = some k) :
    ∃ inp, stripParticleDefFromStream engine (IStream.opened fileBytes) [] particleName
          = some (inp, joinLines pre)
      ∧ linesOf inp.buf = tail.drop (k + 1) := by
  obtain ⟨h1, h2, _⟩ := stripLoop_lines matcher (IStream.opened fileBytes) [] (opened_wf _)
  have hbuf : (IStream.opened fileBytes).buf = fileBytes := rfl
  rw [hbuf, hlines, stripLines_before_header matcher pre hdr tail subs hpre hhdr] at h1 h2
  simp only [List.nil_append] at h1 h2
  have hstrip : stripParticleDefFromStream engine (IStream.opened fileBytes) [] particleName
      = some (stripLoop matcher (IStream.opened fileBytes) []) := by
    unfold stripParticleDefFromStream
    rw [hc]
  have hlen := totalLength_linesOf fileBytes
  rw [hlines, totalLength_append, totalLength_cons] at hlen
  unfold sizeMod at hsize
  refine ⟨(stripLoop matcher (IStream.opened fileBytes) []).1, ?_, ?_⟩
  · rw [hstrip, ← h1]
  · rw [h2]
    cases he : (subs 1).isEmpty with
    | true =>
      rw [he] at hclose
      simp only [if_true, Bool.not_true] at hclose ⊢
      rw [skipLines_closesAt tail 0 false 0 (by unfold sizeMod; omega) (by simp) (by omega)
        (by omega), hclose]
    | false =>
      rw [he] at hclose
      simp only [Bool.not_false, Bool.false_eq_true, if_false] at hclose ⊢
      rw [skipLines_closesAt tail 1 true 1 (by unfold sizeMod; omega) (by simp) (by omega)
        (by omega), hclose]

theorem boostRegex_headerPattern (nm : Str) (hp : isPlainName nm = true) :
    boostRegex (headerPattern nm) = some (regexMatch (headerRegex nm)) := by
  unfold boostRegex
  rw [compileRegex_headerPattern nm hp]

/-- Example: saving the particle `x` into the example file. -/
theorem saveParticleDef_preserves_other_lines_witness :
    boostRegex (headerPattern "x".toList) = some (regexMatch (headerRegex "x".toList))
      ∧ ∃ (inp : IStream) (out : Str) (dropped : List Str),
        stripParticleDefFromStream boostRegex (IStream.opened exampleParticleFile) [] "x".toList
            = some (inp, out)
          ∧ linesOf exampleParticleFile = linesOf out ++ dropped ++ linesOf inp.buf
          ∧ out = joinLines (linesOf out)
          ∧ (∀ l ∈ linesOf out, regexMatch (headerRegex "x".toList) l = none)
          ∧ (∀ h : dropped ≠ [],
              (regexMatch (headerRegex "x".toList) (dropped.head h)).isSome = true)
          ∧ (dropped = [] →
              ∀ l ∈ linesOf exampleParticleFile, regexMatch (headerRegex "x".toList) l = none)
          ∧ saveParticleDef boostRegex exampleParticleFile "x".toList "particle x".toList
              = some (out ++ (if inp.eof then ['\n', '\n'] ++ particleCommentHeader else [])
                  ++ "particle x".toList ++ ['\n'] ++ inp.buf)
          ∧ ((∀ l ∈ linesOf exampleParticleFile, regexMatch (headerRegex "x".toList) l = none) →
              linesOf out = linesOf exampleParticleFile ∧ inp.buf = []
                ∧ saveParticleDef boostRegex exampleParticleFile "x".toList "particle x".toList
                  = some (joinLines (linesOf exampleParticleFile) ++ ['\n', '\n']
                      ++ particleCommentHeader ++ "particle x".toList ++ ['\n'])) :=
  ⟨boostRegex_headerPattern "x".toList (by decide), by
    have h := saveParticleDef_preserves_other_lines boostRegex exampleParticleFile "x".toList
      "particle x".toList
    rw [boostRegex_headerPattern "x".toList (by decide)] at h
    exact h⟩

/-- Example: in the example file the block of `x` opens on the line after the header and
closes on the third line after it; the two lines of `a` are written, the two lines of `b` are
left in the input. -/
theorem stripParticleDefFromStream_drops_block_witness :
    closesAt false 0 ["\x7b".toList, "\x7b a \x7d".toList, "\x7d".toList,
        "particle b \x7b".toList, "\x7d".toList] = some 2
      ∧ ∃ inp, stripParticleDefFromStream boostRegex (IStream.opened exampleParticleFile) []
            "x".toList
          = some (inp, joinLines ["particle a \x7b".toList, "\x7d".toList])
        ∧ linesOf inp.buf
          = List.drop (2 + 1) ["\x7b".toList, "\x7b a \x7d".toList, "\x7d".toList,
              "particle b \x7b".toList, "\x7d".toList] :=
  ⟨by decide,
    stripParticleDefFromStream_drops_block boostRegex (regexMatch (headerRegex "x".toList))
      exampleParticleFile "x".toList ["particle a \x7b".toList, "\x7d".toList]
      "particle x".toList
      ["\x7b".toList, "\x7b a \x7d".toList, "\x7d".toList, "particle b \x7b".toList,
        "\x7d".toList]
      (fun i => if i = 0 then "particle x".toList else [])
      2
      (boostRegex_headerPattern "x".toList (by decide))
      (by decide)
      (by decide)
      (by
        intro l hl
        simp only [List.mem_cons, List.mem_singleton, List.not_mem_nil, or_false] at hl
        rcases hl with rfl | rfl <;> rfl)
      (by rfl)
      (by decide)⟩

/-! ## Theorems: material creation, copy, rename and save -/

theorem ensureNonConflictingName_a :
    (ensureNonConflictingName (libraryOf ["a".toList]) "a".toList).1 = "a01".toList := by
  unfold ensureNonConflictingName
  show ensureLoop _ _ 0 = _
  rw [ensureLoop_of_exists _ _ _ (by decide)]
  rw [ensureLoop_of_free _ _ _ (by decide)]
  decide

/-- C6 (evaluation at the failing input): with a definition `a` present,
`createEmptyMaterial("a")` asks the declaration manager to find or create the declaration `a`,
the name passed in, while the material it returns and the name it signals are the
non-conflicting `a01`; the declarations are the ones present before, the existing `a` was
found, none was created by that request. -/
theorem createEmptyMaterial_requests_given_name :
    (createEmptyMaterial (libraryOf ["a".toList]) "a".toList).2.log
        = [Event.findOrCreateDeclaration "a".toList, Event.materialCreated "a01".toList]
      ∧ (createEmptyMaterial (libraryOf ["a".toList]) "a".toList).1.name = "a01".toList
      ∧ (createEmptyMaterial (libraryOf ["a".toList]) "a".toList).1.modified = true
      ∧ (createEmptyMaterial (libraryOf ["a".toList]) "a".toList).2.decls
        = (libraryOf ["a".toList]).decls := by
  simp only [createEmptyMaterial, ensureNonConflictingName_a]
  decide

theorem find?_name_eq {α : Type} (l : List α) (f : α → Str) (name : Str) (x : α)
    (h : l.find? (fun d => f d == name) = some x) : f x = name := by
  have := List.find?_some h
  simpa using this

theorem findShader_name (s : ShaderSystem) (name : Str) : (s.findShader name).1.name = name := by
  unfold ShaderSystem.findShader
  split
  · rename_i m heq
    exact find?_name_eq s.shaders (fun m => m.name) name m heq
  · rfl

theorem findShader_decls (s : ShaderSystem) (name : Str) :
    (s.findShader name).2.decls = s.decls ∧ (s.findShader name).2.log = s.log := by
  unfold ShaderSystem.findShader
  split <;> exact ⟨rfl, rfl⟩

theorem findShader_mem (s : ShaderSystem) (name : Str) :
    ∃ m ∈ (s.findShader name).2.shaders, m.name = name := by
  unfold ShaderSystem.findShader
  split
  · rename_i m heq
    exact ⟨m, List.mem_of_find?_eq_some heq, find?_name_eq s.shaders (fun m => m.name) name m heq⟩
  · exact ⟨_, List.mem_append_right _ (List.mem_singleton_self _), rfl⟩

theorem findDeclaration_isSome (s : ShaderSystem) (name : Str)
    (h : s.definitionExists name = true) : ∃ d, s.findDeclaration name = some d ∧ d.name = name := by
  unfold ShaderSystem.definitionExists at h
  unfold ShaderSystem.findDeclaration
  cases hf : s.decls.find? (fun d => d.name == name) with
  | some d => exact ⟨d, rfl, find?_name_eq s.decls (fun d => d.name) name d hf⟩
  | none =>
    rw [List.find?_eq_none] at hf
    rw [List.any_eq_true] at h
    obtain ⟨x, hx, hx2⟩ := h
    exact absurd hx2 (hf x hx)

/-- C7: for an existing material `src` and a non-empty `newName`, `copyMaterial(src, newName)`
works under the non-conflicting name `c = ensureNonConflictingName(newName)`: `c` names no
existing definition, so none is overwritten; the definitions afterwards are the previous ones,
unchanged and in place (among them `src` and whatever is named `newName`), followed by the copy
named `c` with the contents of `src`; `copyDefinition(src, c)` and then the material-created
signal with `c` are the only log entries added; the returned material is named `c` and marked
modified, and the library holds a modified material named `c`. -/
theorem copyMaterial_copies_under_free_name (s : ShaderSystem) (src newName : Str)
    (hsrc : s.definitionExists src = true) (hne : newName ≠ []) :
    s.definitionExists (ensureNonConflictingName s newName).1 = false
      ∧ (∃ d, s.findDeclaration src = some d
          ∧ (copyMaterial s src newName).2.decls
            = s.decls ++ [{ name := (ensureNonConflictingName s newName).1,
                            fileInfo := { name := [], isPhysicalFile := false },
                            contents := d.contents }])
      ∧ (copyMaterial s src newName).2.log
          = s.log ++ [Event.copyDefinition src (ensureNonConflictingName s newName).1,
                      Event.materialCreated (ensureNonConflictingName s newName).1]
      ∧ (∃ m, (copyMaterial s src newName).1 = some m
          ∧ m.name = (ensureNonConflictingName s newName).1 ∧ m.modified = true)
      ∧ (∃ m ∈ (copyMaterial s src newName).2.shaders,
          m.name = (ensureNonConflictingName s newName).1 ∧ m.modified = true) := by
  have hfree := (ensure_result_free s newName)
  obtain ⟨d, hd, _⟩ := findDeclaration_isSome s src hsrc
  have hemp : newName.isEmpty = false := by
    cases newName with
    | nil => exact absurd rfl hne
    | cons _ _ => rfl
  simp only [copyMaterial, hemp, hsrc, Bool.false_eq_true, if_false, Bool.not_true]
  refine ⟨hfree, ⟨d, hd, ?_⟩, ?_, ⟨_, rfl, ?_, rfl⟩, ?_⟩
  · simp only [ShaderSystem.setIsModified]
    rw [(findShader_decls _ _).1]
    simp [ShaderSystem.emit, ShaderSystem.copyDefinition, hd]
  · simp only [ShaderSystem.setIsModified]
    rw [(findShader_decls _ _).2]
    simp [ShaderSystem.emit, ShaderSystem.copyDefinition]
  · exact findShader_name _ _
  · obtain ⟨m, hm, hn⟩ := findShader_mem
      ((s.copyDefinition src (ensureNonConflictingName s newName).1).emit
        (Event.materialCreated (ensureNonConflictingName s newName).1))
      (ensureNonConflictingName s newName).1
    refine ⟨{ m with modified := true }, ?_, hn, rfl⟩
    simp only [ShaderSystem.setIsModified, List.mem_map]
    exact ⟨m, hm, by simp [hn]⟩

/-- Witness for C7: copying `m2` to the taken name `m2_copy`. -/
theorem copyMaterial_copies_under_free_name_witness :
    (libraryOf ["m2".toList, "m2_copy".toList]).definitionExists
        (ensureNonConflictingName (libraryOf ["m2".toList, "m2_copy".toList])
          "m2_copy".toList).1 = false
      ∧ (∃ d, (libraryOf ["m2".toList, "m2_copy".toList]).findDeclaration "m2".toList = some d
          ∧ (copyMaterial (libraryOf ["m2".toList, "m2_copy".toList]) "m2".toList
              "m2_copy".toList).2.decls
            = (libraryOf ["m2".toList, "m2_copy".toList]).decls
              ++ [{ name := (ensureNonConflictingName (libraryOf ["m2".toList, "m2_copy".toList])
                      "m2_copy".toList).1,
                    fileInfo := { name := [], isPhysicalFile := false },
                    contents := d.contents }])
      ∧ (copyMaterial (libraryOf ["m2".toList, "m2_copy".toList]) "m2".toList
            "m2_copy".toList).2.log
          = (libraryOf ["m2".toList, "m2_copy".toList]).log
            ++ [Event.copyDefinition "m2".toList
                  (ensureNonConflictingName (libraryOf ["m2".toList, "m2_copy".toList])
                    "m2_copy".toList).1,
                Event.materialCreated
                  (ensureNonConflictingName (libraryOf ["m2".toList, "m2_copy".toList])
                    "m2_copy".toList).1]
      ∧ (∃ m, (copyMaterial (libraryOf ["m2".toList, "m2_copy".toList]) "m2".toList
            "m2_copy".toList).1 = some m
          ∧ m.name = (ensureNonConflictingName (libraryOf ["m2".toList, "m2_copy".toList])
              "m2_copy".toList).1
          ∧ m.modified = true)
      ∧ (∃ m ∈ (copyMaterial (libraryOf ["m2".toList, "m2_copy".toList]) "m2".toList
            "m2_copy".toList).2.shaders,
          m.name = (ensureNonConflictingName (libraryOf ["m2".toList, "m2_copy".toList])
              "m2_copy".toList).1
          ∧ m.modified = true) :=
  copyMaterial_copies_under_free_name (libraryOf ["m2".toList, "m2_copy".toList]) "m2".toList
    "m2_copy".toList (by decide) (by decide)

/-- C8: when `newName` names an existing material, in particular when `oldName` and `newName`
both do, `renameMaterial` returns false and leaves the whole state as it was: no signal is
emitted and every declaration and material stays under its name.  In general the call appends
the material-renamed signal `(oldName, newName)` to the log exactly when it returns true, and
nothing otherwise. -/
theorem renameMaterial_fails_on_existing_target (s : ShaderSystem) (oldName newName : Str)
    (hnew : s.definitionExists newName = true) :
    (renameMaterial s oldName newName).1 = false
      ∧ (renameMaterial s oldName newName).2 = s
      ∧ ∀ (t : ShaderSystem) (a b : Str),
          (renameMaterial t a b).2.log
            = t.log ++ (if (renameMaterial t a b).1 then [Event.materialRenamed a b] else []) := by
  refine ⟨?_, ?_, ?_⟩
  · simp [renameMaterial, ShaderSystem.renameDefinition, hnew]
  · simp [renameMaterial, ShaderSystem.renameDefinition, hnew]
  · intro t a b
    unfold renameMaterial ShaderSystem.renameDefinition
    by_cases h : (t.definitionExists b || !t.definitionExists a) = true
    · simp [h]
    · simp only [h, if_false]
      simp [ShaderSystem.emit]

/-- Witness for C8: renaming `a` to `b` with both present. -/
theorem renameMaterial_fails_on_existing_target_witness :
    (libraryOf ["a".toList, "b".toList]).definitionExists "a".toList = true
      ∧ (libraryOf ["a".toList, "b".toList]).definitionExists "b".toList = true
      ∧ (renameMaterial (libraryOf ["a".toList, "b".toList]) "a".toList "b".toList).1 = false
      ∧ (renameMaterial (libraryOf ["a".toList, "b".toList]) "a".toList "b".toList).2
          = libraryOf ["a".toList, "b".toList]
      ∧ ∀ (t : ShaderSystem) (a b : Str),
          (renameMaterial t a b).2.log
            = t.log ++ (if (renameMaterial t a b).1 then [Event.materialRenamed a b] else []) :=
  ⟨by decide, by decide,
    renameMaterial_fails_on_existing_target (libraryOf ["a".toList, "b".toList]) "a".toList
      "b".toList (by decide)⟩

/-- C9 (counterexample): the material `m` comes from a read-only source (file name
`materials/x.mtr`, not a physical file) but is not modified; `saveMaterial("m")` raises nothing
and returns normally. -/
theorem saveMaterial_unmodified_read_only_no_error :
    readOnlyUnmodifiedLibrary.findDeclaration "m".toList
        = some { name := "m".toList,
                 fileInfo := { name := "materials/x.mtr".toList, isPhysicalFile := false },
                 contents := [] }
      ∧ materialCanBeModified readOnlyUnmodifiedLibrary "m".toList = false
      ∧ (saveMaterial readOnlyUnmodifiedLibrary "m".toList).1 = none := by
  decide

/-- C9 (amended): for every material that is marked modified and whose declaration comes from a
read-only source (its source file name is non-empty and it is not a physical file),
`saveMaterial(name)` raises an error with exactly the text
"Cannot save this material, it's read-only." and neither commits the modifications nor calls
`saveDeclaration`: declarations and log are as before the call. -/
theorem saveMaterial_modified_read_only_raises (s : ShaderSystem) (name : Str) (d : Declaration)
    (hd : s.findDeclaration name = some d) (hfile : d.fileInfo.name ≠ [])
    (hphys : d.fileInfo.isPhysicalFile = false)
    (hmod : (s.findShader name).1.modified = true) :
    (saveMaterial s name).1 = some "Cannot save this material, it's read-only.".toList
      ∧ (saveMaterial s name).2.decls = s.decls
      ∧ (saveMaterial s name).2.log = s.log
      ∧ (saveMaterial s name).2 = (s.findShader name).2 := by
  have hname := findShader_name s name
  have hdecl := (findShader_decls s name).1
  have hlog := (findShader_decls s name).2
  have hfd : (s.findShader name).2.findDeclaration name = some d := by
    unfold ShaderSystem.findDeclaration at hd ⊢
    rw [hdecl]; exact hd
  have hemp : d.fileInfo.name.isEmpty = false := by
    cases h : d.fileInfo.name with
    | nil => exact absurd h hfile
    | cons _ _ => rfl
  have hcan : materialCanBeModified (s.findShader name).2 name = false := by
    unfold materialCanBeModified
    split
    · rfl
    · rw [hfd]
      simp [hemp, hphys]
  simp only [saveMaterial, hmod, hname, hcan, Bool.not_true, Bool.false_eq_true, if_false,
    Bool.not_false, if_true]
  exact ⟨rfl, hdecl, hlog, trivial⟩

/-- Witness for C9 (amended): the modified read-only material `m`. -/
theorem saveMaterial_modified_read_only_raises_witness :
    (saveMaterial readOnlyModifiedLibrary "m".toList).1
        = some "Cannot save this material, it's read-only.".toList
      ∧ (saveMaterial readOnlyModifiedLibrary "m".toList).2.decls = readOnlyModifiedLibrary.decls
      ∧ (saveMaterial readOnlyModifiedLibrary "m".toList).2.log = readOnlyModifiedLibrary.log
      ∧ (saveMaterial readOnlyModifiedLibrary "m".toList).2
          = (readOnlyModifiedLibrary.findShader "m".toList).2 :=
  saveMaterial_modified_read_only_raises readOnlyModifiedLibrary "m".toList
    { name := "m".toList,
      fileInfo := { name := "materials/x.mtr".toList, isPhysicalFile := false },
      contents := [] }
    (by decide) (by decide) (by decide) (by decide)

/-! ## Theorems: worldspawn -/

theorem collectAll_foldl (cs : List Node) : ∀ acc : List Node,
    cs.foldl CollectAllWalker.pre acc = acc ++ cs := by
  induction cs with
  | nil => intro acc; simp
  | cons c cs ih => intro acc; simp [List.foldl_cons, CollectAllWalker.pre, ih]

theorem removeAll_foldl (cs : List Node) : cs.foldl removeChildNode cs = [] := by
  induction cs with
  | nil => rfl
  | cons c cs ih => simpa [List.foldl_cons, removeChildNode] using ih

theorem addAll_foldl (nodes : List Node) : ∀ init : List Node,
    nodes.foldl addChildNode init = init ++ nodes := by
  induction nodes with
  | nil => intro init; simp
  | cons c cs ih => intro init; simp [List.foldl_cons, addChildNode, ih]

/-- `Node_insertChildFirst` puts the child in front of the previous children. -/
theorem insertChildFirst_eq (cs : List Node) (w : Node) : Node_insertChildFirst cs w = w :: cs := by
  unfold Node_insertChildFirst traverseChildren
  simp only [collectAll_foldl, List.nil_append, removeAll_foldl, addAll_foldl, addChildNode]
  rfl

theorem finder_foldl_some (cs : List Node) (w : Node) :
    cs.foldl MapWorldspawnFinder.pre (some w) = some w := by
  induction cs with
  | nil => rfl
  | cons c cs ih =>
    simp only [List.foldl_cons, MapWorldspawnFinder.pre]
    split <;> simpa using ih

theorem finder_foldl_none (cs : List Node) :
    cs.foldl MapWorldspawnFinder.pre none = cs.find? (fun n => n.isWorldspawn) := by
  induction cs with
  | nil => rfl
  | cons c cs ih =>
    simp only [List.foldl_cons, MapWorldspawnFinder.pre, List.find?_cons]
    cases hc : c.isWorldspawn with
    | true => simp [finder_foldl_some]
    | false => simpa using ih

/-- C10 (counterexample): the root has the children `light` (id 1) and a worldspawn (id 2), in
this order; `findOrInsertWorldspawn` returns the existing worldspawn and leaves the children as
they are, so the worldspawn is the second child, not the first. -/
theorem findOrInsertWorldspawn_existing_not_first :
    (findOrInsertWorldspawn
        { children := [{ id := 1, isWorldspawn := false }, { id := 2, isWorldspawn := true }],
          worldNode := none, nextId := 3 }).1 = some { id := 2, isWorldspawn := true }
      ∧ (findOrInsertWorldspawn
        { children := [{ id := 1, isWorldspawn := false }, { id := 2, isWorldspawn := true }],
          worldNode := none, nextId := 3 }).2.children
          = [{ id := 1, isWorldspawn := false }, { id := 2, isWorldspawn := true }]
      ∧ (findOrInsertWorldspawn
        { children := [{ id := 1, isWorldspawn := false }, { id := 2, isWorldspawn := true }],
          worldNode := none, nextId := 3 }).2.children.head?
          ≠ (findOrInsertWorldspawn
        { children := [{ id := 1, isWorldspawn := false }, { id := 2, isWorldspawn := true }],
          worldNode := none, nextId := 3 }).1 := by
  decide

/-- C10 (amended): for every scene root, with any number and order of children, after
`findOrInsertWorldspawn` a worldspawn entity exists under the root, is the node returned and is
the map's worldspawn.  When the root already had a worldspawn child, the first such child is
returned and the children are unchanged; when it had none, the returned node is a new worldspawn
and it is the first child of the root, followed by the previous children in their order. -/
theorem findOrInsertWorldspawn_finds_or_inserts_first (m : MapState) :
    (∃ w, (findOrInsertWorldspawn m).1 = some w ∧ w.isWorldspawn = true
        ∧ w ∈ (findOrInsertWorldspawn m).2.children
        ∧ (findOrInsertWorldspawn m).2.worldNode = some w)
      ∧ (match m.children.find? (fun n => n.isWorldspawn) with
         | some w =>
           (findOrInsertWorldspawn m).1 = some w
             ∧ (findOrInsertWorldspawn m).2.children = m.children
         | none =>
           (findOrInsertWorldspawn m).1 = some { id := m.nextId, isWorldspawn := true }
             ∧ (findOrInsertWorldspawn m).2.children
               = { id := m.nextId, isWorldspawn := true } :: m.children) := by
  cases hf : m.children.find? (fun n => n.isWorldspawn) with
  | some w =>
    have hfw : findWorldspawn m = (some w, { m with worldNode := some w }) := by
      simp only [findWorldspawn, traverseChildren, finder_foldl_none, hf]
    have hres : findOrInsertWorldspawn m = (some w, { m with worldNode := some w }) := by
      simp only [findOrInsertWorldspawn, updateWorldspawn, hfw]
    rw [hres]
    refine ⟨⟨w, rfl, ?_, List.mem_of_find?_eq_some hf, rfl⟩, rfl, rfl⟩
    simpa using List.find?_some hf
  | none =>
    have hfw : findWorldspawn m = (none, { m with worldNode := none }) := by
      simp only [findWorldspawn, traverseChildren, finder_foldl_none, hf]
    have hres : findOrInsertWorldspawn m
        = (some { id := m.nextId, isWorldspawn := true },
           { children := { id := m.nextId, isWorldspawn := true } :: m.children,
             worldNode := some { id := m.nextId, isWorldspawn := true },
             nextId := m.nextId + 1 }) := by
      simp only [findOrInsertWorldspawn, updateWorldspawn, hfw, createWorldspawn,
        createWorldspawnEntity, insertChildFirst_eq]
    rw [hres]
    exact ⟨⟨_, rfl, rfl, List.mem_cons_self _ _, rfl⟩, rfl, rfl⟩

/-! ## Theorems: inserting a first child, loading a map, the import filter -/

/-- C11: for every parent with child list `[c1, ..., cn]` and every node `w` that is not yet a
child, after `Node_insertChildFirst(parent, w)` the child list is exactly `[w, c1, ..., cn]`:
`w` is at index 0, the previous children follow in their order, none is lost (every previous
child occurs as often as before) and `w` occurs once. -/
theorem Node_insertChildFirst_puts_child_first (children : List Node) (w : Node)
    (hw : w ∉ children) :
    Node_insertChildFirst children w = w :: children
      ∧ (Node_insertChildFirst children w).head? = some w
      ∧ (Node_insertChildFirst children w).tail = children
      ∧ (Node_insertChildFirst children w).count w = 1
      ∧ ∀ c ∈ children, (Node_insertChildFirst children w).count c = children.count c := by
  rw [insertChildFirst_eq]
  refine ⟨rfl, rfl, rfl, ?_, ?_⟩
  · simp [List.count_cons, List.count_eq_zero_of_not_mem hw]
  · intro c hc
    have hne : w ≠ c := fun h => hw (h ▸ hc)
    simp [List.count_cons, hne]

/-- Witness for C11: inserting the worldspawn `9` before the children `1`, `2`, `3`. -/
theorem Node_insertChildFirst_puts_child_first_witness :
    Node_insertChildFirst
        [{ id := 1, isWorldspawn := false }, { id := 2, isWorldspawn := false },
         { id := 3, isWorldspawn := false }] { id := 9, isWorldspawn := true }
        = { id := 9, isWorldspawn := true }
          :: [{ id := 1, isWorldspawn := false }, { id := 2, isWorldspawn := false },
              { id := 3, isWorldspawn := false }]
      ∧ (Node_insertChildFirst
        [{ id := 1, isWorldspawn := false }, { id := 2, isWorldspawn := false },
         { id := 3, isWorldspawn := false }] { id := 9, isWorldspawn := true }).head?
        = some { id := 9, isWorldspawn := true }
      ∧ (Node_insertChildFirst
        [{ id := 1, isWorldspawn := false }, { id := 2, isWorldspawn := false },
         { id := 3, isWorldspawn := false }] { id := 9, isWorldspawn := true }).tail
        = [{ id := 1, isWorldspawn := false }, { id := 2, isWorldspawn := false },
           { id := 3, isWorldspawn := false }]
      ∧ (Node_insertChildFirst
        [{ id := 1, isWorldspawn := false }, { id := 2, isWorldspawn := false },
         { id := 3, isWorldspawn := false }] { id := 9, isWorldspawn := true }).count
          { id := 9, isWorldspawn := true } = 1
      ∧ ∀ c ∈ [({ id := 1, isWorldspawn := false } : Node), { id := 2, isWorldspawn := false },
               { id := 3, isWorldspawn := false }],
          (Node_insertChildFirst
            [{ id := 1, isWorldspawn := false }, { id := 2, isWorldspawn := false },
             { id := 3, isWorldspawn := false }] { id := 9, isWorldspawn := true }).count c
            = List.count c [{ id := 1, isWorldspawn := false }, { id := 2, isWorldspawn := false },
                { id := 3, isWorldspawn := false }] :=
  Node_insertChildFirst_puts_child_first
    [{ id := 1, isWorldspawn := false }, { id := 2, isWorldspawn := false },
     { id := 3, isWorldspawn := false }] { id := 9, isWorldspawn := true } (by decide)

/-- C12: if the resource manager returned a resource for the map and either the map is unnamed
or the resource's `load()` fails, then after `Map::loadMapResourceFromPath` the resource's root
is a newly created root node (its identity was not in use before) without children, the map
name is the unnamed-map name, `isUnnamed()` is true, and that root is installed as the scene
graph root. -/
theorem loadMapResourceFromPath_failure_resets (env : MapEnv) (m : MapModel) (path : Str)
    (r : MapResource) (hr : env.loadFromPath m.mapName = some r)
    (hfail : Map.isUnnamed env m = true ∨ (env.load r).1 = false) :
    ∃ r2, (Map.loadMapResourceFromPath env m path).resource = some r2
      ∧ r2.node.id = m.nextId
      ∧ m.nextId < (Map.loadMapResourceFromPath env m path).nextId
      ∧ r2.node.children = []
      ∧ (Map.loadMapResourceFromPath env m path).mapName = env.translate MAP_UNNAMED_STRING
      ∧ Map.isUnnamed env (Map.loadMapResourceFromPath env m path) = true
      ∧ (Map.loadMapResourceFromPath env m path).sceneRoot = some r2.node := by
  have hun : Map.isUnnamed env
      { m with resource := some r, events := m.events ++ [MapEvent.mapLoading] }
      = Map.isUnnamed env m := rfl
  have hload : (if Map.isUnnamed env m = true then (false, r) else env.load r).1 = false := by
    rcases hfail with h | h
    · simp [h]
    · split
      · rfl
      · exact h
  simp only [Map.loadMapResourceFromPath, hr, hun, hload, Bool.false_eq_true, if_false]
  refine ⟨_, rfl, rfl, ?_, rfl, rfl, ?_, rfl⟩
  · simp [Map.setValid, Map.setMapName, Map.updateTitle]
  · simp [Map.isUnnamed, Map.setValid, Map.setMapName, Map.updateTitle]

/-- Witness for C12: loading `maps/broken.map` when `load()` fails. -/
theorem loadMapResourceFromPath_failure_resets_witness :
    ∃ r2, (Map.loadMapResourceFromPath failingLoadEnv brokenMapModel
          "maps/broken.map".toList).resource = some r2
      ∧ r2.node.id = brokenMapModel.nextId
      ∧ brokenMapModel.nextId
          < (Map.loadMapResourceFromPath failingLoadEnv brokenMapModel
              "maps/broken.map".toList).nextId
      ∧ r2.node.children = []
      ∧ (Map.loadMapResourceFromPath failingLoadEnv brokenMapModel
          "maps/broken.map".toList).mapName = failingLoadEnv.translate MAP_UNNAMED_STRING
      ∧ Map.isUnnamed failingLoadEnv (Map.loadMapResourceFromPath failingLoadEnv brokenMapModel
          "maps/broken.map".toList) = true
      ∧ (Map.loadMapResourceFromPath failingLoadEnv brokenMapModel
          "maps/broken.map".toList).sceneRoot = some r2.node :=
  loadMapResourceFromPath_failure_resets failingLoadEnv brokenMapModel "maps/broken.map".toList
    { path := "maps/broken.map".toList,
      node := { id := 0, name := "maps/broken.map".toList,
                children := [{ id := 1, isWorldspawn := true }], changesSaved := false } }
    rfl (Or.inr rfl)

/-- C18: for the import filter of `Map::importSelected`, `addPrimitiveToEntity(primitive,
entity)` returns `true` exactly when the entity is a container; then the primitive has been
appended as the last child of the entity, and for a non-container entity the children are
unchanged.  The entity's container property is not changed. -/
theorem addPrimitiveToEntity_container_only (primitive : Node) (entity : EntityNode) :
    (MapImportFilter.addPrimitiveToEntity primitive entity).1 = entity.isContainer
      ∧ (MapImportFilter.addPrimitiveToEntity primitive entity).2.children
          = (if entity.isContainer then entity.children ++ [primitive] else entity.children)
      ∧ (MapImportFilter.addPrimitiveToEntity primitive entity).2.isContainer
          = entity.isContainer := by
  unfold MapImportFilter.addPrimitiveToEntity
  cases h : entity.isContainer <;> simp [addChildNode, h]

/-! ## Theorems: selection groups -/

theorem findGroup_isSome_iff (s : GroupManager) (i : Nat) :
    (s.findGroup i).isSome = true ↔ i ∈ s.groups.map (fun g => g.id) := by
  unfold GroupManager.findGroup
  rw [List.find?_isSome]
  simp only [List.mem_map, beq_iff_eq]

theorem findGroup_isNone_iff (s : GroupManager) (i : Nat) :
    (s.findGroup i).isNone = true ↔ ∀ g ∈ s.groups, g.id ≠ i := by
  unfold GroupManager.findGroup
  rw [Option.isNone_iff_eq_none, List.find?_eq_none]
  simp

/-- Among the ids `0, ..., n`, with `n` the number of groups, one is free. -/
theorem exists_free_id (s : GroupManager) :
    ∃ f, f ≤ s.groups.length ∧ (s.findGroup f).isNone = true := by
  by_contra hcon
  have hall : ∀ f, f ≤ s.groups.length → f ∈ s.groups.map (fun g => g.id) := by
    intro f hf
    rw [← findGroup_isSome_iff]
    by_contra hn
    apply hcon
    refine ⟨f, hf, ?_⟩
    cases h : s.findGroup f with
    | none => rfl
    | some g => rw [h] at hn; simp at hn
  have hsub : List.range (s.groups.length + 1) ⊆ s.groups.map (fun g => g.id) := by
    intro x hx
    rw [List.mem_range] at hx
    exact hall x (by omega)
  have hlen := (List.subperm_of_subset (List.nodup_range _) hsub).length_le
  simp at hlen

theorem generateGroupIdFrom_spec (s : GroupManager) (remaining : Nat) :
    ∀ (i f : Nat), (s.findGroup f).isNone = true → i ≤ f → f < i + remaining →
      ∃ m, generateGroupIdFrom s remaining i = some m ∧ (s.findGroup m).isNone = true
        ∧ i ≤ m ∧ m ≤ f ∧ ∀ j, i ≤ j → j < m → (s.findGroup j).isSome = true := by
  induction remaining with
  | zero => intro i f _ h1 h2; omega
  | succ k ih =>
    intro i f hf h1 h2
    simp only [generateGroupIdFrom]
    by_cases hi : (s.findGroup i).isNone = true
    · simp only [hi, if_true]
      exact ⟨i, rfl, hi, le_refl _, h1, fun j hj1 hj2 => by omega⟩
    · simp only [hi, if_false]
      have hne : i ≠ f := by
        intro h; subst h; exact hi hf
      obtain ⟨m, hm1, hm2, hm3, hm4, hm5⟩ := ih (i + 1) f hf (by omega) (by omega)
      refine ⟨m, hm1, hm2, by omega, hm4, ?_⟩
      intro j hj1 hj2
      by_cases hji : j = i
      · subst hji
        cases h : s.findGroup j with
        | none => rw [h] at hi; simp at hi
        | some g => rfl
      · exact hm5 j (by omega) hj2

/-- What `createSelectionGroup` returns when fewer groups are registered than there are ids. -/
theorem createSelectionGroup_spec (s : GroupManager) (hsize : s.groups.length < sizeMax) :
    ∃ g s2, createSelectionGroup s = some (g, s2)
      ∧ (s.findGroup g.id).isNone = true
      ∧ (∀ j, j < g.id → (s.findGroup j).isSome = true)
      ∧ g.nodes = []
      ∧ s2.groups = s.groups ++ [g]
      ∧ s2.nodes = s.nodes ∧ s2.mode = s.mode := by
  obtain ⟨f, hf1, hf2⟩ := exists_free_id s
  obtain ⟨m, hm1, hm2, _, _, hm5⟩ := generateGroupIdFrom_spec s sizeMax 0 f hf2 (Nat.zero_le _)
    (by omega)
  have hgen : generateGroupId s = some m := hm1
  have hfilter : s.groups.filter (fun g => g.id != m) = s.groups := by
    rw [List.filter_eq_self]
    intro g hg
    have := (findGroup_isNone_iff s m).mp hm2 g hg
    simpa using this
  refine ⟨{ id := m, nodes := [] },
    { s with groups := s.groups.filter (fun g => g.id != m) ++ [{ id := m, nodes := [] }] },
    ?_, hm2, fun j hj => hm5 j (Nat.zero_le _) hj, rfl, ?_, rfl, rfl⟩
  · simp only [createSelectionGroup, hgen]
  · simp only [hfilter]

theorem deleteSelectionGroup_groups (s : GroupManager) (id : Nat) :
    (deleteSelectionGroup s id).groups = s.groups.filter (fun x => x.id != id) := by
  unfold deleteSelectionGroup
  cases h : s.findGroup id with
  | none =>
    simp only
    symm
    rw [List.filter_eq_self]
    intro g hg
    have := (findGroup_isNone_iff s id).mp (by rw [h]; rfl) g hg
    simpa using this
  | some g => rfl

/-- C13: for every set of registered selection groups (fewer than there are `std::size_t`
values), `createSelectionGroup()` returns a group whose id is the smallest non-negative integer
not used by a registered group, registers it under that id and leaves the previously registered
groups and the nodes unchanged; after `deleteSelectionGroup(d)` of a registered id `d` the next
group created has an id of at most `d`, so a freed id is reused before any larger one. -/
theorem createSelectionGroup_smallest_free_id (s : GroupManager)
    (hsize : s.groups.length < sizeMax) :
    (∃ g s2, createSelectionGroup s = some (g, s2)
      ∧ (s.findGroup g.id).isNone = true
      ∧ (∀ j, j < g.id → (s.findGroup j).isSome = true)
      ∧ g.nodes = []
      ∧ s2.groups = s.groups ++ [g]
      ∧ s2.findGroup g.id = some g
      ∧ s2.nodes = s.nodes)
    ∧ ∀ d, (s.findGroup d).isSome = true →
        ∃ g2 s3, createSelectionGroup (deleteSelectionGroup s d) = some (g2, s3)
          ∧ g2.id ≤ d := by
  constructor
  · obtain ⟨g, s2, h1, h2, h3, h4, h5, h6, _⟩ := createSelectionGroup_spec s hsize
    refine ⟨g, s2, h1, h2, h3, h4, h5, ?_, h6⟩
    unfold GroupManager.findGroup
    rw [h5, List.find?_append]
    have hnone : List.find? (fun x => x.id == g.id) s.groups = none := by
      have := h2
      unfold GroupManager.findGroup at this
      simpa [Option.isNone_iff_eq_none] using this
    rw [hnone]
    simp
  · intro d _
    have hlen : (deleteSelectionGroup s d).groups.length < sizeMax := by
      rw [deleteSelectionGroup_groups]
      exact lt_of_le_of_lt (List.length_filter_le _ _) hsize
    obtain ⟨g2, s3, h1, _, h3, _⟩ := createSelectionGroup_spec (deleteSelectionGroup s d) hlen
    refine ⟨g2, s3, h1, ?_⟩
    by_contra hgt
    have hused := h3 d (by omega)
    rw [findGroup_isSome_iff, deleteSelectionGroup_groups] at hused
    simp only [List.mem_map, List.mem_filter, bne_iff_ne, ne_eq] at hused
    obtain ⟨a, ⟨_, ha1⟩, ha2⟩ := hused
    exact ha1 ha2

/-- Witness for C13: with the ids 0 and 2 registered, the next group gets id 1. -/
theorem createSelectionGroup_smallest_free_id_witness :
    (∃ g s2, createSelectionGroup
          { groups := [{ id := 0, nodes := [] }, { id := 2, nodes := [] }], nodes := [],
            mode := SelectionMode.ePrimitive } = some (g, s2)
      ∧ (GroupManager.findGroup
          { groups := [{ id := 0, nodes := [] }, { id := 2, nodes := [] }], nodes := [],
            mode := SelectionMode.ePrimitive } g.id).isNone = true
      ∧ (∀ j, j < g.id → (GroupManager.findGroup
          { groups := [{ id := 0, nodes := [] }, { id := 2, nodes := [] }], nodes := [],
            mode := SelectionMode.ePrimitive } j).isSome = true)
      ∧ g.nodes = []
      ∧ s2.groups = [{ id := 0, nodes := [] }, { id := 2, nodes := [] }] ++ [g]
      ∧ s2.findGroup g.id = some g
      ∧ s2.nodes = [])
    ∧ ∀ d, (GroupManager.findGroup
          { groups := [{ id := 0, nodes := [] }, { id := 2, nodes := [] }], nodes := [],
            mode := SelectionMode.ePrimitive } d).isSome = true →
        ∃ g2 s3, createSelectionGroup (deleteSelectionGroup
          { groups := [{ id := 0, nodes := [] }, { id := 2, nodes := [] }], nodes := [],
            mode := SelectionMode.ePrimitive } d) = some (g2, s3)
          ∧ g2.id ≤ d :=
  createSelectionGroup_smallest_free_id
    { groups := [{ id := 0, nodes := [] }, { id := 2, nodes := [] }], nodes := [],
      mode := SelectionMode.ePrimitive } (by decide)

theorem with_groupIds_self (n : GroupNode) : { n with groupIds := n.groupIds } = n := by
  cases n; rfl

/-- C14: in a state where the groups have distinct ids and a node records a group id only when
it is a member of the registered group with that id (as it is when it records the id exactly
when it is a member), after `deleteSelectionGroup(id)` no node records `id`, the manager has no
group with that id, every other group is registered as before with the same members, and every
node records exactly its other group ids, in the same order; when `id` is not registered the
call changes nothing. -/
theorem deleteSelectionGroup_removes_membership (s : GroupManager) (id : Nat)
    (hkeys : (s.groups.map (fun g => g.id)).Nodup)
    (hcons : ∀ n ∈ s.nodes, ∀ gid ∈ n.groupIds, ∃ g ∈ s.groups, g.id = gid ∧ n.id ∈ g.nodes) :
    (∀ n ∈ (deleteSelectionGroup s id).nodes, id ∉ n.groupIds)
      ∧ (deleteSelectionGroup s id).findGroup id = none
      ∧ (deleteSelectionGroup s id).groups = s.groups.filter (fun g => g.id != id)
      ∧ (deleteSelectionGroup s id).nodes
          = s.nodes.map (fun n => { n with groupIds := n.groupIds.filter (fun x => x != id) })
      ∧ (deleteSelectionGroup s id).mode = s.mode
      ∧ (s.findGroup id = none → deleteSelectionGroup s id = s) := by
  have hnodes : (deleteSelectionGroup s id).nodes
      = s.nodes.map (fun n => { n with groupIds := n.groupIds.filter (fun x => x != id) }) := by
    unfold deleteSelectionGroup
    cases hf : s.findGroup id with
    | none =>
      simp only
      have hnone := (findGroup_isNone_iff s id).mp (by rw [hf]; rfl)
      symm
      conv => rhs; rw [← List.map_id s.nodes]
      apply List.map_congr_left
      intro n hn
      have hnot : id ∉ n.groupIds := by
        intro hmem
        obtain ⟨g, hg, hgid, _⟩ := hcons n hn id hmem
        exact hnone g hg hgid
      have hfil : n.groupIds.filter (fun x => x != id) = n.groupIds := by
        rw [List.filter_eq_self]
        intro x hx
        have : x ≠ id := fun h => hnot (h ▸ hx)
        simpa using this
      rw [hfil]
      exact with_groupIds_self n
    | some gf =>
      simp only [SelectionGroup.removeAllNodes]
      have hgf_mem : gf ∈ s.groups := List.mem_of_find?_eq_some hf
      have hgf_id : gf.id = id := by
        have := List.find?_some hf
        simpa using this
      apply List.map_congr_left
      intro n hn
      rw [hgf_id]
      by_cases hc : gf.nodes.contains n.id = true
      · simp only [hc, if_true]
      · simp only [hc, if_false]
        have hnot : id ∉ n.groupIds := by
          intro hmem
          obtain ⟨g, hg, hgid, hmemb⟩ := hcons n hn id hmem
          have : g = gf := List.inj_on_of_nodup_map hkeys hg hgf_mem (by rw [hgid, hgf_id])
          rw [this] at hmemb
          exact hc (by simpa using hmemb)
        have hfil : n.groupIds.filter (fun x => x != id) = n.groupIds := by
          rw [List.filter_eq_self]
          intro x hx
          have : x ≠ id := fun h => hnot (h ▸ hx)
          simpa using this
        rw [hfil]
        exact (with_groupIds_self n).symm
  have hgroups := deleteSelectionGroup_groups s id
  refine ⟨?_, ?_, hgroups, hnodes, ?_, ?_⟩
  · intro n hn
    rw [hnodes, List.mem_map] at hn
    obtain ⟨n0, _, rfl⟩ := hn
    simp
  · have : ((deleteSelectionGroup s id).findGroup id).isNone = true := by
      rw [findGroup_isNone_iff, hgroups]
      intro g hg
      simpa using (List.mem_filter.mp hg).2
    simpa [Option.isNone_iff_eq_none] using this
  · unfold deleteSelectionGroup
    cases s.findGroup id <;> rfl
  · intro hf
    unfold deleteSelectionGroup
    rw [hf]

/-- Witness for C14: deleting group 0 of two groups. -/
theorem deleteSelectionGroup_removes_membership_witness :
    (∀ n ∈ (deleteSelectionGroup twoGroupsExample 0).nodes, 0 ∉ n.groupIds)
      ∧ (deleteSelectionGroup twoGroupsExample 0).findGroup 0 = none
      ∧ (deleteSelectionGroup twoGroupsExample 0).groups
          = twoGroupsExample.groups.filter (fun g => g.id != 0)
      ∧ (deleteSelectionGroup twoGroupsExample 0).nodes
          = twoGroupsExample.nodes.map
              (fun n => { n with groupIds := n.groupIds.filter (fun x => x != 0) })
      ∧ (deleteSelectionGroup twoGroupsExample 0).mode = twoGroupsExample.mode
      ∧ (twoGroupsExample.findGroup 0 = none
          → deleteSelectionGroup twoGroupsExample 0 = twoGroupsExample) :=
  deleteSelectionGroup_removes_membership twoGroupsExample 0 (by decide) (by decide)

theorem setInsert_mem (set : List Nat) (x g : Nat) : g ∈ setInsert set x ↔ g ∈ set ∨ g = x := by
  unfold setInsert
  by_cases h : set.contains x = true
  · simp only [h, if_true]
    constructor
    · exact Or.inl
    · rintro (h1 | h1)
      · exact h1
      · subst h1; simpa using h
  · have h2 : set.contains x = false := by simpa using h
    rw [h2]
    simp

theorem setInsert_nodup (set : List Nat) (x : Nat) (h : set.Nodup) : (setInsert set x).Nodup := by
  unfold setInsert
  by_cases hc : set.contains x = true
  · simp only [hc, if_true]; exact h
  · have h2 : set.contains x = false := by simpa using hc
    rw [h2]
    simp only [Bool.false_eq_true, if_false]
    rw [List.nodup_append]
    refine ⟨h, List.nodup_singleton _, ?_⟩
    intro a ha
    simp only [List.mem_singleton]
    intro hb
    subst hb
    exact hc (by simpa using ha)

theorem collectGroupIds_foldl (nodes : List GroupNode) : ∀ acc : List Nat × Bool,
    ((nodes.foldl collectGroupIds acc).2 = true
        ↔ acc.2 = true ∨ ∃ n ∈ nodes, n.groupSelectable = true ∧ n.groupIds.getLast? = none)
      ∧ (∀ g, g ∈ (nodes.foldl collectGroupIds acc).1
        ↔ g ∈ acc.1 ∨ ∃ n ∈ nodes, n.groupSelectable = true ∧ n.groupIds.getLast? = some g)
      ∧ (acc.1.Nodup → (nodes.foldl collectGroupIds acc).1.Nodup) := by
  induction nodes with
  | nil => intro acc; simp
  | cons n ns ih =>
    intro acc
    simp only [List.foldl_cons]
    obtain ⟨h1, h2, h3⟩ := ih (collectGroupIds acc n)
    by_cases hs : n.groupSelectable = true
    · cases hl : n.groupIds.getLast? with
      | none =>
        have hstep : collectGroupIds acc n = (acc.1, true) := by
          simp [collectGroupIds, hs, hl]
        rw [hstep] at h1 h2 h3 ⊢
        refine ⟨?_, ?_, h3⟩
        · simp only [iff_true_intro, h1]
          constructor
          · intro _; exact Or.inr ⟨n, List.mem_cons_self _ _, hs, hl⟩
          · intro _; exact Or.inl trivial
        · intro g
          rw [h2 g]
          constructor
          · rintro (h | ⟨m, hm, hm1, hm2⟩)
            · exact Or.inl h
            · exact Or.inr ⟨m, List.mem_cons_of_mem _ hm, hm1, hm2⟩
          · rintro (h | ⟨m, hm, hm1, hm2⟩)
            · exact Or.inl h
            · rcases List.mem_cons.mp hm with rfl | hm'
              · rw [hl] at hm2; simp at hm2
              · exact Or.inr ⟨m, hm', hm1, hm2⟩
      | some last =>
        have hstep : collectGroupIds acc n = (setInsert acc.1 last, acc.2) := by
          simp [collectGroupIds, hs, hl]
        rw [hstep] at h1 h2 h3 ⊢
        refine ⟨?_, ?_, fun hnd => h3 (setInsert_nodup _ _ hnd)⟩
        · rw [h1]
          constructor
          · rintro (h | ⟨m, hm, hm1, hm2⟩)
            · exact Or.inl h
            · exact Or.inr ⟨m, List.mem_cons_of_mem _ hm, hm1, hm2⟩
          · rintro (h | ⟨m, hm, hm1, hm2⟩)
            · exact Or.inl h
            · rcases List.mem_cons.mp hm with rfl | hm'
              · rw [hl] at hm2; simp at hm2
              · exact Or.inr ⟨m, hm', hm1, hm2⟩
        · intro g
          rw [h2 g, setInsert_mem]
          constructor
          · rintro ((h | h) | ⟨m, hm, hm1, hm2⟩)
            · exact Or.inl h
            · exact Or.inr ⟨n, List.mem_cons_self _ _, hs, by rw [hl, h]⟩
            · exact Or.inr ⟨m, List.mem_cons_of_mem _ hm, hm1, hm2⟩
          · rintro (h | ⟨m, hm, hm1, hm2⟩)
            · exact Or.inl (Or.inl h)
            · rcases List.mem_cons.mp hm with rfl | hm'
              · rw [hl] at hm2
                simp only [Option.some.injEq] at hm2
                exact Or.inl (Or.inr hm2.symm)
              · exact Or.inr ⟨m, hm', hm1, hm2⟩
    · have hstep : collectGroupIds acc n = acc := by
        simp [collectGroupIds, hs]
      rw [hstep] at h1 h2 h3 ⊢
      refine ⟨?_, ?_, h3⟩
      · rw [h1]
        constructor
        · rintro (h | ⟨m, hm, hm1, hm2⟩)
          · exact Or.inl h
          · exact Or.inr ⟨m, List.mem_cons_of_mem _ hm, hm1, hm2⟩
        · rintro (h | ⟨m, hm, hm1, hm2⟩)
          · exact Or.inl h
          · rcases List.mem_cons.mp hm with rfl | hm'
            · exact absurd hm1 hs
            · exact Or.inr ⟨m, hm', hm1, hm2⟩
      · intro g
        rw [h2 g]
        constructor
        · rintro (h | ⟨m, hm, hm1, hm2⟩)
          · exact Or.inl h
          · exact Or.inr ⟨m, List.mem_cons_of_mem _ hm, hm1, hm2⟩
        · rintro (h | ⟨m, hm, hm1, hm2⟩)
          · exact Or.inl h
          · rcases List.mem_cons.mp hm with rfl | hm'
            · exact absurd hm1 hs
            · exact Or.inr ⟨m, hm', hm1, hm2⟩

theorem nodup_length_one_iff (l : List Nat) (h : l.Nodup) :
    l.length = 1 ↔ (∃ g, g ∈ l) ∧ ∀ a ∈ l, ∀ b ∈ l, a = b := by
  constructor
  · intro hl
    obtain ⟨g, rfl⟩ := List.length_eq_one.mp hl
    refine ⟨⟨g, by simp⟩, ?_⟩
    intro a ha b hb
    simp only [List.mem_singleton] at ha hb
    rw [ha, hb]
  · rintro ⟨⟨g, hg⟩, hall⟩
    cases l with
    | nil => simp at hg
    | cons x xs =>
      cases xs with
      | nil => rfl
      | cons y ys =>
        have hxy : x = y := hall x (by simp) y (by simp)
        subst hxy
        simp at h

/-- The test `!hasUngroupedNode && groupIds.size() == 1` of `groupSelectedCmd` holds exactly when
some selected node is group-selectable and the group-selectable selected nodes share one most
recent group id. -/
theorem alreadyGrouped_test_iff (s : GroupManager) :
    (!(s.selectedNodes.foldl collectGroupIds ([], false)).2
        && (s.selectedNodes.foldl collectGroupIds ([], false)).1.length == 1) = true
      ↔ (∃ n ∈ s.selectedNodes, n.groupSelectable = true) ∧ SharesOneGroup s := by
  obtain ⟨h1, h2, h3⟩ := collectGroupIds_foldl s.selectedNodes ([], false)
  have hnd := h3 List.nodup_nil
  simp only [Bool.and_eq_true, Bool.not_eq_true', beq_iff_eq]
  rw [nodup_length_one_iff _ hnd]
  simp only [List.not_mem_nil, false_or, Bool.false_eq_true] at h1 h2
  constructor
  · rintro ⟨hno, ⟨g, hg⟩, hall⟩
    obtain ⟨n, hn, hn1, hn2⟩ := (h2 g).mp hg
    refine ⟨⟨n, hn, hn1⟩, g, ?_⟩
    intro m hm hm1
    cases hl : m.groupIds.getLast? with
    | none =>
      have : (s.selectedNodes.foldl collectGroupIds ([], false)).2 = true :=
        h1.mpr ⟨m, hm, hm1, hl⟩
      rw [hno] at this
      simp at this
    | some g2 =>
      have hg2 := (h2 g2).mpr ⟨m, hm, hm1, hl⟩
      rw [hall g2 hg2 g hg]
  · rintro ⟨⟨n, hn, hn1⟩, g, hg⟩
    refine ⟨?_, ⟨g, (h2 g).mpr ⟨n, hn, hn1, hg n hn hn1⟩⟩, ?_⟩
    · cases hb : (s.selectedNodes.foldl collectGroupIds ([], false)).2 with
      | false => rfl
      | true =>
        obtain ⟨m, hm, hm1, hm2⟩ := h1.mp hb
        rw [hg m hm hm1] at hm2
        simp at hm2
    · intro a ha b hb
      obtain ⟨m, hm, hm1, hm2⟩ := (h2 a).mp ha
      obtain ⟨m2, hm', hm1', hm2'⟩ := (h2 b).mp hb
      rw [hg m hm hm1] at hm2
      rw [hg m2 hm' hm1'] at hm2'
      simp only [Option.some.injEq] at hm2 hm2'
      rw [← hm2, ← hm2']

theorem addNode_foldl_groups (gid : Nat) (base : List SelectionGroup)
    (hbase : ∀ g ∈ base, g.id ≠ gid) (sel : List GroupNode) :
    ∀ (s1 : GroupManager) (acc : List Nat), s1.groups = base ++ [{ id := gid, nodes := acc }] →
      (sel.foldl (SelectionGroup.addNode gid) s1).groups
        = base ++ [{ id := gid, nodes := acc ++ sel.map (fun n => n.id) }] := by
  induction sel with
  | nil => intro s1 acc h; simpa using h
  | cons n ns ih =>
    intro s1 acc h
    simp only [List.foldl_cons, List.map_cons]
    have hstep : (SelectionGroup.addNode gid s1 n).groups
        = base ++ [{ id := gid, nodes := (acc ++ [n.id]) }] := by
      simp only [SelectionGroup.addNode, h, List.map_append, List.map_cons, List.map_nil,
        beq_self_eq_true, if_true]
      congr 1
      conv => rhs; rw [← List.map_id base]
      apply List.map_congr_left
      intro g hg
      have := hbase g hg
      simp [this]
    rw [ih _ _ hstep]
    simp

/-- C15 (counterexample): in primitive mode with two selected nodes neither of which is
group-selectable, every group-selectable selected node is (vacuously) grouped with one and the
same most recent group id, yet `groupSelectedCmd` creates the group 1 and hands it both nodes. -/
theorem groupSelectedCmd_creates_without_group_selectables :
    notGroupSelectableExample.mode = SelectionMode.ePrimitive
      ∧ notGroupSelectableExample.totalCount = 2
      ∧ SharesOneGroup notGroupSelectableExample
      ∧ groupSelectedCmd notGroupSelectableExample
        = some (none, { notGroupSelectableExample with
                        groups := [{ id := 0, nodes := [] }, { id := 1, nodes := [5, 6] }] }) := by
  refine ⟨rfl, by decide, ⟨0, by decide⟩, by decide⟩

/-- C15 (amended): `groupSelectedCmd` creates a new selection group if and only if the selection
system is in primitive mode, at least two items are selected, and it is not the case that some
selected node is group-selectable and every group-selectable selected node is already grouped
with one and the same most recent group id.  When it creates a group, the group gets a free id
and receives every selected node, in order, the other groups staying as they are; otherwise an
error is shown and the state, the set of groups included, is unchanged.  (Fewer groups are
registered than there are `std::size_t` values.) -/
theorem groupSelectedCmd_creates_iff (s : GroupManager) (hsize : s.groups.length < sizeMax) :
    ∃ err s2, groupSelectedCmd s = some (err, s2)
      ∧ ((s.mode = SelectionMode.ePrimitive ∧ 2 ≤ s.totalCount
            ∧ ¬ ((∃ n ∈ s.selectedNodes, n.groupSelectable = true) ∧ SharesOneGroup s)) →
          err = none ∧ ∃ id, (s.findGroup id).isNone = true
            ∧ s2.groups = s.groups ++ [{ id := id, nodes := s.selectedNodes.map (fun n => n.id) }])
      ∧ (¬ (s.mode = SelectionMode.ePrimitive ∧ 2 ≤ s.totalCount
            ∧ ¬ ((∃ n ∈ s.selectedNodes, n.groupSelectable = true) ∧ SharesOneGroup s)) →
          err.isSome = true ∧ s2 = s) := by
  by_cases hmode : s.mode = SelectionMode.ePrimitive
  · have b0 : (s.mode != SelectionMode.ePrimitive) = false := by simp [hmode]
    by_cases h0 : s.totalCount = 0
    · have b1 : (s.totalCount == 0) = true := by simp [h0]
      refine ⟨some "Nothing selected, cannot group anything".toList, s, ?_, ?_, ?_⟩
      · simp only [groupSelectedCmd, b0, b1, Bool.false_eq_true, if_false, if_true]
      · rintro ⟨_, h2, _⟩; omega
      · intro _; exact ⟨rfl, rfl⟩
    · have b1 : (s.totalCount == 0) = false := by simp [h0]
      by_cases h1 : s.totalCount = 1
      · have b2 : (s.totalCount == 1) = true := by simp [h1]
        refine ⟨some "Select more than one element to form a group".toList, s, ?_, ?_, ?_⟩
        · simp only [groupSelectedCmd, b0, b1, b2, Bool.false_eq_true, if_false, if_true]
        · rintro ⟨_, h2, _⟩; omega
        · intro _; exact ⟨rfl, rfl⟩
      · have b2 : (s.totalCount == 1) = false := by simp [h1]
        by_cases ht : (!(s.selectedNodes.foldl collectGroupIds ([], false)).2
            && (s.selectedNodes.foldl collectGroupIds ([], false)).1.length == 1) = true
        · refine ⟨some "The selected elements already form a group".toList, s, ?_, ?_, ?_⟩
          · simp only [groupSelectedCmd, b0, b1, b2, ht, Bool.false_eq_true, if_false, if_true]
          · rintro ⟨_, _, h3⟩
            exact absurd ((alreadyGrouped_test_iff s).mp ht) h3
          · intro _; exact ⟨rfl, rfl⟩
        · obtain ⟨g, s1, hc1, hc2, _, hc4, hc5, _, _⟩ := createSelectionGroup_spec s hsize
          have hbase : ∀ x ∈ s.groups, x.id ≠ g.id := (findGroup_isNone_iff s g.id).mp hc2
          have hg : g = { id := g.id, nodes := [] } := by
            cases g with
            | mk gid gnodes => simp only at hc4; subst hc4; rfl
          have hs1 : s1.groups = s.groups ++ [{ id := g.id, nodes := [] }] := by
            rw [hc5]; congr 2
          have hfold := addNode_foldl_groups g.id s.groups hbase s.selectedNodes s1 [] hs1
          refine ⟨none, s.selectedNodes.foldl (SelectionGroup.addNode g.id) s1, ?_, ?_, ?_⟩
          · have hf : (!(s.selectedNodes.foldl collectGroupIds ([], false)).2
                && (s.selectedNodes.foldl collectGroupIds ([], false)).1.length == 1) = false := by
              simpa using ht
            simp only [groupSelectedCmd, b0, b1, b2, hf, hc1, Bool.false_eq_true, if_false]
          · intro _
            exact ⟨rfl, g.id, hc2, by simpa using hfold⟩
          · intro hn
            exfalso
            apply hn
            refine ⟨hmode, by omega, ?_⟩
            intro h
            exact ht ((alreadyGrouped_test_iff s).mpr h)
  · have b0 : (s.mode != SelectionMode.ePrimitive) = true := by simp [hmode]
    refine ⟨some "Groups can be formed in Primitive selection mode only".toList, s, ?_, ?_, ?_⟩
    · simp only [groupSelectedCmd, b0, if_true]
    · rintro ⟨h, _⟩; exact absurd h hmode
    · intro _; exact ⟨rfl, rfl⟩

/-- Witness for C15 (amended): two selected ungrouped nodes in primitive mode. -/
theorem groupSelectedCmd_creates_iff_witness :
    ∃ err s2, groupSelectedCmd ungroupedSelectionExample = some (err, s2)
      ∧ ((ungroupedSelectionExample.mode = SelectionMode.ePrimitive
            ∧ 2 ≤ ungroupedSelectionExample.totalCount
            ∧ ¬ ((∃ n ∈ ungroupedSelectionExample.selectedNodes, n.groupSelectable = true)
                ∧ SharesOneGroup ungroupedSelectionExample)) →
          err = none ∧ ∃ id, (ungroupedSelectionExample.findGroup id).isNone = true
            ∧ s2.groups = ungroupedSelectionExample.groups
                ++ [{ id := id,
                      nodes := ungroupedSelectionExample.selectedNodes.map (fun n => n.id) }])
      ∧ (¬ (ungroupedSelectionExample.mode = SelectionMode.ePrimitive
            ∧ 2 ≤ ungroupedSelectionExample.totalCount
            ∧ ¬ ((∃ n ∈ ungroupedSelectionExample.selectedNodes, n.groupSelectable = true)
                ∧ SharesOneGroup ungroupedSelectionExample)) →
          err.isSome = true ∧ s2 = ungroupedSelectionExample) :=
  groupSelectedCmd_creates_iff ungroupedSelectionExample (by decide)

/-! ## Theorems: the map reader -/

theorem infix_of_append_left {α : Type} (a b c : List α) : b <:+: a ++ b ++ c :=
  ⟨a, c, rfl⟩

theorem nextToken_length (tok : List Str) (t : Str) (rest : List Str)
    (h : nextToken tok = Except.ok (t, rest)) : rest.length + 1 = tok.length := by
  cases tok with
  | nil => simp [nextToken] at h
  | cons a as =>
    simp only [nextToken, Except.ok.injEq, Prod.mk.injEq] at h
    rw [← h.2]; rfl

theorem parsePrimitive_length (parsers : PrimitiveParsers) (st st1 : ReaderState)
    (ent : MapEntity) (h : parsePrimitive parsers st ent = Except.ok st1) :
    st1.tokens.length < st.tokens.length := by
  unfold parsePrimitive at h
  cases hn : nextToken st.tokens with
  | error e => simp [hn] at h
  | ok p =>
    obtain ⟨kw, rest⟩ := p
    have hl := nextToken_length _ _ _ hn
    simp only [hn] at h
    cases hp : parsers kw with
    | none => simp [hp] at h
    | some parser =>
      simp only [hp] at h
      cases hr : parser rest with
      | parseException msg => simp [hr] at h
      | parsed prim consumed =>
        cases prim with
        | none => simp [hr] at h
        | some pr =>
          simp only [hr, Except.ok.injEq] at h
          rw [← h]
          simp only [List.length_drop]
          omega

/-- The first argument of `parseEntityLoop` is never used up: any two values above the number of
tokens left give the same result. -/
theorem parseEntityLoop_fuel (parsers : PrimitiveParsers) (n : Nat) :
    ∀ (m : Nat) (st : ReaderState) (token : Str) (keyValues : List (Str × Str))
      (entity : Option MapEntity), st.tokens.length < n → st.tokens.length < m →
      parseEntityLoop parsers n st token keyValues entity
        = parseEntityLoop parsers m st token keyValues entity := by
  induction n with
  | zero => intro m st token kv ent h; omega
  | succ k ih =>
    intro m st token kv ent hn hm
    cases m with
    | zero => omega
    | succ j =>
      simp only [parseEntityLoop]
      split
      · split
        · rfl
        · rename_i e_ent ent2 _
          cases hp : parsePrimitive parsers st ent2 with
          | error e => rfl
          | ok st1 =>
            simp only
            have hl := parsePrimitive_length parsers st st1 ent2 hp
            cases hnt : nextToken st1.tokens with
            | error e => rfl
            | ok p =>
              obtain ⟨token2, rest⟩ := p
              have hl2 := nextToken_length _ _ _ hnt
              simp only
              exact ih j _ _ _ _ (by simp only; omega) (by simp only; omega)
      · split
        · rfl
        · cases hnt : nextToken st.tokens with
          | error e => rfl
          | ok p =>
            obtain ⟨value, rest⟩ := p
            have hl := nextToken_length _ _ _ hnt
            simp only
            split
            · rfl
            · cases hnt2 : nextToken rest with
              | error e => rfl
              | ok p2 =>
                obtain ⟨token2, rest2⟩ := p2
                have hl2 := nextToken_length _ _ _ hnt2
                simp only
                exact ih j _ _ _ _ (by simp only; omega) (by simp only; omega)

theorem parseEntityLoop_length (parsers : PrimitiveParsers) (n : Nat) :
    ∀ (st st2 : ReaderState) (token : Str) (keyValues : List (Str × Str))
      (entity : Option MapEntity),
      parseEntityLoop parsers n st token keyValues entity = Except.ok st2 →
      st2.tokens.length ≤ st.tokens.length := by
  induction n with
  | zero => intro st st2 token kv ent h; simp [parseEntityLoop] at h
  | succ k ih =>
    intro st st2 token kv ent h
    simp only [parseEntityLoop] at h
    split at h
    · split at h
      · simp at h
      · rename_i e_ent ent2 _
        cases hp : parsePrimitive parsers st ent2 with
        | error e => simp [hp] at h
        | ok st1 =>
          simp only [hp] at h
          have hl := parsePrimitive_length parsers st st1 ent2 hp
          cases hnt : nextToken st1.tokens with
          | error e => simp [hnt] at h
          | ok p =>
            obtain ⟨token2, rest⟩ := p
            have hl2 := nextToken_length _ _ _ hnt
            simp only [hnt] at h
            have := ih _ _ _ _ _ h
            simp only at this
            omega
    · split at h
      · split at h
        · simp at h
        · simp only [Except.ok.injEq] at h
          rw [← h]
      · cases hnt : nextToken st.tokens with
        | error e => simp [hnt] at h
        | ok p =>
          obtain ⟨value, rest⟩ := p
          have hl := nextToken_length _ _ _ hnt
          simp only [hnt] at h
          split at h
          · simp at h
          · cases hnt2 : nextToken rest with
            | error e => simp [hnt2] at h
            | ok p2 =>
              obtain ⟨token2, rest2⟩ := p2
              have hl2 := nextToken_length _ _ _ hnt2
              simp only [hnt2] at h
              have := ih _ _ _ _ _ h
              simp only at this
              omega

theorem parseEntity_length (parsers : PrimitiveParsers) (st st2 : ReaderState)
    (h : parseEntity parsers st = Except.ok st2) : st2.tokens.length < st.tokens.length := by
  unfold parseEntity at h
  cases ha : assertNextToken openBrace st.tokens with
  | error e => simp [ha] at h
  | ok tok1 =>
    have hl1 : tok1.length + 1 = st.tokens.length := by
      unfold assertNextToken at ha
      cases hn : nextToken st.tokens with
      | error e => simp [hn] at ha
      | ok p =>
        obtain ⟨t, rest⟩ := p
        have := nextToken_length _ _ _ hn
        simp only [hn] at ha
        split at ha
        · simp only [Except.ok.injEq] at ha
          rw [← ha]; exact this
        · simp at ha
    simp only [ha] at h
    cases hn : nextToken tok1 with
    | error e => simp [hn] at h
    | ok p =>
      obtain ⟨token, tok2⟩ := p
      have hl2 := nextToken_length _ _ _ hn
      simp only [hn] at h
      have := parseEntityLoop_length parsers _ _ _ _ _ _ h
      simp only at this
      omega

/-- The first argument of `readEntities` is never used up: any two values above the number of
tokens left give the same result. -/
theorem readEntities_fuel (parsers : PrimitiveParsers) (n : Nat) :
    ∀ (m : Nat) (st : ReaderState), st.tokens.length < n → st.tokens.length < m →
      readEntities parsers n st = readEntities parsers m st := by
  induction n with
  | zero => intro m st h; omega
  | succ k ih =>
    intro m st hn hm
    cases m with
    | zero => omega
    | succ j =>
      simp only [readEntities]
      split
      · cases hp : parseEntity parsers st with
        | error e =>
          obtain ⟨err, st1⟩ := e
          cases err <;> rfl
        | ok st1 =>
          have hl := parseEntity_length parsers st st1 hp
          simp only
          exact ih j _ (by simp only; omega) (by simp only; omega)
      · rfl

/-- C17 (evaluation at the failing input): in a map with a valid version header whose entity
block 0 parses and whose entity block 1 is cut off by the end of the file, `readFromStream`
passes entity 0 to `addEntity` and then lets the tokeniser's `ParseException` escape as it is:
no `FailureException` is raised and the message does not name entity 1.  When block 1 fails
with a `FailureException` instead (a primitive of unknown type), the exception raised is the
`FailureException` "Failed parsing entity 1: ...". -/
theorem readFromStream_truncated_entity_escapes :
    readFromStream exampleFloatLib examplePrimitiveParsers truncatedMapTokens
        = Except.error (ReaderError.parseException "DefTokeniser: no more tokens".toList,
            { tokens := [], entityCount := 1, primitiveCount := 0,
              filterCalls := [FilterCall.addEntity
                { keyValues := [("classname".toList, "worldspawn".toList)] }] })
      ∧ readFromStream exampleFloatLib examplePrimitiveParsers unknownPrimitiveMapTokens
        = Except.error (ReaderError.failure
              "Failed parsing entity 1:\nUnknown primitive type: foo".toList,
            { tokens := [closeBrace, closeBrace], entityCount := 1, primitiveCount := 1,
              filterCalls := [FilterCall.addEntity
                { keyValues := [("classname".toList, "worldspawn".toList)] }] }) := by
  constructor <;> rfl

/-! ## Theorems: the command registry -/

/-- C19: for a command registered with an argument-type signature, `executeCommand` with an
argument list that does not match the signature does not run the callable (the record of
invocations is unchanged), while a matching argument list runs it exactly once with the
arguments unchanged and in order.  In the registry of the test, the single string `wrong` does
not match `[int, string]`, and `(27, "balls")` does. -/
theorem executeCommand_checks_signature (reg : CommandRegistry) (c : Command)
    (types : List ArgType) (args : List Argument)
    (hfind : reg.commands.find? (fun x => x.name == c.name) = some c)
    (hsig : c.signature = some types) :
    (executeCommand reg c.name args).runs
        = (if args.map Argument.type = types then reg.runs ++ [(c.name, args)] else reg.runs)
      ∧ (executeCommand reg c.name args).commands = reg.commands
      ∧ (executeCommand argsTestRegistry "testCmdWithArgs".toList
          [Argument.string "wrong".toList]).runs = []
      ∧ (executeCommand argsTestRegistry "testCmdWithArgs".toList
          [Argument.int 27, Argument.string "balls".toList]).runs
        = [("testCmdWithArgs".toList, [Argument.int 27, Argument.string "balls".toList])] := by
  refine ⟨?_, ?_, by decide, by decide⟩
  · simp only [executeCommand, hfind, argsMatch, hsig]
    by_cases h : args.map Argument.type = types
    · simp [h]
    · simp [h]
  · simp only [executeCommand, hfind]
    split <;> rfl

/-- Witness for C19: the command of the test with the arguments `(27, "balls")`. -/
theorem executeCommand_checks_signature_witness :
    (executeCommand argsTestRegistry "testCmdWithArgs".toList
          [Argument.int 27, Argument.string "balls".toList]).runs
        = (if [Argument.int 27, Argument.string "balls".toList].map Argument.type
              = [ArgType.int, ArgType.string]
           then argsTestRegistry.runs
             ++ [("testCmdWithArgs".toList, [Argument.int 27, Argument.string "balls".toList])]
           else argsTestRegistry.runs)
      ∧ (executeCommand argsTestRegistry "testCmdWithArgs".toList
          [Argument.int 27, Argument.string "balls".toList]).commands = argsTestRegistry.commands
      ∧ (executeCommand argsTestRegistry "testCmdWithArgs".toList
          [Argument.string "wrong".toList]).runs = []
      ∧ (executeCommand argsTestRegistry "testCmdWithArgs".toList
          [Argument.int 27, Argument.string "balls".toList]).runs
        = [("testCmdWithArgs".toList, [Argument.int 27, Argument.string "balls".toList])] :=
  executeCommand_checks_signature argsTestRegistry
    { name := "testCmdWithArgs".toList, signature := some [ArgType.int, ArgType.string] }
    [ArgType.int, ArgType.string] [Argument.int 27, Argument.string "balls".toList]
    (by decide) rfl

theorem splitBy_no_sep (sep : Char → Bool) (a : Str) (ha : ∀ x ∈ a, sep x = false) :
    splitBy sep a = [a] := by
  induction a with
  | nil => rfl
  | cons c cs ih =>
    have hc := ha c (List.mem_cons_self _ _)
    rw [splitBy]
    simp only [hc, Bool.false_eq_true, if_false]
    rw [ih (fun x hx => ha x (List.mem_cons_of_mem _ hx))]

theorem splitBy_append_sep (sep : Char → Bool) (a : Str) (c : Char) (b : Str)
    (ha : ∀ x ∈ a, sep x = false) (hc : sep c = true) :
    splitBy sep (a ++ c :: b) = a :: splitBy sep b := by
  induction a with
  | nil =>
    show splitBy sep (c :: b) = _
    rw [splitBy]
    simp only [hc, if_true]
  | cons d ds ih =>
    have hd := ha d (List.mem_cons_self _ _)
    show splitBy sep (d :: (ds ++ c :: b)) = _
    rw [splitBy]
    simp only [hd, Bool.false_eq_true, if_false]
    rw [ih (fun x hx => ha x (List.mem_cons_of_mem _ hx))]

theorem wordsOf_nil : wordsOf [] = [] := rfl

theorem wordsOf_spaces_append (pad rest : Str) (hp : ∀ x ∈ pad, isSpace x = true) :
    wordsOf (pad ++ rest) = wordsOf rest := by
  induction pad with
  | nil => rfl
  | cons c cs ih =>
    have hc := hp c (List.mem_cons_self _ _)
    have ih2 := ih (fun x hx => hp x (List.mem_cons_of_mem _ hx))
    show wordsOf (c :: (cs ++ rest)) = _
    unfold wordsOf at ih2 ⊢
    rw [splitBy]
    simp only [hc, if_true]
    rw [List.filter_cons]
    simp only [List.isEmpty_nil, Bool.not_true, Bool.false_eq_true, if_false]
    exact ih2

theorem wordsOf_name_spaces (name pad : Str) (hne : name ≠ [])
    (hn : ∀ x ∈ name, isSpace x = false) (hp : ∀ x ∈ pad, isSpace x = true) :
    wordsOf (name ++ pad) = [name] := by
  have hemp : name.isEmpty = false := by
    cases name with
    | nil => exact absurd rfl hne
    | cons _ _ => rfl
  cases pad with
  | nil =>
    unfold wordsOf
    rw [List.append_nil, splitBy_no_sep isSpace name hn]
    simp [hemp]
  | cons c cs =>
    have hc := hp c (List.mem_cons_self _ _)
    have hrest : wordsOf cs = [] := by
      have := wordsOf_spaces_append cs [] (fun x hx => hp x (List.mem_cons_of_mem _ hx))
      rw [List.append_nil] at this
      rw [this]; rfl
    unfold wordsOf at hrest ⊢
    rw [splitBy_append_sep isSpace name c cs hn hc, List.filter_cons]
    simp only [hemp, Bool.not_false, if_true]
    rw [hrest]

theorem splitBy_joinStatements (texts : List Str) (hne : texts ≠ [])
    (ht : ∀ t ∈ texts, ∀ x ∈ t, (x == ';') = false) :
    splitBy (fun c => c == ';') (joinStatements texts) = texts := by
  induction texts with
  | nil => exact absurd rfl hne
  | cons s rest ih =>
    cases rest with
    | nil =>
      show splitBy _ s = [s]
      exact splitBy_no_sep _ s (ht s (List.mem_cons_self _ _))
    | cons t rest2 =>
      show splitBy _ (s ++ ';' :: joinStatements (t :: rest2)) = _
      rw [splitBy_append_sep _ s ';' _ (ht s (List.mem_cons_self _ _)) (by decide)]
      rw [ih (by simp) (fun u hu => ht u (List.mem_cons_of_mem _ hu))]

theorem executeCommand_commands (reg : CommandRegistry) (name : Str) (args : List Argument) :
    (executeCommand reg name args).commands = reg.commands := by
  unfold executeCommand
  split
  · rfl
  · split <;> rfl

theorem executeStatements_runs (cmds : List PaddedName) :
    ∀ reg : CommandRegistry,
      (∀ p ∈ cmds, (∀ x ∈ p.before, x = ' ') ∧ (∀ x ∈ p.after, x = ' ')) →
      (∀ p ∈ cmds, p.name ≠ [] ∧ ∀ x ∈ p.name, isSpace x = false) →
      (∀ p ∈ cmds, ∃ c, reg.commands.find? (fun x => x.name == p.name) = some c
          ∧ argsMatch c.signature [] = true) →
      ((cmds.map PaddedName.text).foldl executeStatement reg).runs
          = reg.runs ++ cmds.map (fun p => (p.name, []))
        ∧ ((cmds.map PaddedName.text).foldl executeStatement reg).commands = reg.commands := by
  induction cmds with
  | nil => intro reg _ _ _; simp
  | cons p ps ih =>
    intro reg hpad hname hreg
    obtain ⟨hb, ha⟩ := hpad p (List.mem_cons_self _ _)
    obtain ⟨hne, hns⟩ := hname p (List.mem_cons_self _ _)
    obtain ⟨c, hc1, hc2⟩ := hreg p (List.mem_cons_self _ _)
    have hsp : ∀ (w : Str), (∀ x ∈ w, x = ' ') → ∀ x ∈ w, isSpace x = true := by
      intro w hw x hx
      rw [hw x hx]; rfl
    have hwords : wordsOf p.text = [p.name] := by
      unfold PaddedName.text
      rw [List.append_assoc, wordsOf_spaces_append _ _ (hsp _ hb)]
      exact wordsOf_name_spaces p.name p.after hne hns (hsp _ ha)
    have hstep : executeStatement reg p.text
        = { reg with runs := reg.runs ++ [(p.name, [])] } := by
      simp only [executeStatement, hwords, List.map_nil, executeCommand, hc1, hc2, if_true]
    simp only [List.map_cons, List.foldl_cons]
    rw [hstep]
    obtain ⟨i1, i2⟩ := ih { reg with runs := reg.runs ++ [(p.name, [])] }
      (fun q hq => hpad q (List.mem_cons_of_mem _ hq))
      (fun q hq => hname q (List.mem_cons_of_mem _ hq))
      (fun q hq => hreg q (List.mem_cons_of_mem _ hq))
    refine ⟨?_, i2⟩
    rw [i1]
    simp

/-- C20: for every sequence of registered commands that take no arguments, each name written
with any number of spaces before and after it (names are not empty and contain neither
whitespace nor `;`), `execute` applied to these texts joined by `;` runs each named command once
per occurrence, with no arguments, in the order written, and nothing else: the record of
invocations grows by exactly the names in order, whatever the spaces are. -/
theorem execute_runs_sequence_in_order (reg : CommandRegistry) (cmds : List PaddedName)
    (hpad : ∀ p ∈ cmds, (∀ x ∈ p.before, x = ' ') ∧ (∀ x ∈ p.after, x = ' '))
    (hname : ∀ p ∈ cmds, p.name ≠ [] ∧ ∀ x ∈ p.name, isSpace x = false ∧ x ≠ ';')
    (hreg : ∀ p ∈ cmds, ∃ c, reg.commands.find? (fun x => x.name == p.name) = some c
        ∧ argsMatch c.signature [] = true) :
    (execute reg (joinStatements (cmds.map PaddedName.text))).runs
        = reg.runs ++ cmds.map (fun p => (p.name, []))
      ∧ (execute reg (joinStatements (cmds.map PaddedName.text))).commands = reg.commands := by
  cases hc : cmds with
  | nil => exact ⟨by simp [execute, joinStatements, splitBy, executeStatement, wordsOf], rfl⟩
  | cons p ps =>
    rw [← hc]
    have hne : cmds.map PaddedName.text ≠ [] := by rw [hc]; simp
    have hsemi : ∀ t ∈ cmds.map PaddedName.text, ∀ x ∈ t, (x == ';') = false := by
      intro t ht x hx
      rw [List.mem_map] at ht
      obtain ⟨q, hq, rfl⟩ := ht
      unfold PaddedName.text at hx
      simp only [List.mem_append] at hx
      have hxne : x ≠ ';' := by
        rcases hx with (hx | hx) | hx
        · rw [(hpad q hq).1 x hx]; decide
        · exact ((hname q hq).2 x hx).2
        · rw [(hpad q hq).2 x hx]; decide
      simpa using hxne
    unfold execute
    rw [splitBy_joinStatements _ hne hsemi]
    exact executeStatements_runs cmds reg hpad
      (fun q hq => ⟨(hname q hq).1, fun x hx => ((hname q hq).2 x hx).1⟩) hreg

/-- Witness for C20: the second line of the test `RunCommandSequence`,
`"  secondRunCountCommand  ; firstRunCountCommand  "`. -/
theorem execute_runs_sequence_in_order_witness :
    joinStatements (List.map PaddedName.text
        [{ before := "  ".toList, name := "secondRunCountCommand".toList, after := "  ".toList },
         { before := " ".toList, name := "firstRunCountCommand".toList, after := "  ".toList }])
        = "  secondRunCountCommand  ; firstRunCountCommand  ".toList
      ∧ (execute sequenceTestRegistry (joinStatements (List.map PaddedName.text
        [{ before := "  ".toList, name := "secondRunCountCommand".toList, after := "  ".toList },
         { before := " ".toList, name := "firstRunCountCommand".toList,
           after := "  ".toList }]))).runs
        = sequenceTestRegistry.runs ++ List.map (fun (p : PaddedName) => (p.name, []))
        [{ before := "  ".toList, name := "secondRunCountCommand".toList, after := "  ".toList },
         { before := " ".toList, name := "firstRunCountCommand".toList, after := "  ".toList }]
      ∧ (execute sequenceTestRegistry (joinStatements (List.map PaddedName.text
        [{ before := "  ".toList, name := "secondRunCountCommand".toList, after := "  ".toList },
         { before := " ".toList, name := "firstRunCountCommand".toList,
           after := "  ".toList }]))).commands = sequenceTestRegistry.commands :=
  ⟨by decide,
    execute_runs_sequence_in_order sequenceTestRegistry
      [{ before := "  ".toList, name := "secondRunCountCommand".toList, after := "  ".toList },
       { before := " ".toList, name := "firstRunCountCommand".toList, after := "  ".toList }]
      (by decide) (by decide)
      (by
        intro p hp
        simp only [List.mem_cons, List.mem_singleton, List.not_mem_nil, or_false] at hp
        rcases hp with rfl | rfl
        · exact ⟨{ name := "secondRunCountCommand".toList, signature := none }, by decide, rfl⟩
        · exact ⟨{ name := "firstRunCountCommand".toList, signature := none }, by decide, rfl⟩)⟩

/-! ## Theorems: layer commands -/

theorem doWithMapLayerManager_no_root (ctx : LayerContext) (func : LayerContext → LayerContext)
    (h : ctx.hasRoot = false) :
    DoWithMapLayerManager ctx func = ctx.rError "No map loaded, cannot do this.".toList := by
  simp [DoWithMapLayerManager, h]

/-- C21: each of the six layer command handlers, invoked with an argument list whose length is
not 1 or while no map root is loaded, makes no call on the layer manager (and none on the map
module), leaves the map's modified flag as it is and writes one line to the error stream. -/
theorem layer_handlers_reject_without_effect (acc : ArgumentAccess) (cmd : LayerCommand)
    (ctx : LayerContext) (args : List Argument)
    (h : args.length ≠ 1 ∨ ctx.hasRoot = false) :
    (cmd.handler acc ctx args).calls = ctx.calls
      ∧ (cmd.handler acc ctx args).modified = ctx.modified
      ∧ (cmd.handler acc ctx args).hasRoot = ctx.hasRoot
      ∧ ∃ line, (cmd.handler acc ctx args).errors = ctx.errors ++ [line] := by
  have key : ∃ line, cmd.handler acc ctx args = ctx.rError line := by
    match args, h with
    | [], _ => cases cmd <;> exact ⟨_, rfl⟩
    | [arg0], h =>
      have hroot : ctx.hasRoot = false := by
        rcases h with h | h
        · exact absurd rfl h
        · exact h
      refine ⟨"No map loaded, cannot do this.".toList, ?_⟩
      cases cmd <;>
        simp only [LayerCommand.handler, LayerModule.createLayer,
          LayerModule.addSelectionToLayer, LayerModule.moveSelectionToLayer,
          LayerModule.removeSelectionFromLayer, LayerModule.showLayer, LayerModule.hideLayer] <;>
        exact doWithMapLayerManager_no_root ctx _ hroot
    | _ :: _ :: _, _ => cases cmd <;> exact ⟨_, rfl⟩
  obtain ⟨line, hl⟩ := key
  rw [hl]
  exact ⟨rfl, rfl, rfl, line, rfl⟩

/-- Witness for C21: `CreateLayer` without arguments on a loaded, unmodified map. -/
theorem layer_handlers_reject_without_effect_witness :
    (LayerCommand.createLayer.handler exampleArgumentAccess
        { hasRoot := true, modified := false, calls := [], errors := [] } []).calls = []
      ∧ (LayerCommand.createLayer.handler exampleArgumentAccess
        { hasRoot := true, modified := false, calls := [], errors := [] } []).modified = false
      ∧ (LayerCommand.createLayer.handler exampleArgumentAccess
        { hasRoot := true, modified := false, calls := [], errors := [] } []).hasRoot = true
      ∧ ∃ line, (LayerCommand.createLayer.handler exampleArgumentAccess
        { hasRoot := true, modified := false, calls := [], errors := [] } []).errors
          = [] ++ [line] :=
  layer_handlers_reject_without_effect exampleArgumentAccess LayerCommand.createLayer
    { hasRoot := true, modified := false, calls := [], errors := [] } [] (Or.inl (by decide))

/-! ## Theorems: lighting mode -/

theorem foldl_unrealiseLighting (l : List CShader) (s : LightingState) :
    l.foldl LightingState.unrealiseLighting s
      = { s with calls := s.calls
            ++ l.map (fun m => LightingCall.unrealiseLighting m.name s.lightingEnabled) } := by
  induction l generalizing s with
  | nil => simp
  | cons m rest ih =>
    rw [List.foldl_cons, ih]
    simp [LightingState.unrealiseLighting]

theorem foldl_realiseLighting (l : List CShader) (s : LightingState) :
    l.foldl LightingState.realiseLighting s
      = { s with calls := s.calls
            ++ l.map (fun m => LightingCall.realiseLighting m.name s.lightingEnabled) } := by
  induction l generalizing s with
  | nil => simp
  | cons m rest ih =>
    rw [List.foldl_cons, ih]
    simp [LightingState.realiseLighting]

/-- C22 (counterexample): lighting is enabled and the library holds two materials; the call
`setLightingEnabled(true)` reaches no material: no `unrealiseLighting()` and no
`realiseLighting()` is received. -/
theorem setLightingEnabled_same_value_no_calls :
    litLibrary.lightingEnabled = true
      ∧ litLibrary.shaders.length = 2
      ∧ (setLightingEnabled litLibrary true).calls = []
      ∧ setLightingEnabled litLibrary true = litLibrary := by
  decide

/-- C22 (amended): for every set of materials and every call `setLightingEnabled(e)` with `e`
different from the current global lighting flag, every material receives `unrealiseLighting()`
while the flag still has its previous value and then, the flag being `e`, every material
receives `realiseLighting()`, all unrealise calls preceding all realise calls; the flag ends as
`e` and the materials are the same.  A call with `e` equal to the current flag changes
nothing. -/
theorem setLightingEnabled_unrealises_then_realises (s : LightingState) (e : Bool) :
    (s.lightingEnabled ≠ e →
        (setLightingEnabled s e).calls
            = s.calls
              ++ s.shaders.map (fun m => LightingCall.unrealiseLighting m.name s.lightingEnabled)
              ++ s.shaders.map (fun m => LightingCall.realiseLighting m.name e)
          ∧ (setLightingEnabled s e).lightingEnabled = e
          ∧ (setLightingEnabled s e).shaders = s.shaders)
      ∧ (s.lightingEnabled = e → setLightingEnabled s e = s) := by
  constructor
  · intro h
    have hb : (s.lightingEnabled != e) = true := by simpa using h
    simp only [setLightingEnabled, hb, if_true, LightingState.foreachShader,
      foldl_unrealiseLighting, foldl_realiseLighting]
    refine ⟨?_, ?_, ?_⟩ <;> trivial
  · intro h
    have hb : (s.lightingEnabled != e) = false := by simp [h]
    simp [setLightingEnabled, hb]

/-- Witness for C22 (amended): disabling lighting in a library of two materials, and enabling it
when it is enabled already. -/
theorem setLightingEnabled_unrealises_then_realises_witness :
    ((setLightingEnabled litLibrary false).calls
          = [LightingCall.unrealiseLighting "textures/a".toList true,
             LightingCall.unrealiseLighting "textures/b".toList true,
             LightingCall.realiseLighting "textures/a".toList false,
             LightingCall.realiseLighting "textures/b".toList false]
        ∧ (setLightingEnabled litLibrary false).lightingEnabled = false
        ∧ (setLightingEnabled litLibrary false).shaders = litLibrary.shaders)
      ∧ setLightingEnabled litLibrary true = litLibrary :=
  ⟨(setLightingEnabled_unrealises_then_realises litLibrary false).1 (by decide),
   (setLightingEnabled_unrealises_then_realises litLibrary true).2 rfl⟩

/-! ## Theorems: `saveMaterial` -/

theorem materialCanBeModified_findShader (s : ShaderSystem) (name x : Str) :
    materialCanBeModified (s.findShader name).2 x = materialCanBeModified s x := by
  have hdecl := (findShader_decls s name).1
  unfold materialCanBeModified ShaderSystem.definitionExists ShaderSystem.findDeclaration
  rw [hdecl]

theorem commitModifications_log (s : ShaderSystem) (name : Str) :
    (s.commitModifications name).log = s.log ++ [Event.commitModifications name] := by
  unfold ShaderSystem.commitModifications
  split <;> rfl

theorem findShader_of_modified (s : ShaderSystem) (name : Str)
    (hmod : (s.findShader name).1.modified = true) :
    s.shaders.find? (fun m => m.name == name) = some (s.findShader name).1
      ∧ (s.findShader name).2 = s := by
  unfold ShaderSystem.findShader at hmod ⊢
  cases hf : s.shaders.find? (fun m => m.name == name) with
  | some m => exact ⟨rfl, rfl⟩
  | none => rw [hf] at hmod; simp at hmod

/-- C30: `saveMaterial(name)` on a material that is not marked modified raises nothing, commits
nothing and does not call `saveDeclaration`: log and declarations are as before the call, the
state being the one the lookup of the material leaves.  On a material that is marked modified
and can be modified it raises nothing and, after the lookup, calls `commitModifications()` and
then `saveDeclaration`, once each and in this order; afterwards the declaration of that name
holds the material's working definition, the material is no longer marked modified, and every
other declaration and material is as before. -/
theorem saveMaterial_commits_only_when_modified (s : ShaderSystem) (name : Str) :
    ((s.findShader name).1.modified = false →
        (saveMaterial s name).1 = none
          ∧ (saveMaterial s name).2 = (s.findShader name).2
          ∧ (saveMaterial s name).2.log = s.log
          ∧ (saveMaterial s name).2.decls = s.decls)
      ∧ ((s.findShader name).1.modified = true → materialCanBeModified s name = true →
        (saveMaterial s name).1 = none
          ∧ (saveMaterial s name).2.log
              = s.log ++ [Event.commitModifications name, Event.saveDeclaration name]
          ∧ (saveMaterial s name).2.decls
              = s.decls.map (fun d =>
                  if d.name == name then { d with contents := (s.findShader name).1.working }
                  else d)
          ∧ (saveMaterial s name).2.shaders
              = s.shaders.map (fun x =>
                  if x.name == name then { x with modified := false } else x)) := by
  have hname := findShader_name s name
  have hdecl := (findShader_decls s name).1
  have hlog := (findShader_decls s name).2
  constructor
  · intro hmod
    simp only [saveMaterial, hmod, Bool.not_false, if_true]
    refine ⟨?_, ?_, ?_, ?_⟩ <;> trivial
  · intro hmod hcan
    obtain ⟨hfind, hsame⟩ := findShader_of_modified s name hmod
    have hres : saveMaterial s name
        = (none, (s.commitModifications name).emit (Event.saveDeclaration name)) := by
      simp only [saveMaterial, hmod, hname, hsame, hcan, Bool.not_true, Bool.false_eq_true,
        if_false]
    have hcommit : s.commitModifications name
        = { decls := s.decls.map (fun d =>
              if d.name == name then { d with contents := (s.findShader name).1.working }
              else d),
            shaders := s.shaders.map (fun x =>
              if x.name == name then { x with modified := false } else x),
            log := s.log ++ [Event.commitModifications name] } := by
      simp only [ShaderSystem.commitModifications, hfind]
    rw [hres, hcommit]
    refine ⟨rfl, ?_, rfl, rfl⟩
    simp [ShaderSystem.emit]

/-- Witness for C30: the unmodified material `m` of a read-only source, and the modified
material `m` sourced from no file, whose declaration `old` becomes `new`. -/
theorem saveMaterial_commits_only_when_modified_witness :
    ((saveMaterial readOnlyUnmodifiedLibrary "m".toList).1 = none
        ∧ (saveMaterial readOnlyUnmodifiedLibrary "m".toList).2
            = (readOnlyUnmodifiedLibrary.findShader "m".toList).2
        ∧ (saveMaterial readOnlyUnmodifiedLibrary "m".toList).2.log
            = readOnlyUnmodifiedLibrary.log
        ∧ (saveMaterial readOnlyUnmodifiedLibrary "m".toList).2.decls
            = readOnlyUnmodifiedLibrary.decls)
      ∧ (saveMaterial modifiableModifiedLibrary "m".toList).1 = none
      ∧ (saveMaterial modifiableModifiedLibrary "m".toList).2.log
          = modifiableModifiedLibrary.log
            ++ [Event.commitModifications "m".toList, Event.saveDeclaration "m".toList]
      ∧ (saveMaterial modifiableModifiedLibrary "m".toList).2.decls
          = modifiableModifiedLibrary.decls.map (fun d =>
              if d.name == "m".toList then
                { d with contents := (modifiableModifiedLibrary.findShader "m".toList).1.working }
              else d)
      ∧ (saveMaterial modifiableModifiedLibrary "m".toList).2.shaders
          = modifiableModifiedLibrary.shaders.map (fun x =>
              if x.name == "m".toList then { x with modified := false } else x) :=
  ⟨(saveMaterial_commits_only_when_modified readOnlyUnmodifiedLibrary "m".toList).1 (by decide),
   (saveMaterial_commits_only_when_modified modifiableModifiedLibrary "m".toList).2
     (by decide) (by decide)⟩

/-! ## Theorems: particle declarations -/

theorem updateParticleDef_append_new (lib : ParticleDefLib) (defs : List (ParticleDef lib))
    (d : ParticleDef lib) (f : ParticleDef lib → ParticleDef lib)
    (hnew : ∀ x ∈ defs, x.name ≠ d.name) :
    updateParticleDef lib (defs ++ [d]) d.name f = defs ++ [f d] := by
  unfold updateParticleDef
  rw [List.map_append]
  congr 1
  · conv => rhs; rw [← List.map_id defs]
    apply List.map_congr_left
    intro x hx
    simp [hnew x hx]
  · simp

theorem find?_particleDef_none (lib : ParticleDefLib) (defs : List (ParticleDef lib))
    (name : Str) (hnew : ∀ x ∈ defs, x.name ≠ name) :
    defs.find? (fun d => d.name == name) = none := by
  rw [List.find?_eq_none]
  intro x hx
  simpa using hnew x hx

theorem find?_particleDef_last (lib : ParticleDefLib) (defs : List (ParticleDef lib))
    (d : ParticleDef lib) (hnew : ∀ x ∈ defs, x.name ≠ d.name) :
    (defs ++ [d]).find? (fun x => x.name == d.name) = some d := by
  rw [List.find?_append, find?_particleDef_none lib defs d.name hnew]
  simp

/-- C23 (counterexample): the block `particle fire` is parsed from `a.prt` and then again from
`b.prt`.  One definition is registered under `fire`, but it records the file name `b.prt` and
holds what the second block says. -/
theorem parseParticleDef_second_block_takes_over :
    parseParticleDef exampleParticleDefLib [] fireBlockOne "a.prt".toList
        = Except.ok ([{ name := "fire".toList, filename := "a.prt".toList,
                        content := ["count".toList, "1".toList] }], [])
      ∧ parseParticleDef exampleParticleDefLib
          [{ name := "fire".toList, filename := "a.prt".toList,
             content := ["count".toList, "1".toList] }] fireBlockTwo "b.prt".toList
        = Except.ok ([{ name := "fire".toList, filename := "b.prt".toList,
                        content := ["count".toList, "2".toList] }], [])
      ∧ "b.prt".toList ≠ "a.prt".toList := by
  refine ⟨rfl, rfl, by decide⟩

theorem parseParticleDef_particle (lib : ParticleDefLib) (defs : List (ParticleDef lib))
    (name filename : Str) (body : List Str) :
    parseParticleDef lib defs ("particle".toList :: name :: openBrace :: body) filename
      = match (lib.parseFromTokens (findOrInsertParticleDefInternal lib defs name).1.content
                body).2 with
        | Except.error e =>
          Except.error (e, updateParticleDef lib
            (updateParticleDef lib (findOrInsertParticleDefInternal lib defs name).2 name
              (fun d => { d with filename := filename })) name
            (fun d => { d with content := (lib.parseFromTokens
              (findOrInsertParticleDefInternal lib defs name).1.content body).1 }))
        | Except.ok tok4 =>
          Except.ok (updateParticleDef lib
            (updateParticleDef lib (findOrInsertParticleDefInternal lib defs name).2 name
              (fun d => { d with filename := filename })) name
            (fun d => { d with content := (lib.parseFromTokens
              (findOrInsertParticleDefInternal lib defs name).1.content body).1 }), tok4) := by
  simp only [parseParticleDef, nextToken, assertNextToken, ne_eq, not_true_eq_false, if_false,
    if_true]

/-- C23 (amended): when two `particle` blocks with the same name, not registered before, are
parsed, the first from file `f1` and the second from file `f2`, exactly one definition is
registered under that name, the one created for the first block; the second block overwrites
it: its recorded file name becomes `f2` and the definition parses itself again from the tokens
of the second block.  The other definitions stay as they are. -/
theorem parseParticleDef_same_name_overwrites (lib : ParticleDefLib)
    (defs : List (ParticleDef lib)) (name f1 f2 : Str) (body1 body2 rest1 rest2 : List Str)
    (c1 c2 : lib.Content)
    (hnew : ∀ d ∈ defs, d.name ≠ name)
    (h1 : lib.parseFromTokens (lib.create name) body1 = (c1, Except.ok rest1))
    (h2 : lib.parseFromTokens c1 body2 = (c2, Except.ok rest2)) :
    parseParticleDef lib defs ("particle".toList :: name :: openBrace :: body1) f1
        = Except.ok (defs ++ [{ name := name, filename := f1, content := c1 }], rest1)
      ∧ parseParticleDef lib (defs ++ [{ name := name, filename := f1, content := c1 }])
          ("particle".toList :: name :: openBrace :: body2) f2
        = Except.ok (defs ++ [{ name := name, filename := f2, content := c2 }], rest2)
      ∧ ((defs ++ [({ name := name, filename := f2, content := c2 } : ParticleDef lib)]).filter
          (fun d => d.name = name)).length = 1 := by
  refine ⟨?_, ?_, ?_⟩
  · rw [parseParticleDef_particle]
    have hf : findOrInsertParticleDefInternal lib defs name
        = ({ name := name, filename := [], content := lib.create name },
           defs ++ [{ name := name, filename := [], content := lib.create name }]) := by
      simp only [findOrInsertParticleDefInternal, find?_particleDef_none lib defs name hnew]
    rw [hf]
    simp only [h1]
    rw [updateParticleDef_append_new lib defs
      { name := name, filename := [], content := lib.create name } _ hnew]
    rw [updateParticleDef_append_new lib defs
      { name := name, filename := f1, content := lib.create name } _ hnew]
  · rw [parseParticleDef_particle]
    have hf : findOrInsertParticleDefInternal lib
          (defs ++ [{ name := name, filename := f1, content := c1 }]) name
        = ({ name := name, filename := f1, content := c1 },
           defs ++ [{ name := name, filename := f1, content := c1 }]) := by
      simp only [findOrInsertParticleDefInternal]
      rw [find?_particleDef_last lib defs { name := name, filename := f1, content := c1 } hnew]
    rw [hf]
    simp only [h2]
    rw [updateParticleDef_append_new lib defs
      { name := name, filename := f1, content := c1 } _ hnew]
    rw [updateParticleDef_append_new lib defs
      { name := name, filename := f2, content := c1 } _ hnew]
  · rw [List.filter_append]
    have : defs.filter (fun d => decide (d.name = name)) = [] := by
      rw [List.filter_eq_nil_iff]
      intro x hx
      simpa using hnew x hx
    rw [this]
    simp

/-- Witness for C23 (amended): the block `particle fire` parsed from `a.prt` and then from
`b.prt`, no definition being registered before. -/
theorem parseParticleDef_same_name_overwrites_witness :
    parseParticleDef exampleParticleDefLib [] fireBlockOne "a.prt".toList
        = Except.ok ([] ++ [{ name := "fire".toList, filename := "a.prt".toList,
                              content := ["count".toList, "1".toList] }], [])
      ∧ parseParticleDef exampleParticleDefLib
          ([] ++ [{ name := "fire".toList, filename := "a.prt".toList,
                    content := ["count".toList, "1".toList] }]) fireBlockTwo "b.prt".toList
        = Except.ok ([] ++ [{ name := "fire".toList, filename := "b.prt".toList,
                              content := ["count".toList, "2".toList] }], [])
      ∧ (([] ++ [({ name := "fire".toList, filename := "b.prt".toList,
                    content := ["count".toList, "2".toList] }
                  : ParticleDef exampleParticleDefLib)]).filter
          (fun (d : ParticleDef exampleParticleDefLib) => d.name = "fire".toList)).length
        = 1 :=
  parseParticleDef_same_name_overwrites exampleParticleDefLib [] "fire".toList "a.prt".toList
    "b.prt".toList ["count".toList, "1".toList, closeBrace]
    ["count".toList, "2".toList, closeBrace] [] [] ["count".toList, "1".toList]
    ["count".toList, "2".toList] (by simp) rfl rfl

/-! ## Theorems: prefab insertion -/

/-- C24: for every initial texture-lock value and every target point, `loadPrefabAt` with a
non-empty chosen prefab path deselects everything, imports the prefab, switches texture lock on,
translates the selection by the target point while texture lock is on, and sets texture lock
back, all within the scope of one undoable command; the texture-lock flag ends with its initial
value.  With an empty chosen path it makes no call and changes no state. -/
theorem loadPrefabAt_restores_texture_lock {V : Type} (chosen : Str) (ctx : PrefabContext V)
    (p : V) :
    (chosen ≠ [] →
        (Map.loadPrefabAt chosen ctx p).calls
            = ctx.calls ++ [PrefabCall.undoStart "loadPrefabAt".toList,
                PrefabCall.setSelectedAll false,
                PrefabCall.importMap chosen,
                PrefabCall.setTextureLock true,
                PrefabCall.translateSelected p true,
                PrefabCall.setTextureLock ctx.textureLock,
                PrefabCall.undoFinish "loadPrefabAt".toList]
          ∧ (Map.loadPrefabAt chosen ctx p).textureLock = ctx.textureLock)
      ∧ (chosen = [] → Map.loadPrefabAt chosen ctx p = ctx) := by
  constructor
  · intro h
    have hb : chosen.isEmpty = false := by
      cases chosen with
      | nil => exact absurd rfl h
      | cons _ _ => rfl
    simp [Map.loadPrefabAt, hb, PrefabContext.call, PrefabContext.setTextureLock]
  · intro h
    subst h
    rfl

/-- Witness for C24: the prefab `prefabs/door.pfb` inserted at (64, 0, -16) with texture lock
off, and the selector closed without a choice. -/
theorem loadPrefabAt_restores_texture_lock_witness :
    ((Map.loadPrefabAt "prefabs/door.pfb".toList
          ({ textureLock := false, calls := [] } : PrefabContext (Int × Int × Int))
          (64, 0, -16)).calls
        = [] ++ [PrefabCall.undoStart "loadPrefabAt".toList,
            PrefabCall.setSelectedAll false,
            PrefabCall.importMap "prefabs/door.pfb".toList,
            PrefabCall.setTextureLock true,
            PrefabCall.translateSelected (64, 0, -16) true,
            PrefabCall.setTextureLock false,
            PrefabCall.undoFinish "loadPrefabAt".toList]
      ∧ (Map.loadPrefabAt "prefabs/door.pfb".toList
          ({ textureLock := false, calls := [] } : PrefabContext (Int × Int × Int))
          (64, 0, -16)).textureLock = false)
    ∧ Map.loadPrefabAt []
          ({ textureLock := true, calls := [] } : PrefabContext (Int × Int × Int)) (64, 0, -16)
        = { textureLock := true, calls := [] } :=
  ⟨(loadPrefabAt_restores_texture_lock "prefabs/door.pfb".toList
      ({ textureLock := false, calls := [] } : PrefabContext (Int × Int × Int))
      (64, 0, -16)).1 (by decide),
   (loadPrefabAt_restores_texture_lock []
      ({ textureLock := true, calls := [] } : PrefabContext (Int × Int × Int))
      (64, 0, -16)).2 rfl⟩

/-! ## Theorems: saving on request -/

/-- C26 (evaluation at the failing input): the named map `maps/a.map` is modified, the user
answers the confirmation with yes and the save fails.  `askForSave` returns true although the
map was not saved and is still modified.  For the unnamed map the same failure makes
`askForSave` return false. -/
theorem askForSave_named_ignores_failed_save :
    (Map.save failingSaveEnv modifiedNamedMap).1 = false
      ∧ Map.askForSave failingSaveEnv modifiedNamedMap
          = (true, { modifiedNamedMap with saves := [("maps/a.map".toList, false)] })
      ∧ (Map.askForSave failingSaveEnv modifiedNamedMap).2.modified = true
      ∧ (Map.askForSave failingSaveEnv modifiedUnnamedMap).1 = false := by
  decide

/-! ## Theorems: entity class inheritance -/

/-- A deeper bound on the recursion does not change a result reached within a bound. -/
theorem resolveInheritance_depth_mono
    (copyAttributes : List (Str × Str) → List (Str × Str) → List (Str × Str)) (n : Nat) :
    ∀ (h : EClassHeap) (self : Nat) (r : EClassHeap),
      resolveInheritance copyAttributes n h self = some r →
      resolveInheritance copyAttributes (n + 1) h self = some r := by
  induction n with
  | zero => intro h self r hr; simp [resolveInheritance] at hr
  | succ k ih =>
    intro h self r hr
    rw [resolveInheritance] at hr ⊢
    cases hget : h.objects.get? self with
    | none => rw [hget] at hr; exact hr
    | some this =>
      rw [hget] at hr
      simp only at hr ⊢
      by_cases hres : this.inheritanceResolved = true
      · rw [if_pos hres] at hr ⊢; exact hr
      · rw [if_neg hres] at hr ⊢
        by_cases hpar : ((this.getAttribute "inherit".toList).isEmpty
              || this.getAttribute "inherit".toList == this.name) = true
        · rw [if_pos hpar] at hr ⊢; exact hr
        · rw [if_neg hpar] at hr ⊢
          cases hfind : h.find (this.getAttribute "inherit".toList) with
          | none => rw [hfind] at hr; exact hr
          | some par =>
            rw [hfind] at hr
            simp only at hr ⊢
            cases hrec : resolveInheritance copyAttributes k h par with
            | none => rw [hrec] at hr; simp at hr
            | some h1 =>
              rw [hrec] at hr
              rw [ih h par h1 hrec]
              exact hr

theorem resolveInheritance_parent_none
    (copyAttributes : List (Str × Str) → List (Str × Str) → List (Str × Str)) (n : Nat)
    (h : EClassHeap) (self par : Nat) (this : EClass)
    (hget : h.objects.get? self = some this)
    (hres : this.inheritanceResolved = false)
    (hpar : ((this.getAttribute "inherit".toList).isEmpty
              || this.getAttribute "inherit".toList == this.name) = false)
    (hfind : h.find (this.getAttribute "inherit".toList) = some par)
    (hrec : resolveInheritance copyAttributes n h par = none) :
    resolveInheritance copyAttributes (n + 1) h self = none := by
  simp only [resolveInheritance, hget, hres, hpar, hfind, hrec, Bool.false_eq_true, if_false]

theorem resolveInheritance_cyclic_none
    (copyAttributes : List (Str × Str) → List (Str × Str) → List (Str × Str)) (n : Nat) :
    resolveInheritance copyAttributes n cyclicClasses 0 = none
      ∧ resolveInheritance copyAttributes n cyclicClasses 1 = none := by
  induction n with
  | zero => exact ⟨rfl, rfl⟩
  | succ k ih =>
    constructor
    · exact resolveInheritance_parent_none copyAttributes k cyclicClasses 0 1
        { name := "a".toList, attributes := [("inherit".toList, "b".toList)],
          inheritanceResolved := false } rfl rfl (by decide) (by decide) ih.2
    · exact resolveInheritance_parent_none copyAttributes k cyclicClasses 1 0
        { name := "b".toList, attributes := [("inherit".toList, "a".toList)],
          inheritanceResolved := false } rfl rfl (by decide) (by decide) ih.1

/-- C27 (evaluation at the failing input): with two entity classes `a` and `b` inheriting from
each other, `resolveInheritance` on `a` does not return: whatever bound is put on the depth of
the recursion, the recursion goes deeper.  With a class inheriting from itself the call returns
at once and changes nothing. -/
theorem resolveInheritance_two_cycle_never_returns
    (copyAttributes : List (Str × Str) → List (Str × Str) → List (Str × Str)) :
    (∀ depth, resolveInheritance copyAttributes depth cyclicClasses 0 = none)
      ∧ resolveInheritance copyAttributes 1 selfParentClasses 0 = some selfParentClasses := by
  exact ⟨fun n => (resolveInheritance_cyclic_none copyAttributes n).1, rfl⟩

/-! ## Theorems: patch control access from scripts -/

/-- C28 (evaluation at the failing input): for every patch of height `h` and width `w`,
`ctrlAt(h, 0)` and `ctrlAt(0, w)` are out of bounds, yet `ScriptPatchNode::ctrlAt` reports no
error and forwards them to the patch's `ctrlAt`; the guard rejects a pair only when
`row > h` or `col > w`.  On a patch of 3 by 3, `ctrlAt(3, 0)` is forwarded and `ctrlAt(4, 0)`
is rejected. -/
theorem ctrlAt_forwards_index_equal_to_dimension (h w : Nat) :
    ScriptPatchNode.ctrlAt (some { height := h, width := w }) h 0
        = (PatchControlRef.patchCtrlAt h 0, [])
      ∧ ScriptPatchNode.ctrlAt (some { height := h, width := w }) 0 w
        = (PatchControlRef.patchCtrlAt 0 w, [])
      ∧ (∀ row col, (ScriptPatchNode.ctrlAt (some { height := h, width := w }) row col).1
            = PatchControlRef.patchCtrlAt row col ↔ row ≤ h ∧ col ≤ w)
      ∧ ScriptPatchNode.ctrlAt (some { height := 3, width := 3 }) 3 0
        = (PatchControlRef.patchCtrlAt 3 0, [])
      ∧ (ScriptPatchNode.ctrlAt (some { height := 3, width := 3 }) 4 0).1
        = PatchControlRef.emptyPatchControl := by
  refine ⟨?_, ?_, ?_, by decide, by decide⟩
  · simp [ScriptPatchNode.ctrlAt]
  · simp [ScriptPatchNode.ctrlAt]
  · intro row col
    simp only [ScriptPatchNode.ctrlAt]
    by_cases hg : (decide (row > h) || decide (col > w)) = true
    · simp only [hg, if_true]
      constructor
      · intro hc; cases hc
      · rintro ⟨h1, h2⟩
        simp only [Bool.or_eq_true, decide_eq_true_eq] at hg
        omega
    · simp only [hg, if_false]
      simp only [Bool.or_eq_true, decide_eq_true_eq, not_or, not_lt] at hg
      exact ⟨fun _ => hg, fun _ => rfl⟩

/-! ## Theorems: column types of the tree model -/

/-- C29 (evaluation at the failing input): for every column type, `getWxType()` returns the empty
string on the first call and on every later call: the static vector is constructed with
`NumTypes` empty strings, so it is never empty and the names are never filled in. -/
theorem getWxType_returns_empty_string (first type : ColumnType) :
    (getWxType none type).1 = []
      ∧ (getWxType none type).2 = some (List.replicate NumTypes [])
      ∧ (getWxType (getWxType none first).2 type).1 = []
      ∧ (getWxType (getWxType none first).2 type).2 = (getWxType none first).2
      ∧ (getWxType none ColumnType.String).1 ≠ "string".toList := by
  cases first <;> cases type <;> decide

/-! ## Theorems: `saveParticleDef` where the header pattern misfires -/

theorem skipBlock_eq_fuel (n : Nat) : ∀ (inp : IStream) (ob : Nat) (bs : Bool),
    inp.buf.length < n → skipBlock inp ob bs = skipBlockFuel n inp ob bs := by
  induction n with
  | zero => intro inp ob bs h; omega
  | succ k ih =>
    intro inp ob bs h
    rw [skipBlock, skipBlockFuel]
    split
    · rename_i inp2 heq
      rw [heq]
    · rename_i line inp2 heq
      rw [heq]
      simp only
      have hlt := getline_some_lt _ _ _ heq
      split
      · rfl
      · exact ih _ _ _ (by omega)

theorem stripLoop_eq_fuel (matcher : Str → MatchResult) (n : Nat) :
    ∀ (inp : IStream) (out : Str),
    inp.buf.length < n → stripLoop matcher inp out = stripLoopFuel matcher n inp out := by
  induction n with
  | zero => intro inp out h; omega
  | succ k ih =>
    intro inp out h
    rw [stripLoop, stripLoopFuel]
    split
    · rename_i inp2 heq
      rw [heq]
    · rename_i line inp2 heq
      rw [heq]
      simp only
      have hlt := getline_some_lt _ _ _ heq
      cases hm : matcher line with
      | none => exact ih _ _ (by omega)
      | some subs =>
        simp only
        split
        · rw [skipBlock_eq_fuel (k + 1) _ _ _ (by omega)]
        · rw [skipBlock_eq_fuel (k + 1) _ _ _ (by omega)]

/-- Evaluation of `stripParticleDefFromStream` with the modelled library through the bounded
loops. -/
theorem stripParticleDefFromStream_eval (fileBytes particleName : Str) (n : Nat)
    (hc : (boostRegex (headerPattern particleName)).isSome = true)
    (hn : fileBytes.length < n) :
    stripParticleDefFromStream boostRegex (IStream.opened fileBytes) [] particleName
      = some (stripLoopFuel ((boostRegex (headerPattern particleName)).getD (fun _ => none)) n
          (IStream.opened fileBytes) []) := by
  unfold stripParticleDefFromStream
  rw [eq_some_getD _ (fun _ => none) hc]
  simp only [Option.getD_some]
  rw [stripLoop_eq_fuel _ n _ _ hn]

/-- C3 (evaluation at the failing inputs): the particle `a.b` is saved into a file holding the
blocks of `axb` and of `a.b`.  The header pattern, built from the name without escaping, takes
`particle axb` for the header: the two lines of `axb`, which do not belong to the saved
particle, are lost, and the old block of `a.b` is kept after the new declaration.  When `x` is
saved into a file whose header of `x` has two opening braces, the block is left after its first
closing brace and the second one stays in the file. -/
theorem saveParticleDef_drops_lines_of_other_particle :
    saveParticleDef boostRegex dottedNameParticleFile "a.b".toList
        "particle a.b \x7b NEW \x7d".toList
      = some "particle a.b \x7b NEW \x7d\nparticle a.b \x7b\n old\n\x7d\n".toList
      ∧ linesOf dottedNameParticleFile
        = ["particle axb \x7b".toList, "\x7d".toList, "particle a.b \x7b".toList,
           " old".toList, "\x7d".toList]
      ∧ saveParticleDef boostRegex doubleBraceParticleFile "x".toList
          "particle x \x7b NEW \x7d".toList
        = some ("particle a \x7b\n\x7d\nparticle x \x7b NEW \x7d\n".toList
            ++ "\x7d\nparticle b \x7b\n\x7d\n".toList) := by
  refine ⟨?_, by decide, ?_⟩
  · unfold saveParticleDef
    rw [stripParticleDefFromStream_eval dottedNameParticleFile "a.b".toList 60 (by decide)
      (by decide)]
    decide
  · unfold saveParticleDef
    rw [stripParticleDefFromStream_eval doubleBraceParticleFile "x".toList 60 (by decide)
      (by decide)]
    decide

/-- C4 (evaluation at the failing inputs): in a file in which the header `particle x{{` is
followed by two closing braces, the running count of `{` minus `}` returns to zero on the second
line after the header, yet `stripParticleDefFromStream` counts one brace for the header, stops
after the first line and leaves the second closing brace in the input.  With the name `a.b` and
a file holding the blocks of `axb` and of `a.b`, it drops the block of `axb` and leaves the
header line of `a.b` with its block in the input. -/
theorem stripParticleDefFromStream_stops_before_block_end :
    closesAt true (braceDelta "particle x\x7b\x7b".toList)
        ["\x7d".toList, "\x7d".toList, "particle b \x7b".toList, "\x7d".toList] = some 1
      ∧ stripParticleDefFromStream boostRegex (IStream.opened doubleBraceParticleFile) []
          "x".toList
        = some ({ buf := "\x7d\nparticle b \x7b\n\x7d\n".toList, eof := false, fail := false },
            "particle a \x7b\n\x7d\n".toList)
      ∧ stripParticleDefFromStream boostRegex (IStream.opened dottedNameParticleFile) []
          "a.b".toList
        = some ({ buf := "particle a.b \x7b\n old\n\x7d\n".toList, eof := false,
                  fail := false }, []) := by
  refine ⟨by decide, ?_, ?_⟩
  · rw [stripParticleDefFromStream_eval doubleBraceParticleFile "x".toList 60 (by decide)
      (by decide)]
    decide
  · rw [stripParticleDefFromStream_eval dottedNameParticleFile "a.b".toList 60 (by decide)
      (by decide)]
    decide

end DarkRadiant
